import Mathlib

/-!
# qmp_helper: byte bridge between a UNIX stream socket and an Argo channel

A shallow embedding of `qmp_helper/src/qmp_helper.c`.

* The process state `qhs` is the record `qmp_helper_state`; every C function
  taking `pqhs` becomes a function from the state (and the world) to the
  returned `int`, the new state and the new world.
* System calls are answered by the environment.  The `World` holds, for each
  kind of call, the queue of results the environment will give, and the trace
  of the calls performed so far (oldest first).  A function whose next call
  finds its queue empty yields `none`: the call has not returned yet.
* C `int` values are `Int`; bytes are `Nat` values, only ever copied.
* `QMPH_LOG` only appends a line to the system log; it is not modelled.
-/

namespace QmpHelper

/-- A byte of payload, represented by its numeric value. -/
abbrev Byte := Nat

/-- The Argo address record of libargo: a port and a domain id. -/
structure xen_argo_addr_t where
  aport : Nat
  domain_id : Int
deriving DecidableEq, Repr

/-- The helper state, `struct qmp_helper_state`. -/
structure qmp_helper_state where
  guest_id : Int
  stubdom_id : Int
  argo_fd : Int
  remote_addr : xen_argo_addr_t
  local_addr : xen_argo_addr_t
  listen_fd : Int
  unix_fd : Int
  connected : Bool
  msg_buf : List Byte
deriving DecidableEq, Repr

/-- The result of a system call that only reports a count or a failure:
the returned value and the value left in `errno`. -/
structure SysRet where
  ret : Int
  errno : Int
deriving DecidableEq, Repr

/-- The result of `read`: returned value, `errno`, and the bytes the kernel
stored at the start of the buffer (the first `ret` of them are stored). -/
structure ReadRet where
  ret : Int
  errno : Int
  data : List Byte
deriving DecidableEq, Repr

/-- The result of `argo_recvfrom`: as for `read`, plus the source address the
call stores through its address argument. -/
structure RecvRet where
  ret : Int
  errno : Int
  data : List Byte
  src : xen_argo_addr_t
deriving DecidableEq, Repr

/-- The result of the blocking `select`: either the call returns, with the
descriptors the environment reports readable, or SIGINT is delivered while
the process waits. -/
inductive SelectRet where
  | done (ret : Int) (errno : Int) (ready : List Int)
  | sigint
deriving DecidableEq, Repr

/-- One performed call, as recorded in the trace. -/
inductive Event where
  | openlog
  | signal_sigint
  | argo_socket (ret : Int)
  | ioctl_setringsize (fd : Int) (size : Nat) (ret : Int)
  | argo_bind (fd : Int) (addr : xen_argo_addr_t) (partner : Int) (ret : Int)
  | socket (ret : Int)
  | unlink (path : String)
  | bind (fd : Int) (path : String) (ret : Int)
  | listen (fd : Int) (backlog : Int) (ret : Int)
  | select (nfds : Int) (rfds : List Int)
  | accept (lfd : Int) (ret : Int)
  | read (fd : Int) (count : Nat) (ret : Int)
  | argo_sendto (fd : Int) (payload : List Byte) (addr : xen_argo_addr_t) (ret : Int)
  | argo_recvfrom (fd : Int) (count : Nat) (ret : Int)
  | write (fd : Int) (payload : List Byte) (ret : Int)
  | close (fd : Int)
  | argo_close (fd : Int)
  | closelog
  | exit (code : Int)
deriving DecidableEq, Repr

/-- The environment seen by the event loop: pending results per kind of
call, and the trace of performed calls. -/
structure World where
  selects : List SelectRet
  accepts : List SysRet
  reads : List ReadRet
  sends : List SysRet
  recvs : List RecvRet
  writes : List SysRet
  trace : List Event
deriving DecidableEq, Repr

/-- Append one event to the trace. -/
def World.emit (w : World) (e : Event) : World :=
  { w with trace := w.trace ++ [e] }

/-- The value of `EINTR` from `errno.h` (Linux). -/
def EINTR : Int := 4

/-- `ARGO_MAGIC_CONNECT`, the bytes of "live". -/
def ARGO_MAGIC_CONNECT : List Byte := [108, 105, 118, 101]

/-- `ARGO_MAGIC_DISCONNECT`, the bytes of "dead". -/
def ARGO_MAGIC_DISCONNECT : List Byte := [100, 101, 97, 100]

/-- The buffer after a call stored `data` at its start. -/
def buf_store (buf data : List Byte) : List Byte :=
  (data ++ buf.drop data.length).take buf.length

/-- The loop of `argo_sendto_all`, by recursion on the pending send results.
`sent` and `ret` are the C locals; each round sends the unsent suffix
`buf + sent` of length `size - sent`. -/
def argo_sendto_all_loop (argo_fd : Int) (buf : List Byte) (size : Int)
    (addr : xen_argo_addr_t) :
    List SysRet → Int → Int → List Event → Option (Int × List SysRet × List Event)
  | [], sent, ret, trace =>
    if sent < size then none else some (ret, [], trace)
  | r :: rest, sent, ret, trace =>
    if sent < size then
      let trace1 := trace ++
        [Event.argo_sendto argo_fd ((buf.drop sent.toNat).take (size - sent).toNat) addr r.ret]
      if r.ret < 0 then
        if r.errno = EINTR then
          argo_sendto_all_loop argo_fd buf size addr rest sent r.ret trace1
        else
          some (-1, rest, trace1)
      else
        argo_sendto_all_loop argo_fd buf size addr rest (sent + r.ret) r.ret trace1
    else
      some (ret, r :: rest, trace)

/-- The function `argo_sendto_all`.  The local `ret` is not initialised in C;
it is read only after a first round, which every `size > 0` has. -/
def argo_sendto_all (argo_fd : Int) (buf : List Byte) (size : Int)
    (addr : xen_argo_addr_t) (w : World) : Option (Int × World) :=
  match argo_sendto_all_loop argo_fd buf size addr w.sends 0 0 w.trace with
  | none => none
  | some (ret, rest, trace) => some (ret, { w with sends := rest, trace := trace })

/-- The function `qmp_magic_message`. -/
def qmp_magic_message (pqhs : qmp_helper_state) (connect : Bool) (w : World) :
    Option (Int × qmp_helper_state × World) :=
  let magic := if connect then ARGO_MAGIC_CONNECT else ARGO_MAGIC_DISCONNECT
  let sz : Int := magic.length
  if pqhs.connected = connect then
    some (0, pqhs, w)
  else
    match argo_sendto_all pqhs.argo_fd magic sz pqhs.remote_addr w with
    | none => none
    | some (ret, w1) =>
      if ret = sz then some (ret, { pqhs with connected := connect }, w1)
      else some (ret, pqhs, w1)

/-- The function `qmp_connect`. -/
def qmp_connect (pqhs : qmp_helper_state) (w : World) :
    Option (Int × qmp_helper_state × World) :=
  qmp_magic_message pqhs true w

/-- The function `qmp_disconnect`. -/
def qmp_disconnect (pqhs : qmp_helper_state) (w : World) :
    Option (Int × qmp_helper_state × World) :=
  qmp_magic_message pqhs false w

/-- One call of `argo_sendto` outside the handshake. -/
def argo_sendto (fd : Int) (payload : List Byte) (addr : xen_argo_addr_t)
    (w : World) : Option (SysRet × World) :=
  match w.sends with
  | [] => none
  | r :: rest =>
    some (r, { w with sends := rest,
                      trace := w.trace ++ [Event.argo_sendto fd payload addr r.ret] })

/-- The function `qmph_unix_to_argo`. -/
def qmph_unix_to_argo (pqhs : qmp_helper_state) (w : World) :
    Option (Int × qmp_helper_state × World) :=
  match w.reads with
  | [] => none
  | rd :: rest =>
    let rcv := rd.ret
    let s1 := { pqhs with msg_buf := buf_store pqhs.msg_buf (rd.data.take rcv.toNat) }
    let w1 := { w with reads := rest,
                       trace := w.trace ++ [Event.read pqhs.unix_fd pqhs.msg_buf.length rcv] }
    if rcv < 0 then
      some (rcv, s1, w1)
    else if rcv = 0 then
      match qmp_disconnect s1 w1 with
      | none => none
      | some (_, s2, w2) =>
        some (0, { s2 with unix_fd := -1 }, w2.emit (Event.close s2.unix_fd))
    else
      match argo_sendto s1.argo_fd (s1.msg_buf.take rcv.toNat) s1.remote_addr w1 with
      | none => none
      | some (r, w2) =>
        if r.ret ≠ rcv then
          if r.ret = -1 then
            some (-1, { s1 with unix_fd := -1, connected := false },
                  w2.emit (Event.close s1.unix_fd))
          else
            some (-1, s1, w2)
        else
          some (0, s1, w2)

/-- The function `qmph_argo_to_unix`.  The receive stores the source address
of the datagram in `remote_addr`, the address argument it is given. -/
def qmph_argo_to_unix (pqhs : qmp_helper_state) (w : World) :
    Option (Int × qmp_helper_state × World) :=
  match w.recvs with
  | [] => none
  | rc :: rest =>
    let rcv := rc.ret
    let s1 := { pqhs with msg_buf := buf_store pqhs.msg_buf (rc.data.take rcv.toNat),
                          remote_addr := rc.src }
    let w1 := { w with recvs := rest,
                       trace := w.trace ++
                         [Event.argo_recvfrom pqhs.argo_fd pqhs.msg_buf.length rcv] }
    if rcv < 0 then
      some (rcv, s1, w1)
    else if s1.unix_fd = -1 then
      some (0, s1, w1)
    else
      match w1.writes with
      | [] => none
      | wr :: wrest =>
        let w2 := { w1 with writes := wrest,
                            trace := w1.trace ++
                              [Event.write s1.unix_fd (s1.msg_buf.take rcv.toNat) wr.ret] }
        if wr.ret < 0 then
          some (0, { s1 with unix_fd := -1 }, w2.emit (Event.close s1.unix_fd))
        else
          some (0, s1, w2)

/-- The process globals: the state `qhs` and the flag `pending_exit`. -/
structure Globals where
  qhs : qmp_helper_state
  pending_exit : Int
deriving DecidableEq, Repr

/-- The results the environment gives to the calls made once at startup. -/
structure StartupEnv where
  argo_socket_ret : Int
  ioctl_ret : Int
  argo_bind_ret : Int
  socket_ret : Int
  bind_ret : Int
  listen_ret : Int
deriving DecidableEq, Repr

/-- How a run of `main` stands: `main` returned, the process left through
`exit`, or it is still in the loop (at the top of an iteration whose calls
the environment has not yet answered, or out of the iterations allowed). -/
inductive Outcome where
  | returned (code : Int) (g : Globals) (w : World)
  | exited (code : Int) (g : Globals) (w : World)
  | running (g : Globals) (w : World)
deriving DecidableEq, Repr

/-- How one pass through the loop body ends. -/
inductive LoopStep where
  | continue (g : Globals) (w : World)
  | break_ (g : Globals) (w : World)
  | exited (code : Int) (g : Globals) (w : World)
  | blocked
deriving DecidableEq, Repr

/-- The status a parent process observes for `exit(code)`: its low 8 bits. -/
def exit_status (code : Int) : Int := code % 256

/-- `XEN_ARGO_MSG_SLOT_SIZE`. -/
def XEN_ARGO_MSG_SLOT_SIZE : Nat := 16

/-- The macro `roundup(x, y)` of `sys/param.h`. -/
def roundup (x y : Nat) : Nat := ((x + (y - 1)) / y) * y

/-- `XEN_ARGO_ROUNDUP`. -/
def XEN_ARGO_ROUNDUP (a : Nat) : Nat := roundup a XEN_ARGO_MSG_SLOT_SIZE

/-- `ARGO_QH_PORT`. -/
def ARGO_QH_PORT : Nat := 5100

/-- `ARGO_CHARDRV_PORT`. -/
def ARGO_CHARDRV_PORT : Nat := 15100

/-- `ARGO_CHARDRV_RING_SIZE`; the constant `ARGO_RING_OVERHEAD` of libargo is
a parameter, taken to be at most `4096 * 4`. -/
def ARGO_CHARDRV_RING_SIZE (ARGO_RING_OVERHEAD : Nat) : Nat :=
  XEN_ARGO_ROUNDUP (4096 * 4 - ARGO_RING_OVERHEAD)

/-- The function `qmph_exit_cleanup`, up to and including the call of `exit`. -/
def qmph_exit_cleanup (exit_code : Int) (g : Globals) (w : World) : Globals × World :=
  let w1 := w.emit (Event.close g.qhs.unix_fd)
  let w2 := w1.emit (Event.close g.qhs.listen_fd)
  let w3 := w2.emit (Event.argo_close g.qhs.argo_fd)
  let w4 := w3.emit Event.closelog
  ({ qhs := { g.qhs with unix_fd := -1, argo_fd := -1 }, pending_exit := 1 },
   w4.emit (Event.exit exit_code))

/-- The conversion of an `int` to `domid_t`, the 16-bit unsigned domain id of
the Xen public headers: the value modulo 65536. -/
def to_domid (id : Int) : Int := id % 65536

/-- The function `qmph_init_argo_socket`.  The field `domain_id` and the
partner argument of `argo_bind` are of type `domid_t`, so `stubdom_id` reaches
them converted. -/
def qmph_init_argo_socket (ARGO_RING_OVERHEAD : Nat) (env : StartupEnv)
    (pqhs : qmp_helper_state) (w : World) : Int × qmp_helper_state × World :=
  let argo_ring_size := ARGO_CHARDRV_RING_SIZE ARGO_RING_OVERHEAD
  let s1 := { pqhs with argo_fd := env.argo_socket_ret }
  let w1 := w.emit (Event.argo_socket env.argo_socket_ret)
  if s1.argo_fd = -1 then
    (-1, s1, w1)
  else
    let s2 := { s1 with local_addr := { aport := ARGO_QH_PORT, domain_id := 0 },
                        remote_addr := { aport := ARGO_CHARDRV_PORT,
                                         domain_id := to_domid s1.stubdom_id } }
    let w2 := w1.emit (Event.ioctl_setringsize s2.argo_fd argo_ring_size env.ioctl_ret)
    if env.ioctl_ret = -1 then
      (-1, { s2 with argo_fd := -1 }, w2.emit (Event.argo_close s2.argo_fd))
    else
      let w3 := w2.emit
        (Event.argo_bind s2.argo_fd s2.local_addr (to_domid s2.stubdom_id)
          env.argo_bind_ret)
      if env.argo_bind_ret = -1 then
        (-1, { s2 with argo_fd := -1 }, w3.emit (Event.argo_close s2.argo_fd))
      else
        (0, s2, w3)

/-- The function `qmph_accept_unix_socket`. -/
def qmph_accept_unix_socket (pqhs : qmp_helper_state) (w : World) :
    Option (Int × qmp_helper_state × World) :=
  let lfd := pqhs.listen_fd
  match w.accepts with
  | [] => none
  | a :: rest =>
    let cfd := a.ret
    let w1 := { w with accepts := rest, trace := w.trace ++ [Event.accept lfd cfd] }
    if cfd < 0 then
      some (-1, pqhs, w1.emit (Event.close lfd))
    else
      some (0, { pqhs with unix_fd := cfd }, w1)

/-- The socket path built by `qmph_init_unix_socket`. -/
def qmp_socket_path (guest_id : Int) : String :=
  "/var/run/xen/qmp-libxl-" ++ toString guest_id

/-- The function `qmph_init_unix_socket`. -/
def qmph_init_unix_socket (env : StartupEnv) (pqhs : qmp_helper_state) (w : World) :
    Int × qmp_helper_state × World :=
  let s1 := { pqhs with unix_fd := -1 }
  let lfd := env.socket_ret
  let w1 := w.emit (Event.socket lfd)
  if lfd < 0 then
    (-1, s1, w1)
  else
    let path := qmp_socket_path s1.guest_id
    let w2 := w1.emit (Event.unlink path)
    let w3 := w2.emit (Event.bind lfd path env.bind_ret)
    if env.bind_ret < 0 then
      (-1, s1, w3.emit (Event.close lfd))
    else
      let w4 := w3.emit (Event.listen lfd 1 env.listen_ret)
      if env.listen_ret < 0 then
        (-1, s1, w4.emit (Event.close lfd))
      else
        (0, { s1 with listen_fd := lfd }, w4)

/-- The function `qmph_signal_handler`. -/
def qmph_signal_handler (g : Globals) (w : World) : Globals × World :=
  qmph_exit_cleanup 0 g w

/-- `FD_SET` on a descriptor set kept as a list without repetition. -/
def FD_SET (fd : Int) (set : List Int) : List Int :=
  if fd ∈ set then set else set ++ [fd]

/-- `FD_ISSET`.  The loop evaluates it on descriptors `>= 0` and on
`unix_fd = -1` (line 428).  On -1 the macro is undefined in C; the default
glibc build then tests bit 63 of the first word of the set, that is, whether
descriptor 63 is in it, and this is what is modelled (a fortified build
aborts the process instead). -/
def FD_ISSET (fd : Int) (set : List Int) : Bool :=
  if fd = -1 then decide ((63 : Int) ∈ set) else decide (fd ∈ set)

/-- The descriptor set and `nfds` that the loop passes to `select`
(lines 389-404 of `main`). -/
def wait_set (qhs : qmp_helper_state) : Int × List Int :=
  let nfds : Int := -1
  let rfds : List Int := []
  let (nfds, rfds) :=
    if qhs.argo_fd ≥ 0 then
      (if qhs.argo_fd > nfds then qhs.argo_fd else nfds, FD_SET qhs.argo_fd rfds)
    else (nfds, rfds)
  let (nfds, rfds) :=
    if qhs.unix_fd ≥ 0 then
      (if qhs.unix_fd > nfds then qhs.unix_fd else nfds, FD_SET qhs.unix_fd rfds)
    else (nfds, rfds)
  let (nfds, rfds) :=
    if qhs.unix_fd = -1 ∧ qhs.listen_fd ≥ 0 then
      (if qhs.listen_fd > nfds then qhs.listen_fd else nfds, FD_SET qhs.listen_fd rfds)
    else (nfds, rfds)
  (nfds + 1, rfds)

/-- The listener part of the loop body (lines 412-426 of `main`). -/
def main_accept_block (rfds : List Int) (g : Globals) (w : World) : LoopStep :=
  if FD_ISSET g.qhs.listen_fd rfds then
    match qmph_accept_unix_socket g.qhs w with
    | none => LoopStep.blocked
    | some (ret, s1, w1) =>
      if ret ≠ 0 then
        let (g2, w2) := qmph_exit_cleanup ret { g with qhs := s1 } w1
        LoopStep.exited ret g2 w2
      else
        match qmp_connect s1 w1 with
        | none => LoopStep.blocked
        | some (ret, s2, w2) =>
          if ret = -1 then
            LoopStep.continue { g with qhs := { s2 with unix_fd := -1 } }
              (w2.emit (Event.close s2.unix_fd))
          else
            LoopStep.continue { g with qhs := s2 } w2
  else
    LoopStep.continue g w

/-- The client part of the loop body (lines 428-431 of `main`). -/
def main_unix_block (rfds : List Int) (g : Globals) (w : World) : LoopStep :=
  if FD_ISSET g.qhs.unix_fd rfds then
    match qmph_unix_to_argo g.qhs w with
    | none => LoopStep.blocked
    | some (ret, s1, w1) =>
      if ret ≠ 0 then LoopStep.break_ { g with qhs := s1 } w1
      else LoopStep.continue { g with qhs := s1 } w1
  else
    LoopStep.continue g w

/-- The transport part of the loop body (lines 433-436 of `main`). -/
def main_argo_block (rfds : List Int) (g : Globals) (w : World) : LoopStep :=
  if FD_ISSET g.qhs.argo_fd rfds then
    match qmph_argo_to_unix g.qhs w with
    | none => LoopStep.blocked
    | some (ret, s1, w1) =>
      if ret ≠ 0 then LoopStep.break_ { g with qhs := s1 } w1
      else LoopStep.continue { g with qhs := s1 } w1
  else
    LoopStep.continue g w

/-- One pass through the body of the `while` loop of `main`.  SIGINT, when the
environment delivers it, arrives while the process waits in `select` and runs
`qmph_signal_handler`. -/
def main_iteration (g : Globals) (w : World) : LoopStep :=
  let (nfds, rfds0) := wait_set g.qhs
  match w.selects with
  | [] => LoopStep.blocked
  | sel :: rest =>
    let w1 := { w with selects := rest, trace := w.trace ++ [Event.select nfds rfds0] }
    match sel with
    | SelectRet.sigint =>
      let (g2, w2) := qmph_signal_handler g w1
      LoopStep.exited 0 g2 w2
    | SelectRet.done ret errno ready =>
      if ret = -1 then
        let (g2, w2) := qmph_exit_cleanup errno g w1
        LoopStep.exited errno g2 w2
      else
        let rfds := rfds0.filter (fun fd => decide (fd ∈ ready))
        match main_accept_block rfds g w1 with
        | LoopStep.continue g2 w2 =>
          match main_unix_block rfds g2 w2 with
          | LoopStep.continue g3 w3 => main_argo_block rfds g3 w3
          | other => other
        | other => other

/-- The end of `main` after the loop (lines 439-441): `qmph_exit_cleanup(0)`. -/
def main_after_loop (g : Globals) (w : World) : Outcome :=
  let (g1, w1) := qmph_exit_cleanup 0 g w
  Outcome.exited 0 g1 w1

/-- The `while (!pending_exit)` loop of `main` followed by the end of `main`,
run for at most `fuel` iterations. -/
def main_loop : Nat → Globals → World → Outcome
  | 0, g, w => Outcome.running g w
  | fuel + 1, g, w =>
    if g.pending_exit ≠ 0 then
      main_after_loop g w
    else
      match main_iteration g w with
      | LoopStep.continue g1 w1 => main_loop fuel g1 w1
      | LoopStep.break_ g1 w1 => main_after_loop g1 w1
      | LoopStep.exited code g1 w1 => Outcome.exited code g1 w1
      | LoopStep.blocked => Outcome.running g w

/-- The globals after `memset(&qhs, 0, sizeof(qhs))`; `pending_exit` has its
static initial value. -/
def zero_globals (ARGO_RING_OVERHEAD : Nat) : Globals :=
  { qhs := { guest_id := 0, stubdom_id := 0, argo_fd := 0,
             remote_addr := { aport := 0, domain_id := 0 },
             local_addr := { aport := 0, domain_id := 0 },
             listen_fd := 0, unix_fd := 0, connected := false,
             msg_buf := List.replicate (ARGO_CHARDRV_RING_SIZE ARGO_RING_OVERHEAD) 0 },
    pending_exit := 0 }

/-- The part of `main` that sets up the sockets (lines 371-385): it installs
the SIGINT handler, then runs `qmph_init_argo_socket` and
`qmph_init_unix_socket`.  The outcome `running` means the loop is entered. -/
def main_sockets (ARGO_RING_OVERHEAD : Nat) (env : StartupEnv) (g : Globals) (w : World) :
    Outcome :=
  let w1 := w.emit Event.signal_sigint
  let r := qmph_init_argo_socket ARGO_RING_OVERHEAD env g.qhs w1
  if r.1 ≠ 0 then
    Outcome.returned (-1) { g with qhs := r.2.1 } r.2.2
  else
    let r2 := qmph_init_unix_socket env r.2.1 r.2.2
    if r2.1 ≠ 0 then
      let c := qmph_exit_cleanup r2.1 { g with qhs := r2.2.1 } r2.2.2
      Outcome.exited r2.1 c.1 c.2
    else
      Outcome.running { g with qhs := r2.2.1 } r2.2.2

/-- The part of `main` before the loop (lines 346-385).  The argument vector
is the list `argv`, `argc` its length; `atoi` is the C library function.
The outcome `running` means the loop is entered. -/
def main_startup (atoi : String → Int) (ARGO_RING_OVERHEAD : Nat) (env : StartupEnv)
    (argv : List String) (w : World) : Outcome :=
  let argc : Int := argv.length
  let w0 := w.emit Event.openlog
  let g0 := zero_globals ARGO_RING_OVERHEAD
  if argc ≠ 3 then
    Outcome.returned (-1) g0 w0
  else
    let g1 := { g0 with qhs := { g0.qhs with guest_id := atoi (argv.getD 1 "") } }
    if g1.qhs.guest_id < 0 then
      Outcome.returned (-1) g1 w0
    else
      let g2 := { g1 with qhs := { g1.qhs with stubdom_id := atoi (argv.getD 2 "") } }
      if g2.qhs.stubdom_id < 0 then
        Outcome.returned (-1) g2 w0
      else
        main_sockets ARGO_RING_OVERHEAD env g2 w0

/-- The function `main`, its loop run for at most `fuel` iterations. -/
def main (atoi : String → Int) (ARGO_RING_OVERHEAD : Nat) (env : StartupEnv)
    (argv : List String) (w : World) (fuel : Nat) : Outcome :=
  match main_startup atoi ARGO_RING_OVERHEAD env argv w with
  | Outcome.running g1 w1 => main_loop fuel g1 w1
  | other => other

/-- The trace of the world in which an outcome stands. -/
def Outcome.trace : Outcome → List Event
  | Outcome.returned _ _ w => w.trace
  | Outcome.exited _ _ w => w.trace
  | Outcome.running _ w => w.trace

/-- Whether an event is the creation of a socket (`argo_socket` or `socket`). -/
def Event.is_socket_creation : Event → Bool
  | Event.argo_socket _ => true
  | Event.socket _ => true
  | _ => false

/-- Whether an event is a transport send. -/
def Event.is_send : Event → Bool
  | Event.argo_sendto _ _ _ _ => true
  | _ => false

/-- Whether an event is a write to a client. -/
def Event.is_write : Event → Bool
  | Event.write _ _ _ => true
  | _ => false

/-- The payloads of the transport sends of a trace, in order. -/
def sent_payloads : List Event → List (List Byte)
  | [] => []
  | Event.argo_sendto _ p _ _ :: es => p :: sent_payloads es
  | _ :: es => sent_payloads es

/-- A client read and the transport send that follows it, without fault: the
read returns the `n` bytes of `data` with `0 < n <= cap`, and the send
accepts `n` bytes. -/
def fault_free (cap : Nat) (rd : ReadRet) (sd : SysRet) : Prop :=
  rd.ret = rd.data.length ∧ 0 < rd.data.length ∧ rd.data.length ≤ cap ∧ sd.ret = rd.ret

/-- Run `qmph_unix_to_argo` `n` times in a row, as the loop does while each
call returns 0. -/
def unix_to_argo_steps : Nat → qmp_helper_state → World → Option (qmp_helper_state × World)
  | 0, s, w => some (s, w)
  | n + 1, s, w =>
    match qmph_unix_to_argo s w with
    | none => none
    | some (ret, s1, w1) => if ret = 0 then unix_to_argo_steps n s1 w1 else none

/-- A session state as the loop first sees it: transport descriptor 3,
listener descriptor 4, no client, a 16-byte message buffer. -/
def idle_state : qmp_helper_state :=
  { guest_id := 1, stubdom_id := 2, argo_fd := 3,
    remote_addr := { aport := 15100, domain_id := 2 },
    local_addr := { aport := 5100, domain_id := 0 },
    listen_fd := 4, unix_fd := -1, connected := false,
    msg_buf := List.replicate 16 0 }

/-- The state `idle_state` with client descriptor 5 and the session up. -/
def live_state : qmp_helper_state :=
  { idle_state with unix_fd := 5, connected := true }

/-- A world with no pending result and an empty trace. -/
def quiet_world : World :=
  { selects := [], accepts := [], reads := [], sends := [], recvs := [], writes := [],
    trace := [] }

/-- The bytes of "ping". -/
def ping : List Byte := [112, 105, 110, 103]

/-- Startup results with every call succeeding: transport socket 3,
listener socket 4. -/
def good_startup : StartupEnv :=
  { argo_socket_ret := 3, ioctl_ret := 0, argo_bind_ret := 0,
    socket_ret := 4, bind_ret := 0, listen_ret := 0 }

/-- A stand-in for `atoi` on the arguments used in the examples. -/
def sample_atoi (a : String) : Int :=
  if a = "1" then 1 else if a = "2" then 2 else if a = "-1" then -1 else 0

/-- The globals with which an outcome stands. -/
def Outcome.globals : Outcome → Globals
  | Outcome.returned _ g _ => g
  | Outcome.exited _ g _ => g
  | Outcome.running g _ => g

/-- Whether the run is still in the loop. -/
def Outcome.is_running : Outcome → Bool
  | Outcome.running _ _ => true
  | _ => false

/-- An environment for three iterations: a client is accepted as descriptor 5
and the token is accepted; a datagram "ping" arrives and the write to the
client fails; a second client is accepted as descriptor 6. -/
def write_failure_world : World :=
  { quiet_world with
      selects := [SelectRet.done 1 0 [4], SelectRet.done 1 0 [3], SelectRet.done 1 0 [4]],
      accepts := [{ ret := 5, errno := 0 }, { ret := 6, errno := 0 }],
      sends := [{ ret := 4, errno := 0 }, { ret := 4, errno := 0 }],
      recvs := [{ ret := 4, errno := 0, data := ping,
                  src := { aport := 15100, domain_id := 2 } }],
      writes := [{ ret := -1, errno := 32 }] }

/-- The bytes accepted by the transport sends of a trace: the sum of their
non-negative results. -/
def accepted_bytes : List Event → Int
  | [] => 0
  | Event.argo_sendto _ _ _ r :: es => (if 0 ≤ r then r else 0) + accepted_bytes es
  | _ :: es => accepted_bytes es

/-- A sequence of send results in which every call that `argo_sendto_all`
makes, starting with `sent` bytes already accepted, either fails with an
error other than `EINTR` or accepts `r` bytes with `1 <= r <= size - sent`. -/
def progress_script (size : Int) : Int → List SysRet → Prop
  | _, [] => True
  | sent, r :: rest =>
    sent < size →
      ((r.ret < 0 ∧ r.errno ≠ EINTR) ∨
       (1 ≤ r.ret ∧ r.ret ≤ size - sent ∧ progress_script size (sent + r.ret) rest))

/-- A send result that brings no progress: zero bytes accepted, or a failure
with `EINTR`. -/
def no_progress (r : SysRet) : Prop :=
  r.ret = 0 ∨ (r.ret < 0 ∧ r.errno = EINTR)

/-- A send result that is a failure with `EINTR`. -/
def interrupted (r : SysRet) : Prop :=
  r.ret < 0 ∧ r.errno = EINTR

/-- The bytes that a sequence of send results adds to the local `sent` of
`argo_sendto_all`: the sum of the non-negative results. -/
def accepted_by : List SysRet → Int
  | [] => 0
  | r :: rest => (if 0 ≤ r.ret then r.ret else 0) + accepted_by rest

/-- The fields of the state that no loop operation writes are equal in `s`
and `s1`, and the message buffer has kept its length. -/
def same_endpoints (s s1 : qmp_helper_state) : Prop :=
  s1.guest_id = s.guest_id ∧ s1.stubdom_id = s.stubdom_id ∧ s1.argo_fd = s.argo_fd ∧
  s1.local_addr = s.local_addr ∧ s1.listen_fd = s.listen_fd ∧
  s1.msg_buf.length = s.msg_buf.length

/-- The queues of the world other than the sends are equal in `w` and `w1`. -/
def same_inputs (w w1 : World) : Prop :=
  w1.selects = w.selects ∧ w1.accepts = w.accepts ∧ w1.reads = w.reads ∧
  w1.recvs = w.recvs ∧ w1.writes = w.writes

/-- An address the session can hold from globals `g` on, after the datagrams
`seen` were received: the `remote_addr` of `g`, or the source address that one
of these datagrams reported. -/
def addr_ok (g : Globals) (seen : List RecvRet) (a : xen_argo_addr_t) : Prop :=
  a = g.qhs.remote_addr ∨ ∃ rc ∈ seen, a = rc.src

/-- What the loop keeps between `(g, w)` and a later `(g1, w1)`: the endpoints
and `pending_exit`; `unix_fd` stays `>= -1`; the first `k` pending receive
results were consumed, in order; `remote_addr` is the old one or the source
address of one of these `k` datagrams; and the trace is extended, every new
send going out on `argo_fd` to such an address. -/
def loop_frame (g : Globals) (w : World) (g1 : Globals) (w1 : World) : Prop :=
  same_endpoints g.qhs g1.qhs ∧ g1.pending_exit = g.pending_exit ∧
  (-1 ≤ g.qhs.unix_fd → -1 ≤ g1.qhs.unix_fd) ∧
  ∃ k, w1.recvs = w.recvs.drop k ∧
    addr_ok g (w.recvs.take k) g1.qhs.remote_addr ∧
    ∃ evs, w1.trace = w.trace ++ evs ∧
      ∀ fd p a x, Event.argo_sendto fd p a x ∈ evs →
        fd = g.qhs.argo_fd ∧ addr_ok g (w.recvs.take k) a

/-- An environment for three iterations: a client is accepted as descriptor 5
and the token is accepted; a datagram "ping" arrives whose reported source is
port 9999 of domain 2, and is written to the client; the client then sends
"ping", which the transport accepts. -/
def foreign_source_world : World :=
  { quiet_world with
      selects := [SelectRet.done 1 0 [4], SelectRet.done 1 0 [3], SelectRet.done 1 0 [5]],
      accepts := [{ ret := 5, errno := 0 }],
      reads := [{ ret := 4, errno := 0, data := ping }],
      sends := [{ ret := 4, errno := 0 }, { ret := 4, errno := 0 }],
      recvs := [{ ret := 4, errno := 0, data := ping,
                  src := { aport := 9999, domain_id := 2 } }],
      writes := [{ ret := 4, errno := 0 }] }

/-- An environment for two iterations from `live_state`: a datagram "ping"
arrives from port 15100 of domain 2 and is written to the client; the client
then sends "ping", which the transport accepts.  A second datagram, from
port 9999 of domain 2, is pending and is not received. -/
def mixed_source_world : World :=
  { quiet_world with
      selects := [SelectRet.done 1 0 [3], SelectRet.done 1 0 [5]],
      reads := [{ ret := 4, errno := 0, data := ping }],
      sends := [{ ret := 4, errno := 0 }],
      recvs := [{ ret := 4, errno := 0, data := ping,
                  src := { aport := 15100, domain_id := 2 } },
                { ret := 4, errno := 0, data := ping,
                  src := { aport := 9999, domain_id := 2 } }],
      writes := [{ ret := 4, errno := 0 }] }

/-- The environment of Scenario B for the state `idle_state`: the listener is
ready and accept returns 5; client 5 is ready and its read returns "ping";
client 5 is ready and its read returns 0; the listener is ready and accept
returns 6; every send is accepted in full. -/
def scenario_world : World :=
  { quiet_world with
      selects := [SelectRet.done 1 0 [idle_state.listen_fd], SelectRet.done 1 0 [5],
                  SelectRet.done 1 0 [5], SelectRet.done 1 0 [idle_state.listen_fd]],
      accepts := [{ ret := 5, errno := 0 }, { ret := 6, errno := 0 }],
      reads := [{ ret := 4, errno := 0, data := ping },
                { ret := 0, errno := 0, data := [] }],
      sends := [{ ret := 4, errno := 0 }, { ret := 4, errno := 0 },
                { ret := 4, errno := 0 }, { ret := 4, errno := 0 }] }

end QmpHelper

/-! ## Properties -/

namespace QmpHelper

theorem buf_store_length (buf data : List Byte) :
    (buf_store buf data).length = buf.length := by
  simp [buf_store]
  omega

theorem buf_store_take (buf data : List Byte) (h : data.length ≤ buf.length) :
    (buf_store buf data).take data.length = data := by
  simp [buf_store, List.take_take, List.take_append_eq_append_take, h]

theorem buf_store_nil (buf : List Byte) : buf_store buf [] = buf := by
  simp [buf_store]

theorem sent_payloads_append (a b : List Event) :
    sent_payloads (a ++ b) = sent_payloads a ++ sent_payloads b := by
  induction a with
  | nil => rfl
  | cons e es ih => cases e <;> simp [sent_payloads, ih]

theorem argo_sendto_all_loop_done (fd : Int) (buf : List Byte) (size : Int)
    (addr : xen_argo_addr_t) (sends : List SysRet) (sent ret : Int) (trace : List Event)
    (h : ¬ sent < size) :
    argo_sendto_all_loop fd buf size addr sends sent ret trace = some (ret, sends, trace) := by
  cases sends <;> simp [argo_sendto_all_loop, h]

/-- What a returning run of the send loop did: it issued sends on the same
descriptor and address, the last of which fixes the returned value; and when
that last send accepted the whole `size` without accepting more than it was
asked, it carried the whole buffer and no earlier send accepted a byte. -/
theorem argo_sendto_all_loop_spec (fd : Int) (buf : List Byte) (size : Int)
    (addr : xen_argo_addr_t) :
    ∀ (sends : List SysRet) (sent ret : Int) (trace : List Event)
      (r : Int) (rest : List SysRet) (tr : List Event),
      0 ≤ sent → sent < size →
      argo_sendto_all_loop fd buf size addr sends sent ret trace = some (r, rest, tr) →
      ∃ pre p x, tr = trace ++ pre ++ [Event.argo_sendto fd p addr x] ∧
        (∀ e ∈ pre, ∃ q y, e = Event.argo_sendto fd q addr y) ∧
        ((0 ≤ x ∧ r = x) ∨ (x < 0 ∧ r = -1)) ∧
        ((buf.length : Int) = size → x = size → x ≤ p.length →
          sent = 0 ∧ p = buf ∧
            ∀ q y, Event.argo_sendto fd q addr y ∈ pre → y ≤ 0) := by
  intro sends
  induction sends with
  | nil =>
    intro sent ret trace r rest tr _ hlt h
    simp [argo_sendto_all_loop, hlt] at h
  | cons r0 rest0 ih =>
    intro sent ret trace r rest tr h0 hlt h
    simp only [argo_sendto_all_loop, hlt, if_true] at h
    by_cases hneg : r0.ret < 0
    · simp only [hneg, if_true] at h
      by_cases hint : r0.errno = EINTR
      · simp only [hint, if_true] at h
        obtain ⟨pre, p, x, h1, h2, h3, h4⟩ := ih sent r0.ret _ r rest tr h0 hlt h
        refine ⟨Event.argo_sendto fd ((buf.drop sent.toNat).take (size - sent).toNat)
          addr r0.ret :: pre, p, x, ?_, ?_, h3, ?_⟩
        · rw [h1]; simp
        · intro e he
          rcases List.mem_cons.mp he with he | he
          · exact ⟨_, _, he⟩
          · exact h2 e he
        · intro hb hx hp
          obtain ⟨a, b, c⟩ := h4 hb hx hp
          refine ⟨a, b, ?_⟩
          intro q y hq
          rcases List.mem_cons.mp hq with hq | hq
          · injection hq with _ _ _ hy
            omega
          · exact c q y hq
      · simp only [hint, if_false, Option.some.injEq, Prod.mk.injEq] at h
        obtain ⟨hr, _, htr⟩ := h
        refine ⟨[], (buf.drop sent.toNat).take (size - sent).toNat, r0.ret, ?_, ?_,
          Or.inr ⟨hneg, hr.symm⟩, ?_⟩
        · rw [← htr]; simp
        · intro e he; simp at he
        · intro _ hx _; omega
    · simp only [hneg, if_false] at h
      by_cases hmore : sent + r0.ret < size
      · obtain ⟨pre, p, x, h1, h2, h3, h4⟩ :=
          ih (sent + r0.ret) r0.ret _ r rest tr (by omega) hmore h
        refine ⟨Event.argo_sendto fd ((buf.drop sent.toNat).take (size - sent).toNat)
          addr r0.ret :: pre, p, x, ?_, ?_, h3, ?_⟩
        · rw [h1]; simp
        · intro e he
          rcases List.mem_cons.mp he with he | he
          · exact ⟨_, _, he⟩
          · exact h2 e he
        · intro hb hx hp
          obtain ⟨a, b, c⟩ := h4 hb hx hp
          refine ⟨by omega, b, ?_⟩
          intro q y hq
          rcases List.mem_cons.mp hq with hq | hq
          · injection hq with _ _ _ hy
            omega
          · exact c q y hq
      · rw [argo_sendto_all_loop_done _ _ _ _ _ _ _ _ hmore] at h
        simp only [Option.some.injEq, Prod.mk.injEq] at h
        obtain ⟨hr, _, htr⟩ := h
        refine ⟨[], (buf.drop sent.toNat).take (size - sent).toNat, r0.ret, ?_, ?_,
          Or.inl ⟨by omega, hr.symm⟩, ?_⟩
        · rw [← htr]; simp
        · intro e he; simp at he
        · intro hb hx hp
          have hlen : ((buf.drop sent.toNat).take (size - sent).toNat).length
              ≤ (size - sent).toNat := by
            simp only [List.length_take]
            exact Nat.min_le_left _ _
          have hs0 : sent = 0 := by omega
          refine ⟨hs0, ?_, ?_⟩
          · subst hs0
            have h1 : (size - 0).toNat = buf.length := by omega
            have h2 : buf.length ≤ size.toNat := by omega
            simp [h1, h2]
          · intro q y hq; simp at hq

/-- One fault-free step of `qmph_unix_to_argo`: the result in full. -/
theorem unix_to_argo_forward (s : qmp_helper_state) (w : World) (rd : ReadRet)
    (sd : SysRet) (rr : List ReadRet) (sr : List SysRet)
    (hr : w.reads = rd :: rr) (hs : w.sends = sd :: sr)
    (hff : fault_free s.msg_buf.length rd sd) :
    qmph_unix_to_argo s w =
      some (0, { s with msg_buf := buf_store s.msg_buf rd.data },
            { w with reads := rr, sends := sr,
                     trace := w.trace ++
                       [Event.read s.unix_fd s.msg_buf.length rd.ret,
                        Event.argo_sendto s.argo_fd rd.data s.remote_addr rd.ret] }) := by
  obtain ⟨h1, h2, h3, h4⟩ := hff
  have hn : rd.ret.toNat = rd.data.length := by rw [h1]; simp
  have hneg : ¬ rd.ret < 0 := by rw [h1]; omega
  have hz : ¬ rd.ret = 0 := by rw [h1]; omega
  simp [qmph_unix_to_argo, hr, argo_sendto, hs, hneg, hz, hn, h4, buf_store_take, h3]

theorem unix_to_argo_steps_forward (cap : Nat) (rds : List ReadRet) (sds : List SysRet)
    (hall : List.Forall₂ (fault_free cap) rds sds) :
    ∀ (s : qmp_helper_state) (w : World) (rr : List ReadRet) (sr : List SysRet),
      s.msg_buf.length = cap →
      w.reads = rds ++ rr → w.sends = sds ++ sr →
      ∃ s1 w1, unix_to_argo_steps rds.length s w = some (s1, w1) ∧
        s1.unix_fd = s.unix_fd ∧ s1.connected = s.connected ∧
        w1.reads = rr ∧ w1.sends = sr ∧
        sent_payloads w1.trace
          = sent_payloads w.trace ++ rds.map (fun rd => rd.data) := by
  induction hall with
  | nil =>
    intro s w rr sr _ hr hs
    exact ⟨s, w, rfl, rfl, rfl, by simpa using hr, by simpa using hs, by simp⟩
  | @cons rd sd rds1 sds1 hhead _ ih =>
    intro s w rr sr hcap hr hs
    have hstep := unix_to_argo_forward s w rd sd (rds1 ++ rr) (sds1 ++ sr)
      (by simpa using hr) (by simpa using hs) (by rw [hcap]; exact hhead)
    obtain ⟨s1, w1, h1, h2, h3, h4, h5, h6⟩ :=
      ih { s with msg_buf := buf_store s.msg_buf rd.data }
        { w with reads := rds1 ++ rr, sends := sds1 ++ sr,
                 trace := w.trace ++
                   [Event.read s.unix_fd s.msg_buf.length rd.ret,
                    Event.argo_sendto s.argo_fd rd.data s.remote_addr rd.ret] }
        rr sr (by simp [buf_store_length, hcap]) rfl rfl
    refine ⟨s1, w1, ?_, h2, h3, h4, h5, ?_⟩
    · simp [unix_to_argo_steps, hstep, h1]
    · rw [h6]
      simp [sent_payloads_append, sent_payloads]

/-- C1. Client-to-transport integrity.  With a client present, when the read
returns `n` bytes, `0 < n <= sizeof(msg_buf)`, and the transport send accepts
`n` bytes, `qmph_unix_to_argo` performs the read and then exactly one
`argo_sendto` whose payload is those `n` bytes, returns 0 and leaves `unix_fd`
and `connected` as they were.  Over any sequence of such steps the payloads
sent are, in order, the chunks read, so their concatenations agree, and each
message is at most the buffer capacity. -/
theorem client_to_transport_integrity :
    (∀ (s : qmp_helper_state) (w : World) (rd : ReadRet) (sd : SysRet)
        (rr : List ReadRet) (sr : List SysRet),
        0 ≤ s.unix_fd → w.reads = rd :: rr → w.sends = sd :: sr →
        fault_free s.msg_buf.length rd sd →
        ∃ s1 w1, qmph_unix_to_argo s w = some (0, s1, w1) ∧
          w1.trace = w.trace ++
            [Event.read s.unix_fd s.msg_buf.length rd.ret,
             Event.argo_sendto s.argo_fd rd.data s.remote_addr rd.data.length] ∧
          s1.unix_fd = s.unix_fd ∧ s1.connected = s.connected) ∧
    (∀ (s : qmp_helper_state) (w : World) (rds : List ReadRet) (sds : List SysRet)
        (rr : List ReadRet) (sr : List SysRet),
        0 ≤ s.unix_fd → w.reads = rds ++ rr → w.sends = sds ++ sr →
        List.Forall₂ (fault_free s.msg_buf.length) rds sds →
        ∃ s1 w1, unix_to_argo_steps rds.length s w = some (s1, w1) ∧
          s1.unix_fd = s.unix_fd ∧ s1.connected = s.connected ∧
          sent_payloads w1.trace = sent_payloads w.trace ++ rds.map (fun rd => rd.data) ∧
          (sent_payloads w1.trace).flatten
            = (sent_payloads w.trace).flatten ++ (rds.map (fun rd => rd.data)).flatten ∧
          ∀ p ∈ rds.map (fun rd => rd.data), p.length ≤ s.msg_buf.length) := by
  refine ⟨?_, ?_⟩
  · intro s w rd sd rr sr _ hr hs hff
    refine ⟨_, _, unix_to_argo_forward s w rd sd rr sr hr hs hff, ?_, rfl, rfl⟩
    simp [hff.1]
  · intro s w rds sds rr sr _ hr hs hall
    obtain ⟨s1, w1, h1, h2, h3, _, _, h6⟩ :=
      unix_to_argo_steps_forward _ rds sds hall s w rr sr rfl hr hs
    refine ⟨s1, w1, h1, h2, h3, h6, by rw [h6]; simp, ?_⟩
    intro p hp
    obtain ⟨rd, hrd, rfl⟩ := List.mem_map.mp hp
    clear h6 h1 hr hs
    induction hall with
    | nil => simp at hrd
    | cons hhead _ ih =>
      rcases List.mem_cons.mp hrd with h | h
      · subst h; exact hhead.2.2.1
      · exact ih h (List.mem_map.mpr ⟨rd, h, rfl⟩)

/-- The handshake token of `qmp_magic_message`: "live" to connect, "dead" to
disconnect. -/
theorem magic_length (connect : Bool) :
    ((if connect then ARGO_MAGIC_CONNECT else ARGO_MAGIC_DISCONNECT).length : Int) = 4 := by
  cases connect <;> rfl

/-- What a returning call of `qmp_magic_message` that has to send did. -/
theorem qmp_magic_message_sends (s : qmp_helper_state) (connect : Bool) (w : World)
    (ret : Int) (s1 : qmp_helper_state) (w1 : World)
    (hne : s.connected ≠ connect)
    (hret : qmp_magic_message s connect w = some (ret, s1, w1)) :
    ∃ pre p x,
      w1.trace = w.trace ++ pre ++ [Event.argo_sendto s.argo_fd p s.remote_addr x] ∧
      (∀ e ∈ pre, ∃ q y, e = Event.argo_sendto s.argo_fd q s.remote_addr y) ∧
      (s1.connected = connect ↔ x = 4) ∧
      (s1 = if x = 4 then { s with connected := connect } else s) ∧
      (ret = if 0 ≤ x then x else -1) ∧
      (x = 4 → x ≤ p.length →
        p = (if connect then ARGO_MAGIC_CONNECT else ARGO_MAGIC_DISCONNECT) ∧
        ∀ q y, Event.argo_sendto s.argo_fd q s.remote_addr y ∈ pre → y ≤ 0) := by
  simp only [qmp_magic_message, hne, if_false, argo_sendto_all, magic_length] at hret
  cases hloop : argo_sendto_all_loop s.argo_fd
      (if connect then ARGO_MAGIC_CONNECT else ARGO_MAGIC_DISCONNECT) 4 s.remote_addr
      w.sends 0 0 w.trace with
  | none => simp [hloop] at hret
  | some res =>
    obtain ⟨r, rest, tr⟩ := res
    simp only [hloop] at hret
    obtain ⟨pre, p, x, h1, h2, h3, h4⟩ :=
      argo_sendto_all_loop_spec _ _ _ _ _ _ _ _ _ _ _ (le_refl 0) (by decide) hloop
    have hrx : r = 4 ↔ x = 4 := by
      rcases h3 with ⟨_, h⟩ | ⟨h, h5⟩
      · rw [h]
      · constructor <;> intro h6 <;> omega
    have hrv : r = if 0 ≤ x then x else -1 := by
      rcases h3 with ⟨h, h5⟩ | ⟨h, h5⟩
      · simp [h, h5]
      · have : ¬ 0 ≤ x := by omega
        simp [this, h5]
    refine ⟨pre, p, x, ?_, h2, ?_, ?_, ?_, ?_⟩
    · by_cases h : r = 4
      · simp only [h, if_true, Option.some.injEq, Prod.mk.injEq] at hret
        rw [← hret.2.2]; exact h1
      · simp only [h, if_false, Option.some.injEq, Prod.mk.injEq] at hret
        rw [← hret.2.2]; exact h1
    · by_cases h : r = 4
      · simp only [h, if_true, Option.some.injEq, Prod.mk.injEq] at hret
        rw [← hret.2.1]
        simp [hrx.mp h]
      · simp only [h, if_false, Option.some.injEq, Prod.mk.injEq] at hret
        rw [← hret.2.1]
        constructor
        · intro h5; exact absurd h5 hne
        · intro h5; exact absurd (hrx.mpr h5) h
    · by_cases h : r = 4
      · simp only [h, if_true, Option.some.injEq, Prod.mk.injEq] at hret
        rw [← hret.2.1]
        simp [hrx.mp h]
      · simp only [h, if_false, Option.some.injEq, Prod.mk.injEq] at hret
        rw [← hret.2.1]
        have : ¬ x = 4 := fun h5 => h (hrx.mpr h5)
        simp [this]
    · by_cases h : r = 4
      · simp only [h, if_true, Option.some.injEq, Prod.mk.injEq] at hret
        rw [← hret.1, ← hrv, h]
      · simp only [h, if_false, Option.some.injEq, Prod.mk.injEq] at hret
        rw [← hret.1, ← hrv]
    · intro hx hp
      obtain ⟨_, b, c⟩ := h4 (magic_length connect) hx hp
      exact ⟨b, c⟩

/-- C1, at an instance: client 5 writes "ping" and the transport accepts it. -/
theorem client_to_transport_integrity_witness :
    (∃ s1 w1,
      qmph_unix_to_argo live_state
          { quiet_world with reads := [{ ret := 4, errno := 0, data := ping }],
                             sends := [{ ret := 4, errno := 0 }] }
        = some (0, s1, w1) ∧
      w1.trace = [] ++ [Event.read 5 16 4,
                        Event.argo_sendto 3 ping live_state.remote_addr 4] ∧
      s1.unix_fd = 5 ∧ s1.connected = true) ∧
    (∃ s1 w1,
      unix_to_argo_steps 2 live_state
          { quiet_world with reads := [{ ret := 4, errno := 0, data := ping },
                                       { ret := 2, errno := 0, data := [1, 2] }],
                             sends := [{ ret := 4, errno := 0 }, { ret := 2, errno := 0 }] }
        = some (s1, w1) ∧
      s1.unix_fd = 5 ∧ s1.connected = true ∧
      sent_payloads w1.trace = [] ++ [ping, [1, 2]] ∧
      (sent_payloads w1.trace).flatten = [] ++ [112, 105, 110, 103, 1, 2] ∧
      ∀ p ∈ [ping, [1, 2]], p.length ≤ 16) :=
  ⟨client_to_transport_integrity.1 live_state
      { quiet_world with reads := [{ ret := 4, errno := 0, data := ping }],
                         sends := [{ ret := 4, errno := 0 }] }
      { ret := 4, errno := 0, data := ping } { ret := 4, errno := 0 } [] []
      (by decide) rfl rfl (by unfold fault_free; decide),
   client_to_transport_integrity.2 live_state
      { quiet_world with reads := [{ ret := 4, errno := 0, data := ping },
                                   { ret := 2, errno := 0, data := [1, 2] }],
                         sends := [{ ret := 4, errno := 0 }, { ret := 2, errno := 0 }] }
      [{ ret := 4, errno := 0, data := ping }, { ret := 2, errno := 0, data := [1, 2] }]
      [{ ret := 4, errno := 0 }, { ret := 2, errno := 0 }] [] []
      (by decide) rfl rfl
      (List.Forall₂.cons (by unfold fault_free; decide)
        (List.Forall₂.cons (by unfold fault_free; decide) List.Forall₂.nil))⟩

/-- The send loop when the first send accepts the whole buffer. -/
theorem argo_sendto_all_loop_first (fd : Int) (buf : List Byte) (size : Int)
    (addr : xen_argo_addr_t) (sd : SysRet) (sr : List SysRet) (trace : List Event)
    (hpos : 0 < size) (hsd : sd.ret = size) :
    argo_sendto_all_loop fd buf size addr (sd :: sr) 0 0 trace
      = some (size, sr, trace ++ [Event.argo_sendto fd (buf.take size.toNat) addr size]) := by
  have h1 : ¬ size < 0 := by omega
  simp [argo_sendto_all_loop, hpos, hsd, h1, argo_sendto_all_loop_done]

/-- A handshake from the other state whose first send accepts the 4 bytes. -/
theorem qmp_magic_message_first (s : qmp_helper_state) (connect : Bool) (w : World)
    (sd : SysRet) (sr : List SysRet)
    (hne : s.connected ≠ connect) (hs : w.sends = sd :: sr) (hsd : sd.ret = 4) :
    qmp_magic_message s connect w
      = some (4, { s with connected := connect },
              { w with sends := sr,
                       trace := w.trace ++
                         [Event.argo_sendto s.argo_fd
                            (if connect then ARGO_MAGIC_CONNECT else ARGO_MAGIC_DISCONNECT)
                            s.remote_addr 4] }) := by
  simp only [qmp_magic_message, hne, if_false, argo_sendto_all, magic_length, hs]
  rw [argo_sendto_all_loop_first _ _ _ _ _ _ _ (by decide) hsd]
  cases connect <;> simp [ARGO_MAGIC_CONNECT, ARGO_MAGIC_DISCONNECT]

/-- A handshake asked for the state the session is already in. -/
theorem qmp_magic_message_same (s : qmp_helper_state) (connect : Bool) (w : World)
    (h : s.connected = connect) : qmp_magic_message s connect w = some (0, s, w) := by
  simp [qmp_magic_message, h]

/-- C3. Handshake idempotence.  `qmp_connect` called while `connected` is
true, and `qmp_disconnect` called while it is false, return 0 with the state
and the world (pending results and trace, hence no send) unchanged.  So a
connect that leaves the session up, followed by a second connect, gives the
state and trace of the first alone; and from the disconnected state, when the
send accepts the token, two connects put exactly one "live" on the wire. -/
theorem handshake_idempotence :
    (∀ (s : qmp_helper_state) (w : World), s.connected = true →
        qmp_connect s w = some (0, s, w)) ∧
    (∀ (s : qmp_helper_state) (w : World), s.connected = false →
        qmp_disconnect s w = some (0, s, w)) ∧
    (∀ (s : qmp_helper_state) (w : World) (ret : Int) (s1 : qmp_helper_state) (w1 : World),
        qmp_connect s w = some (ret, s1, w1) → s1.connected = true →
        qmp_connect s1 w1 = some (0, s1, w1)) ∧
    (∀ (s : qmp_helper_state) (w : World) (sd : SysRet) (sr : List SysRet),
        s.connected = false → w.sends = sd :: sr → sd.ret = 4 →
        ∃ s1 w1, qmp_connect s w = some (4, s1, w1) ∧
          qmp_connect s1 w1 = some (0, s1, w1) ∧
          s1 = { s with connected := true } ∧
          w1.trace = w.trace ++
            [Event.argo_sendto s.argo_fd ARGO_MAGIC_CONNECT s.remote_addr 4]) := by
  refine ⟨?_, ?_, ?_, ?_⟩
  · intro s w h
    exact qmp_magic_message_same s true w h
  · intro s w h
    exact qmp_magic_message_same s false w h
  · intro s w ret s1 w1 _ h
    exact qmp_magic_message_same s1 true w1 h
  · intro s w sd sr hc hs hsd
    have h := qmp_magic_message_first s true w sd sr (by simp [hc]) hs hsd
    refine ⟨_, _, h, ?_, rfl, rfl⟩
    exact qmp_magic_message_same _ true _ rfl

/-- C3, at an instance: connect while up, disconnect while down, and two
connects in a row from the disconnected state. -/
theorem handshake_idempotence_witness :
    qmp_connect live_state quiet_world = some (0, live_state, quiet_world) ∧
    qmp_disconnect idle_state quiet_world = some (0, idle_state, quiet_world) ∧
    (∃ s1 w1,
      qmp_connect idle_state { quiet_world with sends := [{ ret := 4, errno := 0 }] }
        = some (4, s1, w1) ∧
      qmp_connect s1 w1 = some (0, s1, w1) ∧
      s1 = { idle_state with connected := true } ∧
      w1.trace = [] ++
        [Event.argo_sendto 3 ARGO_MAGIC_CONNECT idle_state.remote_addr 4]) :=
  ⟨handshake_idempotence.1 live_state quiet_world rfl,
   handshake_idempotence.2.1 idle_state quiet_world rfl,
   handshake_idempotence.2.2.2 idle_state
     { quiet_world with sends := [{ ret := 4, errno := 0 }] }
     { ret := 4, errno := 0 } [] rfl rfl rfl⟩

/-- Every returning handshake only appends sends to the trace, changes no
field of the state other than `connected`, and leaves the other queues. -/
theorem qmp_magic_message_frame (s : qmp_helper_state) (connect : Bool) (w : World)
    (ret : Int) (s1 : qmp_helper_state) (w1 : World)
    (hret : qmp_magic_message s connect w = some (ret, s1, w1)) :
    s1 = { s with connected := s1.connected } ∧
    ∃ evs, w1.trace = w.trace ++ evs ∧
      ∀ e ∈ evs, ∃ q y, e = Event.argo_sendto s.argo_fd q s.remote_addr y := by
  by_cases hc : s.connected = connect
  · rw [qmp_magic_message_same s connect w hc] at hret
    simp only [Option.some.injEq, Prod.mk.injEq] at hret
    obtain ⟨_, h1, h2⟩ := hret
    subst h1 h2
    exact ⟨rfl, [], by simp, by simp⟩
  · obtain ⟨pre, p, x, h1, h2, _, h4, _, _⟩ :=
      qmp_magic_message_sends s connect w ret s1 w1 hc hret
    refine ⟨?_, pre ++ [Event.argo_sendto s.argo_fd p s.remote_addr x], ?_, ?_⟩
    · rw [h4]; split <;> rfl
    · rw [h1]; simp
    · intro e he
      rcases List.mem_append.mp he with he | he
      · exact h2 e he
      · exact ⟨p, x, by simpa using he⟩

/-- The end-of-file branch of `qmph_unix_to_argo`. -/
theorem qmph_unix_to_argo_eof (s : qmp_helper_state) (w : World) (rd : ReadRet)
    (rr : List ReadRet) (hr : w.reads = rd :: rr) (h0 : rd.ret = 0) :
    qmph_unix_to_argo s w =
      match qmp_disconnect s
          { w with reads := rr,
                   trace := w.trace ++ [Event.read s.unix_fd s.msg_buf.length 0] } with
      | none => none
      | some (_, s2, w2) =>
        some (0, { s2 with unix_fd := -1 }, w2.emit (Event.close s2.unix_fd)) := by
  cases s
  simp only [qmph_unix_to_argo, hr, h0, lt_self_iff_false, if_false, if_true,
    Int.toNat_zero, List.take_zero, buf_store_nil]

/-- C4, as stated, fails: client 5 is present with the session down, the read
returns 0 and the transport would accept 4 bytes, yet `qmph_unix_to_argo`
sends no token: the trace is the read followed by the close. -/
theorem eof_without_token :
    qmph_unix_to_argo { idle_state with unix_fd := 5 }
        { quiet_world with reads := [{ ret := 0, errno := 0, data := [] }],
                           sends := [{ ret := 4, errno := 0 }] }
      = some (0, idle_state,
              { quiet_world with sends := [{ ret := 4, errno := 0 }],
                                 trace := [Event.read 5 16 0, Event.close 5] }) := by
  decide

/-- C4, amended.  With a client present, when the read returns 0,
`qmph_unix_to_argo` runs the disconnect handshake and then closes the client:
whenever it returns, it returns 0 with `unix_fd = -1`, and the trace gained
the read, then only sends to `remote_addr`, then the close, so every send
precedes the clearing of the client slot.  If `connected` is true and the
first send accepts the 4 bytes, exactly one send is made, of "dead", and
`connected` becomes false.  If `connected` is already false, no send is made. -/
theorem eof_disconnect_ordering :
    (∀ (s : qmp_helper_state) (w : World) (rd : ReadRet) (rr : List ReadRet)
        (ret : Int) (s1 : qmp_helper_state) (w1 : World),
        0 ≤ s.unix_fd → w.reads = rd :: rr → rd.ret = 0 →
        qmph_unix_to_argo s w = some (ret, s1, w1) →
        ret = 0 ∧ s1.unix_fd = -1 ∧
        ∃ evs, w1.trace = w.trace ++ [Event.read s.unix_fd s.msg_buf.length 0] ++ evs
                            ++ [Event.close s.unix_fd] ∧
          ∀ e ∈ evs, ∃ q y, e = Event.argo_sendto s.argo_fd q s.remote_addr y) ∧
    (∀ (s : qmp_helper_state) (w : World) (rd : ReadRet) (rr : List ReadRet)
        (sd : SysRet) (sr : List SysRet),
        0 ≤ s.unix_fd → s.connected = true → w.reads = rd :: rr → rd.ret = 0 →
        w.sends = sd :: sr → sd.ret = 4 →
        qmph_unix_to_argo s w
          = some (0, { s with connected := false, unix_fd := -1 },
                  { w with reads := rr, sends := sr,
                           trace := w.trace ++
                             [Event.read s.unix_fd s.msg_buf.length 0,
                              Event.argo_sendto s.argo_fd ARGO_MAGIC_DISCONNECT
                                s.remote_addr 4,
                              Event.close s.unix_fd] })) ∧
    (∀ (s : qmp_helper_state) (w : World) (rd : ReadRet) (rr : List ReadRet),
        0 ≤ s.unix_fd → s.connected = false → w.reads = rd :: rr → rd.ret = 0 →
        qmph_unix_to_argo s w
          = some (0, { s with unix_fd := -1 },
                  { w with reads := rr,
                           trace := w.trace ++
                             [Event.read s.unix_fd s.msg_buf.length 0,
                              Event.close s.unix_fd] })) := by
  refine ⟨?_, ?_, ?_⟩
  · intro s w rd rr ret s1 w1 _ hr h0 hret
    rw [qmph_unix_to_argo_eof s w rd rr hr h0] at hret
    simp only [qmp_disconnect] at hret
    cases hm : qmp_magic_message s false
        { w with reads := rr,
                 trace := w.trace ++ [Event.read s.unix_fd s.msg_buf.length 0] } with
    | none => simp [hm] at hret
    | some res =>
      obtain ⟨r2, s2, w2⟩ := res
      simp only [hm, Option.some.injEq, Prod.mk.injEq] at hret
      obtain ⟨hr0, hs1, hw1⟩ := hret
      obtain ⟨hf, evs, he1, he2⟩ := qmp_magic_message_frame _ _ _ _ _ _ hm
      have hfd : s2.unix_fd = s.unix_fd := by rw [hf]
      refine ⟨hr0.symm, by rw [← hs1], evs, ?_, he2⟩
      rw [← hw1]
      simp [World.emit, he1, hfd]
  · intro s w rd rr sd sr _ hc hr h0 hs hsd
    rw [qmph_unix_to_argo_eof s w rd rr hr h0]
    simp only [qmp_disconnect]
    rw [qmp_magic_message_first s false
      { w with reads := rr,
               trace := w.trace ++ [Event.read s.unix_fd s.msg_buf.length 0] }
      sd sr (by simp [hc]) hs hsd]
    simp [World.emit]
  · intro s w rd rr _ hc hr h0
    rw [qmph_unix_to_argo_eof s w rd rr hr h0]
    simp only [qmp_disconnect]
    rw [qmp_magic_message_same s false
      { w with reads := rr,
               trace := w.trace ++ [Event.read s.unix_fd s.msg_buf.length 0] } hc]
    simp [World.emit]

/-- C4 amended, at an instance: client 5 closes while the session is up and
the transport accepts the token. -/
theorem eof_disconnect_ordering_witness :
    qmph_unix_to_argo live_state
        { quiet_world with reads := [{ ret := 0, errno := 0, data := [] }],
                           sends := [{ ret := 4, errno := 0 }] }
      = some (0, { live_state with connected := false, unix_fd := -1 },
              { quiet_world with
                  trace := [] ++ [Event.read 5 16 0,
                                  Event.argo_sendto 3 ARGO_MAGIC_DISCONNECT
                                    live_state.remote_addr 4,
                                  Event.close 5] }) :=
  eof_disconnect_ordering.2.1 live_state
    { quiet_world with reads := [{ ret := 0, errno := 0, data := [] }],
                       sends := [{ ret := 4, errno := 0 }] }
    { ret := 0, errno := 0, data := [] } [] { ret := 4, errno := 0 } []
    (by decide) rfl rfl rfl rfl rfl

/-- C5. Drop-on-absence.  With no client (`unix_fd = -1`), a receive of
`n >= 0` bytes makes `qmph_argo_to_unix` return 0 having performed the
receive only: no write, no pending write result consumed, `unix_fd` and
`connected` unchanged.  And whatever the buffer held before, every write that
a call of `qmph_argo_to_unix` makes carries exactly the bytes received by the
`argo_recvfrom` of that call, so dropped bytes are never delivered later. -/
theorem drop_on_absence :
    (∀ (s : qmp_helper_state) (w : World) (rc : RecvRet) (rest : List RecvRet),
        s.unix_fd = -1 → w.recvs = rc :: rest → 0 ≤ rc.ret →
        qmph_argo_to_unix s w
          = some (0, { s with msg_buf := buf_store s.msg_buf (rc.data.take rc.ret.toNat),
                              remote_addr := rc.src },
                  { w with recvs := rest,
                           trace := w.trace ++
                             [Event.argo_recvfrom s.argo_fd s.msg_buf.length rc.ret] })) ∧
    (∀ (s : qmp_helper_state) (w : World) (rc : RecvRet) (rest : List RecvRet)
        (ret : Int) (s1 : qmp_helper_state) (w1 : World),
        w.recvs = rc :: rest → rc.ret = rc.data.length →
        rc.data.length ≤ s.msg_buf.length →
        qmph_argo_to_unix s w = some (ret, s1, w1) →
        ∃ evs, w1.trace = w.trace ++ evs ∧
          ∀ fd p x, Event.write fd p x ∈ evs → p = rc.data) := by
  refine ⟨?_, ?_⟩
  · intro s w rc rest hfd hr hpos
    have hneg : ¬ rc.ret < 0 := by omega
    simp [qmph_argo_to_unix, hr, hneg, hfd]
  · intro s w rc rest ret s1 w1 hr hlen hcap hret
    have hneg : ¬ rc.ret < 0 := by omega
    have hn : rc.ret.toNat = rc.data.length := by rw [hlen]; simp
    simp only [qmph_argo_to_unix, hr, hneg, if_false, hn, List.take_length] at hret
    by_cases hfd : s.unix_fd = -1
    · simp only [hfd, if_true, Option.some.injEq, Prod.mk.injEq] at hret
      refine ⟨[Event.argo_recvfrom s.argo_fd s.msg_buf.length rc.ret], ?_, ?_⟩
      · rw [← hret.2.2]
      · intro fd p x h; simp at h
    · simp only [hfd, if_false] at hret
      cases hw : w.writes with
      | nil => simp [hw] at hret
      | cons wr wrest =>
        simp only [hw, buf_store_take _ _ hcap] at hret
        by_cases hwr : wr.ret < 0
        · simp only [hwr, if_true, Option.some.injEq, Prod.mk.injEq] at hret
          refine ⟨[Event.argo_recvfrom s.argo_fd s.msg_buf.length rc.ret,
            Event.write s.unix_fd rc.data wr.ret, Event.close s.unix_fd], ?_, ?_⟩
          · rw [← hret.2.2]; simp [World.emit]
          · intro fd p x h
            simp at h
            exact h.2.1
        · simp only [hwr, if_false, Option.some.injEq, Prod.mk.injEq] at hret
          refine ⟨[Event.argo_recvfrom s.argo_fd s.msg_buf.length rc.ret,
            Event.write s.unix_fd rc.data wr.ret], ?_, ?_⟩
          · rw [← hret.2.2]; simp
          · intro fd p x h
            simp at h
            exact h.2.1

/-- C5, at an instance: a datagram "ping" arrives with no client; and with
client 5 present the write carries the datagram just received. -/
theorem drop_on_absence_witness :
    qmph_argo_to_unix idle_state
        { quiet_world with
            recvs := [{ ret := 4, errno := 0, data := ping, src := idle_state.remote_addr }] }
      = some (0, { idle_state with
                     msg_buf := buf_store idle_state.msg_buf (ping.take (4 : Int).toNat),
                     remote_addr := idle_state.remote_addr },
              { quiet_world with trace := [] ++ [Event.argo_recvfrom 3 16 4] }) ∧
    (∃ evs,
      [Event.argo_recvfrom 3 16 4, Event.write 5 ping 4] = [] ++ evs ∧
      ∀ fd p x, Event.write fd p x ∈ evs → p = ping) :=
  ⟨drop_on_absence.1 idle_state
      { quiet_world with
          recvs := [{ ret := 4, errno := 0, data := ping, src := idle_state.remote_addr }] }
      { ret := 4, errno := 0, data := ping, src := idle_state.remote_addr } []
      rfl rfl (by decide),
   drop_on_absence.2 live_state
      { quiet_world with
          recvs := [{ ret := 4, errno := 0, data := ping, src := live_state.remote_addr }],
          writes := [{ ret := 4, errno := 0 }] }
      { ret := 4, errno := 0, data := ping, src := live_state.remote_addr } []
      0 { live_state with msg_buf := ping ++ List.replicate 12 0 }
      { quiet_world with trace := [Event.argo_recvfrom 3 16 4, Event.write 5 ping 4] }
      rfl rfl (by decide) (by decide)⟩

/-- C6, at the failing input: client 5 is present, the datagram "ping" is
received and `write` returns 2.  `qmph_argo_to_unix` returns 0 with the
client still present: two of the four bytes reached a client that stays. -/
theorem short_write_keeps_client :
    qmph_argo_to_unix live_state
        { quiet_world with
            recvs := [{ ret := 4, errno := 0, data := ping, src := live_state.remote_addr }],
            writes := [{ ret := 2, errno := 0 }] }
      = some (0, { live_state with msg_buf := ping ++ List.replicate 12 0 },
              { quiet_world with
                  trace := [Event.argo_recvfrom 3 16 4, Event.write 5 ping 2] }) := by
  decide

/-- C7, at the failing input: the listener is ready, `accept` returns 5 and
the token is accepted as 2 bytes and then 2 bytes.  The handshake does not
commit (`connected` stays false) and returns 2, so the loop body goes on with
client 5 kept and never closed. -/
theorem partial_handshake_keeps_client :
    main_iteration { qhs := idle_state, pending_exit := 0 }
        { quiet_world with
            selects := [SelectRet.done 1 0 [4]],
            accepts := [{ ret := 5, errno := 0 }],
            sends := [{ ret := 2, errno := 0 }, { ret := 2, errno := 0 }] }
      = LoopStep.continue
          { qhs := { idle_state with unix_fd := 5, connected := false }, pending_exit := 0 }
          { quiet_world with
              trace := [Event.select 5 [3, 4], Event.accept 4 5,
                        Event.argo_sendto 3 [108, 105, 118, 101] idle_state.remote_addr 2,
                        Event.argo_sendto 3 [118, 101] idle_state.remote_addr 2] } := by
  decide

/-- C8, at the failing input: the transport is ready and `argo_recvfrom`
returns -1.  The loop breaks, the sockets are torn down and the process
leaves through `exit(0)`: exit status 0 without any signal. -/
theorem receive_failure_exits_zero :
    main_loop 1 { qhs := idle_state, pending_exit := 0 }
        { quiet_world with
            selects := [SelectRet.done 1 0 [3]],
            recvs := [{ ret := -1, errno := 5, data := [], src := idle_state.remote_addr }] }
      = Outcome.exited 0
          { qhs := { idle_state with argo_fd := -1 }, pending_exit := 1 }
          { quiet_world with
              trace := [Event.select 5 [3, 4], Event.argo_recvfrom 3 16 (-1),
                        Event.close (-1), Event.close 4, Event.argo_close 3,
                        Event.closelog, Event.exit 0] } ∧
    exit_status 0 = 0 := by
  decide

/-- With a bad argument vector the startup returns -1 right after `openlog`. -/
theorem main_startup_bad_arguments (atoi : String → Int) (ARGO_RING_OVERHEAD : Nat)
    (env : StartupEnv) (argv : List String) (w : World)
    (hbad : argv.length ≠ 3 ∨ atoi (argv.getD 1 "") < 0 ∨ atoi (argv.getD 2 "") < 0) :
    ∃ g, main_startup atoi ARGO_RING_OVERHEAD env argv w
      = Outcome.returned (-1) g (w.emit Event.openlog) := by
  by_cases h3 : (argv.length : Int) ≠ 3
  · exact ⟨_, by unfold main_startup; exact if_pos h3⟩
  · by_cases h1 : atoi (argv.getD 1 "") < 0
    · exact ⟨_, by unfold main_startup; exact (if_neg h3).trans (if_pos h1)⟩
    · have h2 : atoi (argv.getD 2 "") < 0 := by
        rcases hbad with h | h | h
        · exact absurd (by exact_mod_cast h) h3
        · exact absurd h h1
        · exact h
      exact ⟨_, by unfold main_startup; exact (if_neg h3).trans ((if_neg h1).trans (if_pos h2))⟩

/-- With a bad argument vector `main` returns -1 right after `openlog`. -/
theorem main_bad_arguments (atoi : String → Int) (ARGO_RING_OVERHEAD : Nat)
    (env : StartupEnv) (argv : List String) (w : World) (fuel : Nat)
    (hbad : argv.length ≠ 3 ∨ atoi (argv.getD 1 "") < 0 ∨ atoi (argv.getD 2 "") < 0) :
    ∃ g, main atoi ARGO_RING_OVERHEAD env argv w fuel
      = Outcome.returned (-1) g (w.emit Event.openlog) := by
  obtain ⟨g, hg⟩ := main_startup_bad_arguments atoi ARGO_RING_OVERHEAD env argv w hbad
  exact ⟨g, by simp only [main, hg]⟩

theorem qmph_init_argo_socket_trace (ARGO_RING_OVERHEAD : Nat) (env : StartupEnv)
    (s : qmp_helper_state) (w : World) :
    ∃ rest, (qmph_init_argo_socket ARGO_RING_OVERHEAD env s w).2.2.trace
      = w.trace ++ Event.argo_socket env.argo_socket_ret :: rest := by
  unfold qmph_init_argo_socket
  simp only [World.emit]
  split_ifs <;>
    simp only [List.append_assoc, List.singleton_append, List.cons_append, List.nil_append] <;>
    exact ⟨_, rfl⟩

theorem qmph_init_unix_socket_trace (env : StartupEnv) (s : qmp_helper_state) (w : World) :
    ∃ rest, (qmph_init_unix_socket env s w).2.2.trace = w.trace ++ rest := by
  unfold qmph_init_unix_socket
  simp only [World.emit]
  split_ifs <;>
    simp only [List.append_assoc, List.singleton_append, List.cons_append, List.nil_append] <;>
    exact ⟨_, rfl⟩

theorem qmph_exit_cleanup_trace (code : Int) (g : Globals) (w : World) :
    (qmph_exit_cleanup code g w).2.trace
      = w.trace ++ [Event.close g.qhs.unix_fd, Event.close g.qhs.listen_fd,
                    Event.argo_close g.qhs.argo_fd, Event.closelog, Event.exit code] := by
  simp [qmph_exit_cleanup, World.emit]

theorem main_sockets_trace (ARGO_RING_OVERHEAD : Nat) (env : StartupEnv) (g : Globals)
    (w : World) :
    ∃ rest, (main_sockets ARGO_RING_OVERHEAD env g w).trace
      = w.trace ++ Event.signal_sigint :: Event.argo_socket env.argo_socket_ret :: rest := by
  obtain ⟨r1, hr1⟩ := qmph_init_argo_socket_trace ARGO_RING_OVERHEAD env g.qhs
    (w.emit Event.signal_sigint)
  obtain ⟨r2, hr2⟩ := qmph_init_unix_socket_trace env
    (qmph_init_argo_socket ARGO_RING_OVERHEAD env g.qhs (w.emit Event.signal_sigint)).2.1
    (qmph_init_argo_socket ARGO_RING_OVERHEAD env g.qhs (w.emit Event.signal_sigint)).2.2
  simp only [World.emit] at hr1 hr2
  simp only [main_sockets, World.emit]
  split_ifs
  · simp only [Outcome.trace]
    rw [hr1]
    simp only [List.append_assoc, List.cons_append, List.nil_append, List.singleton_append]
    exact ⟨_, rfl⟩
  · simp only [Outcome.trace, qmph_exit_cleanup_trace]
    rw [hr2, hr1]
    simp only [List.append_assoc, List.cons_append, List.nil_append, List.singleton_append]
    exact ⟨_, rfl⟩
  · simp only [Outcome.trace]
    rw [hr2, hr1]
    simp only [List.append_assoc, List.cons_append, List.nil_append, List.singleton_append]
    exact ⟨_, rfl⟩

/-- With a good argument vector the startup reaches `qmph_init_argo_socket`. -/
theorem main_startup_good_arguments (atoi : String → Int) (ARGO_RING_OVERHEAD : Nat)
    (env : StartupEnv) (argv : List String) (w : World)
    (h3 : argv.length = 3) (h1 : 0 ≤ atoi (argv.getD 1 ""))
    (h2 : 0 ≤ atoi (argv.getD 2 "")) :
    ∃ rest, (main_startup atoi ARGO_RING_OVERHEAD env argv w).trace
      = w.trace ++ Event.openlog :: Event.signal_sigint
          :: Event.argo_socket env.argo_socket_ret :: rest := by
  have h1n : ¬ atoi (argv.getD 1 "") < 0 := by omega
  have h2n : ¬ atoi (argv.getD 2 "") < 0 := by omega
  have h3n : ¬ ((argv.length : Int) ≠ 3) := by omega
  have hstart : main_startup atoi ARGO_RING_OVERHEAD env argv w = _ :=
    (if_neg h3n).trans ((if_neg h1n).trans (if_neg h2n))
  rw [hstart]
  obtain ⟨rest, hrest⟩ := main_sockets_trace ARGO_RING_OVERHEAD env
    { (zero_globals ARGO_RING_OVERHEAD) with
        qhs := { (zero_globals ARGO_RING_OVERHEAD).qhs with
                   guest_id := atoi (argv.getD 1 ""),
                   stubdom_id := atoi (argv.getD 2 "") } }
    (w.emit Event.openlog)
  refine ⟨rest, ?_⟩
  simp only [World.emit, List.append_assoc, List.singleton_append] at hrest
  exact hrest

/-- C9. Argument validation precedes resource creation.  When the argument
count is not exactly two positional arguments, or the first or the second
one parses to a negative integer, `main` returns -1 (exit status 255) and the
only call it has made is `openlog`: no `argo_socket`, no `socket`.
Conversely, a run of `main` in which a socket was created had `argc = 3` and
both ids `>= 0`; and with such arguments `main` does reach the `argo_socket`
call of `qmph_init_argo_socket`. -/
theorem argument_validation_first (atoi : String → Int) (ARGO_RING_OVERHEAD : Nat)
    (env : StartupEnv) (argv : List String) (w : World) (fuel : Nat) :
    ((argv.length ≠ 3 ∨ atoi (argv.getD 1 "") < 0 ∨ atoi (argv.getD 2 "") < 0) →
      (∃ g, main atoi ARGO_RING_OVERHEAD env argv w fuel
        = Outcome.returned (-1) g (w.emit Event.openlog)) ∧
      exit_status (-1) = 255 ∧
      (main atoi ARGO_RING_OVERHEAD env argv w fuel).trace = w.trace ++ [Event.openlog]) ∧
    ((∃ e ∈ (main atoi ARGO_RING_OVERHEAD env argv w fuel).trace.drop w.trace.length,
        e.is_socket_creation = true) →
      argv.length = 3 ∧ 0 ≤ atoi (argv.getD 1 "") ∧ 0 ≤ atoi (argv.getD 2 "")) ∧
    (argv.length = 3 → 0 ≤ atoi (argv.getD 1 "") → 0 ≤ atoi (argv.getD 2 "") →
      Event.argo_socket env.argo_socket_ret
        ∈ (main_startup atoi ARGO_RING_OVERHEAD env argv w).trace.drop w.trace.length) := by
  have hbad : (argv.length ≠ 3 ∨ atoi (argv.getD 1 "") < 0 ∨ atoi (argv.getD 2 "") < 0) →
      (main atoi ARGO_RING_OVERHEAD env argv w fuel).trace = w.trace ++ [Event.openlog] := by
    intro h
    obtain ⟨g, hg⟩ := main_bad_arguments atoi ARGO_RING_OVERHEAD env argv w fuel h
    rw [hg]
    rfl
  refine ⟨?_, ?_, ?_⟩
  · intro h
    exact ⟨main_bad_arguments atoi ARGO_RING_OVERHEAD env argv w fuel h, by decide, hbad h⟩
  · rintro ⟨e, he, hsock⟩
    by_contra hcon
    have h : argv.length ≠ 3 ∨ atoi (argv.getD 1 "") < 0 ∨ atoi (argv.getD 2 "") < 0 := by
      by_contra hn
      push_neg at hn
      exact hcon ⟨hn.1, hn.2.1, hn.2.2⟩
    rw [hbad h] at he
    simp at he
    subst he
    simp [Event.is_socket_creation] at hsock
  · intro h3 h1 h2
    obtain ⟨rest, hrest⟩ :=
      main_startup_good_arguments atoi ARGO_RING_OVERHEAD env argv w h3 h1 h2
    rw [hrest]
    simp

/-- C9, at an instance: the program invoked with one argument, and with a
negative second id. -/
theorem argument_validation_first_witness :
    ((∃ g, main sample_atoi 16368 good_startup ["qmp_helper", "1"] quiet_world 5
        = Outcome.returned (-1) g (quiet_world.emit Event.openlog)) ∧
      exit_status (-1) = 255 ∧
      (main sample_atoi 16368 good_startup ["qmp_helper", "1"] quiet_world 5).trace
        = quiet_world.trace ++ [Event.openlog]) ∧
    ((∃ g, main sample_atoi 16368 good_startup ["qmp_helper", "1", "-1"] quiet_world 5
        = Outcome.returned (-1) g (quiet_world.emit Event.openlog)) ∧
      exit_status (-1) = 255 ∧
      (main sample_atoi 16368 good_startup ["qmp_helper", "1", "-1"] quiet_world 5).trace
        = quiet_world.trace ++ [Event.openlog]) ∧
    Event.argo_socket good_startup.argo_socket_ret
      ∈ (main_startup sample_atoi 16368 good_startup ["qmp_helper", "1", "2"]
          quiet_world).trace.drop quiet_world.trace.length :=
  ⟨(argument_validation_first sample_atoi 16368 good_startup ["qmp_helper", "1"]
      quiet_world 5).1 (Or.inl (by decide)),
   (argument_validation_first sample_atoi 16368 good_startup ["qmp_helper", "1", "-1"]
      quiet_world 5).1 (Or.inr (Or.inr (by decide))),
   (argument_validation_first sample_atoi 16368 good_startup ["qmp_helper", "1", "2"]
      quiet_world 5).2.2 (by decide) (by decide) (by decide)⟩

/-- C10, at the failing input.  From startup with arguments 1 and 2: a client
is accepted and the handshake commits; a datagram arrives and the write to
the client fails.  The third iteration then starts with no client
(`unix_fd = -1`) and `connected` still true; and when a second client is
accepted in it, no second "live" is sent although the transport would accept
one: the trace holds a single token. -/
theorem write_failure_leaves_connected :
    (main sample_atoi 16368 good_startup ["qmp_helper", "1", "2"]
        write_failure_world 2).is_running = true ∧
    (main sample_atoi 16368 good_startup ["qmp_helper", "1", "2"]
        write_failure_world 2).globals.qhs.unix_fd = -1 ∧
    (main sample_atoi 16368 good_startup ["qmp_helper", "1", "2"]
        write_failure_world 2).globals.qhs.connected = true ∧
    (main sample_atoi 16368 good_startup ["qmp_helper", "1", "2"]
        write_failure_world 3).globals.qhs.unix_fd = 6 ∧
    sent_payloads (main sample_atoi 16368 good_startup ["qmp_helper", "1", "2"]
        write_failure_world 3).trace = [ARGO_MAGIC_CONNECT] := by
  decide

/-- A handshake from the other state whose first send fails with an error
other than `EINTR`. -/
theorem qmp_magic_message_error (s : qmp_helper_state) (connect : Bool) (w : World)
    (sd : SysRet) (sr : List SysRet)
    (hne : s.connected ≠ connect) (hs : w.sends = sd :: sr) (hsd : sd.ret < 0)
    (herr : sd.errno ≠ EINTR) :
    qmp_magic_message s connect w
      = some (-1, s,
              { w with sends := sr,
                       trace := w.trace ++
                         [Event.argo_sendto s.argo_fd
                            (if connect then ARGO_MAGIC_CONNECT else ARGO_MAGIC_DISCONNECT)
                            s.remote_addr sd.ret] }) := by
  simp only [qmp_magic_message, hne, if_false, argo_sendto_all, magic_length, hs,
    argo_sendto_all_loop, hsd, herr]
  cases connect <;> simp [ARGO_MAGIC_CONNECT, ARGO_MAGIC_DISCONNECT]

/-- C2. Handshake commit rule.  For a call of `qmp_magic_message` whose
requested state differs from `connected` and which returns: the sends it
issued all go to `remote_addr`; `connected` takes the requested value if and
only if the final send returned 4, the token length, and otherwise the state
is unchanged.  When the flag changes and that final send accepted no more
than it was asked, its payload was the whole token and no earlier send
accepted a byte, so the token went out as one single 4-byte message.  Such
calls do return: when the first send accepts the 4 bytes the call returns 4
with the flag changed, and when it fails with an error other than `EINTR`
the call returns -1 with the state unchanged. -/
theorem handshake_commit_rule :
    (∀ (s : qmp_helper_state) (connect : Bool) (w : World)
        (ret : Int) (s1 : qmp_helper_state) (w1 : World),
        s.connected ≠ connect →
        qmp_magic_message s connect w = some (ret, s1, w1) →
        ∃ pre p x,
          w1.trace = w.trace ++ pre ++ [Event.argo_sendto s.argo_fd p s.remote_addr x] ∧
          (∀ e ∈ pre, ∃ q y, e = Event.argo_sendto s.argo_fd q s.remote_addr y) ∧
          (s1.connected = connect ↔ x = 4) ∧
          (s1 = if x = 4 then { s with connected := connect } else s) ∧
          (ret = if 0 ≤ x then x else -1) ∧
          (x = 4 → x ≤ p.length →
            p = (if connect then ARGO_MAGIC_CONNECT else ARGO_MAGIC_DISCONNECT) ∧
            ∀ q y, Event.argo_sendto s.argo_fd q s.remote_addr y ∈ pre → y ≤ 0)) ∧
    (∀ (s : qmp_helper_state) (connect : Bool) (w : World) (sd : SysRet) (sr : List SysRet),
        s.connected ≠ connect → w.sends = sd :: sr → sd.ret = 4 →
        qmp_magic_message s connect w
          = some (4, { s with connected := connect },
                  { w with sends := sr,
                           trace := w.trace ++
                             [Event.argo_sendto s.argo_fd
                                (if connect then ARGO_MAGIC_CONNECT
                                 else ARGO_MAGIC_DISCONNECT)
                                s.remote_addr 4] })) ∧
    (∀ (s : qmp_helper_state) (connect : Bool) (w : World) (sd : SysRet) (sr : List SysRet),
        s.connected ≠ connect → w.sends = sd :: sr → sd.ret < 0 → sd.errno ≠ EINTR →
        qmp_magic_message s connect w
          = some (-1, s,
                  { w with sends := sr,
                           trace := w.trace ++
                             [Event.argo_sendto s.argo_fd
                                (if connect then ARGO_MAGIC_CONNECT
                                 else ARGO_MAGIC_DISCONNECT)
                                s.remote_addr sd.ret] })) :=
  ⟨qmp_magic_message_sends, qmp_magic_message_first, qmp_magic_message_error⟩

/-- C2, at an instance: a connect from the disconnected state whose single
send accepts the 4 bytes, seen through the rule and through the result; and
a disconnect whose send fails. -/
theorem handshake_commit_rule_witness :
    (∃ pre p x,
      [Event.argo_sendto 3 ARGO_MAGIC_CONNECT idle_state.remote_addr 4]
        = [] ++ pre ++ [Event.argo_sendto 3 p idle_state.remote_addr x] ∧
      (∀ e ∈ pre, ∃ q y, e = Event.argo_sendto 3 q idle_state.remote_addr y) ∧
      (true = true ↔ x = 4) ∧
      ({ idle_state with connected := true }
        = if x = 4 then { idle_state with connected := true } else idle_state) ∧
      ((4 : Int) = if 0 ≤ x then x else -1) ∧
      (x = 4 → x ≤ p.length →
        p = (if true then ARGO_MAGIC_CONNECT else ARGO_MAGIC_DISCONNECT) ∧
        ∀ q y, Event.argo_sendto 3 q idle_state.remote_addr y ∈ pre → y ≤ 0)) ∧
    qmp_magic_message idle_state true
        { quiet_world with sends := [{ ret := 4, errno := 0 }] }
      = some (4, { idle_state with connected := true },
              { quiet_world with
                  trace := [] ++ [Event.argo_sendto 3
                    (if true then ARGO_MAGIC_CONNECT else ARGO_MAGIC_DISCONNECT)
                    idle_state.remote_addr 4] }) ∧
    qmp_magic_message live_state false
        { quiet_world with sends := [{ ret := -1, errno := 11 }] }
      = some (-1, live_state,
              { quiet_world with
                  trace := [] ++ [Event.argo_sendto 3
                    (if false then ARGO_MAGIC_CONNECT else ARGO_MAGIC_DISCONNECT)
                    live_state.remote_addr (-1)] }) :=
  ⟨handshake_commit_rule.1 idle_state true
      { quiet_world with sends := [{ ret := 4, errno := 0 }] } 4
      { idle_state with connected := true }
      { quiet_world with
          trace := [Event.argo_sendto 3 ARGO_MAGIC_CONNECT idle_state.remote_addr 4] }
      (by decide) (by decide),
   handshake_commit_rule.2.1 idle_state true
      { quiet_world with sends := [{ ret := 4, errno := 0 }] }
      { ret := 4, errno := 0 } [] (by decide) rfl rfl,
   handshake_commit_rule.2.2 live_state false
      { quiet_world with sends := [{ ret := -1, errno := 11 }] }
      { ret := -1, errno := 11 } [] (by decide) rfl (by decide) (by decide)⟩

/-- While bytes remain to be sent, the value of the local `ret` on entry to a
round does not matter. -/
theorem argo_sendto_all_loop_ret (fd : Int) (buf : List Byte) (size : Int)
    (addr : xen_argo_addr_t) (sends : List SysRet) (sent ret1 ret2 : Int)
    (trace : List Event) (hlt : sent < size) :
    argo_sendto_all_loop fd buf size addr sends sent ret1 trace
      = argo_sendto_all_loop fd buf size addr sends sent ret2 trace := by
  cases sends <;> simp [argo_sendto_all_loop, hlt]

/-- Interrupted sends are retried on the same unsent suffix. -/
theorem argo_sendto_all_loop_eintr (fd : Int) (buf : List Byte) (size : Int)
    (addr : xen_argo_addr_t) (eintrs sends : List SysRet) (sent : Int) (hlt : sent < size)
    (hall : ∀ r ∈ eintrs, interrupted r) :
    ∀ (ret : Int) (trace : List Event),
      argo_sendto_all_loop fd buf size addr (eintrs ++ sends) sent ret trace
        = argo_sendto_all_loop fd buf size addr sends sent ret
            (trace ++ eintrs.map (fun r =>
              Event.argo_sendto fd ((buf.drop sent.toNat).take (size - sent).toNat)
                addr r.ret)) := by
  induction eintrs with
  | nil => intro ret trace; simp
  | cons r0 rest0 ih =>
    intro ret trace
    obtain ⟨h1, h2⟩ := hall r0 (List.mem_cons_self _ _)
    have ih1 := ih (fun r hr => hall r (List.mem_cons_of_mem _ hr)) r0.ret
      (trace ++ [Event.argo_sendto fd ((buf.drop sent.toNat).take (size - sent).toNat)
        addr r0.ret])
    simp only [List.cons_append, argo_sendto_all_loop, hlt, if_true, h1, h2, List.map_cons,
      List.append_eq]
    rw [ih1, argo_sendto_all_loop_ret fd buf size addr sends sent r0.ret ret _ hlt]
    simp

/-- The trace the loop starts from is only extended. -/
theorem argo_sendto_all_loop_prefix (fd : Int) (buf : List Byte) (size : Int)
    (addr : xen_argo_addr_t) (t : List Event) :
    ∀ (sends : List SysRet) (sent ret : Int) (u : List Event),
      argo_sendto_all_loop fd buf size addr sends sent ret (t ++ u)
        = (argo_sendto_all_loop fd buf size addr sends sent ret u).map
            (fun p => (p.1, p.2.1, t ++ p.2.2)) := by
  intro sends
  induction sends with
  | nil =>
    intro sent ret u
    by_cases h : sent < size <;> simp [argo_sendto_all_loop, h]
  | cons r0 rest0 ih =>
    intro sent ret u
    by_cases h : sent < size
    · by_cases hneg : r0.ret < 0
      · by_cases hint : r0.errno = EINTR
        · simp only [argo_sendto_all_loop, h, hneg, hint, if_true]
          rw [← ih, List.append_assoc]
        · simp [argo_sendto_all_loop, h, hneg, hint]
      · simp only [argo_sendto_all_loop, h, hneg, if_true, if_false]
        rw [← ih, List.append_assoc]
    · simp [argo_sendto_all_loop, h]

theorem accepted_by_nonneg : ∀ (l : List SysRet), 0 ≤ accepted_by l := by
  intro l
  induction l with
  | nil => simp [accepted_by]
  | cons r rest ih =>
    simp only [accepted_by]
    split_ifs <;> omega

/-- The first failure other than `EINTR` ends the send loop: after results
`pre`, none of them such a failure and together accepting less than what is
left to send, the loop makes one call per result of `pre`, then the failing
call on the suffix still unsent, and returns -1 with the later results
unconsumed. -/
theorem argo_sendto_all_loop_fatal (fd : Int) (buf : List Byte) (size : Int)
    (addr : xen_argo_addr_t) (r0 : SysRet) (rest : List SysRet)
    (hneg : r0.ret < 0) (herr : r0.errno ≠ EINTR) :
    ∀ (pre : List SysRet) (sent ret : Int) (trace : List Event),
      (∀ r ∈ pre, 0 ≤ r.ret ∨ r.errno = EINTR) →
      sent + accepted_by pre < size →
      ∃ evs, evs.length = pre.length ∧ (∀ e ∈ evs, e.is_send = true) ∧
        argo_sendto_all_loop fd buf size addr (pre ++ r0 :: rest) sent ret trace
          = some (-1, rest, trace ++ evs ++
              [Event.argo_sendto fd
                ((buf.drop (sent + accepted_by pre).toNat).take
                  (size - (sent + accepted_by pre)).toNat) addr r0.ret]) := by
  intro pre
  induction pre with
  | nil =>
    intro sent ret trace _ hlt
    simp only [accepted_by, add_zero] at hlt
    exact ⟨[], rfl, by simp, by simp [argo_sendto_all_loop, hlt, hneg, herr, accepted_by]⟩
  | cons r pre1 ih =>
    intro sent ret trace hall hlt
    have hnn := accepted_by_nonneg pre1
    have hall1 : ∀ x ∈ pre1, 0 ≤ x.ret ∨ x.errno = EINTR :=
      fun x hx => hall x (List.mem_cons_of_mem _ hx)
    simp only [accepted_by] at hlt
    by_cases hr : r.ret < 0
    · have hint : r.errno = EINTR := by
        rcases hall r (List.mem_cons_self _ _) with h | h
        · omega
        · exact h
      have h0 : ¬ 0 ≤ r.ret := by omega
      simp only [h0, if_false, zero_add] at hlt
      have hs : sent < size := by omega
      obtain ⟨evs, e1, e2, e3⟩ := ih sent r.ret
        (trace ++ [Event.argo_sendto fd
          ((buf.drop sent.toNat).take (size - sent).toNat) addr r.ret]) hall1 hlt
      refine ⟨Event.argo_sendto fd
          ((buf.drop sent.toNat).take (size - sent).toNat) addr r.ret :: evs, ?_, ?_, ?_⟩
      · simp [e1]
      · intro e he
        rcases List.mem_cons.mp he with h | h
        · rw [h]; rfl
        · exact e2 e h
      · have step : argo_sendto_all_loop fd buf size addr (r :: (pre1 ++ r0 :: rest))
              sent ret trace
            = argo_sendto_all_loop fd buf size addr (pre1 ++ r0 :: rest) sent r.ret
                (trace ++ [Event.argo_sendto fd
                  ((buf.drop sent.toNat).take (size - sent).toNat) addr r.ret]) := by
          simp only [argo_sendto_all_loop, hs, hr, hint, if_true]
        rw [List.cons_append, step, e3]
        simp [accepted_by, h0]
    · have h0 : 0 ≤ r.ret := by omega
      simp only [h0, if_true] at hlt
      have hs : sent < size := by omega
      have hlt1 : sent + r.ret + accepted_by pre1 < size := by omega
      obtain ⟨evs, e1, e2, e3⟩ := ih (sent + r.ret) r.ret
        (trace ++ [Event.argo_sendto fd
          ((buf.drop sent.toNat).take (size - sent).toNat) addr r.ret]) hall1 hlt1
      refine ⟨Event.argo_sendto fd
          ((buf.drop sent.toNat).take (size - sent).toNat) addr r.ret :: evs, ?_, ?_, ?_⟩
      · simp [e1]
      · intro e he
        rcases List.mem_cons.mp he with h | h
        · rw [h]; rfl
        · exact e2 e h
      · have step : argo_sendto_all_loop fd buf size addr (r :: (pre1 ++ r0 :: rest))
              sent ret trace
            = argo_sendto_all_loop fd buf size addr (pre1 ++ r0 :: rest) (sent + r.ret) r.ret
                (trace ++ [Event.argo_sendto fd
                  ((buf.drop sent.toNat).take (size - sent).toNat) addr r.ret]) := by
          simp only [argo_sendto_all_loop, hs, hr, if_true, if_false]
        rw [List.cons_append, step, e3]
        simp [accepted_by, h0, add_assoc]

/-- A call of `argo_sendto_all` whose first pending results are failures with
`EINTR` is the send loop on the remaining results, started with nothing sent
and with the interrupted calls, each on the whole buffer, in the trace. -/
theorem argo_sendto_all_retry (fd : Int) (buf : List Byte) (size : Int)
    (addr : xen_argo_addr_t) (w : World) (eintrs sends : List SysRet)
    (hpos : 0 < size) (hall : ∀ r ∈ eintrs, interrupted r)
    (hs : w.sends = eintrs ++ sends) :
    argo_sendto_all fd buf size addr w
      = (argo_sendto_all_loop fd buf size addr sends 0 0
          (w.trace ++ eintrs.map (fun r =>
            Event.argo_sendto fd (buf.take size.toNat) addr r.ret))).map
          (fun p => (p.1, { w with sends := p.2.1, trace := p.2.2 })) := by
  have h1 := argo_sendto_all_loop_eintr fd buf size addr eintrs sends 0 hpos hall 0 w.trace
  simp only [Int.toNat_zero, List.drop_zero, sub_zero] at h1
  simp only [argo_sendto_all, hs, h1]
  cases argo_sendto_all_loop fd buf size addr sends 0 0
      (w.trace ++ eintrs.map (fun r =>
        Event.argo_sendto fd (buf.take size.toNat) addr r.ret)) with
  | none => rfl
  | some res => rfl

/-- With results that each fail for good or accept at least one byte and no
more than asked, the loop returns within `size - sent` sends. -/
theorem argo_sendto_all_loop_terminates (fd : Int) (buf : List Byte) (size : Int)
    (addr : xen_argo_addr_t) :
    ∀ (sends : List SysRet) (sent ret : Int) (trace : List Event),
      0 ≤ sent → sent < size → (size - sent).toNat ≤ sends.length →
      progress_script size sent sends →
      ∃ v rest evs,
        argo_sendto_all_loop fd buf size addr sends sent ret trace
          = some (v, rest, trace ++ evs) ∧
        sends.length = evs.length + rest.length ∧
        1 ≤ evs.length ∧ evs.length ≤ (size - sent).toNat ∧
        (∀ e ∈ evs, e.is_send = true) ∧
        (0 ≤ v → accepted_bytes evs = size - sent ∧
          ∃ pre p, evs = pre ++ [Event.argo_sendto fd p addr v]) ∧
        (v < 0 → v = -1) := by
  intro sends
  induction sends with
  | nil =>
    intro sent ret trace _ hlt hlen _
    simp at hlen
    omega
  | cons r0 rest0 ih =>
    intro sent ret trace h0 hlt hlen hprog
    simp only [List.length_cons] at hlen
    rcases hprog hlt with ⟨hneg, herr⟩ | ⟨h1, h2, hrest⟩
    · refine ⟨-1, rest0, [Event.argo_sendto fd
        ((buf.drop sent.toNat).take (size - sent).toNat) addr r0.ret], ?_, ?_, ?_, ?_, ?_, ?_, ?_⟩
      · simp [argo_sendto_all_loop, hlt, hneg, herr]
      · simp; omega
      · simp
      · simp; omega
      · intro e he; simp at he; subst he; rfl
      · intro h; omega
      · intro _; rfl
    · have hneg : ¬ r0.ret < 0 := by omega
      by_cases hmore : sent + r0.ret < size
      · obtain ⟨v, rest, evs, e1, e2, e3, e4, e5, e6, e7⟩ :=
          ih (sent + r0.ret) r0.ret
            (trace ++ [Event.argo_sendto fd
              ((buf.drop sent.toNat).take (size - sent).toNat) addr r0.ret])
            (by omega) hmore (by omega) hrest
        refine ⟨v, rest, Event.argo_sendto fd
          ((buf.drop sent.toNat).take (size - sent).toNat) addr r0.ret :: evs,
          ?_, ?_, ?_, ?_, ?_, ?_, e7⟩
        · simp only [argo_sendto_all_loop, hlt, hneg, if_true, if_false]
          rw [e1]; simp
        · simp; omega
        · simp
        · simp; omega
        · intro e he
          rcases List.mem_cons.mp he with he | he
          · subst he; rfl
          · exact e5 e he
        · intro hv
          obtain ⟨a, pre, p, hp⟩ := e6 hv
          refine ⟨?_, Event.argo_sendto fd
            ((buf.drop sent.toNat).take (size - sent).toNat) addr r0.ret :: pre, p, ?_⟩
          · simp only [accepted_bytes, a]
            have : (0 : Int) ≤ r0.ret := by omega
            simp only [this, if_true]
            omega
          · rw [hp]; simp
      · refine ⟨r0.ret, rest0, [Event.argo_sendto fd
          ((buf.drop sent.toNat).take (size - sent).toNat) addr r0.ret],
          ?_, ?_, ?_, ?_, ?_, ?_, ?_⟩
        · simp only [argo_sendto_all_loop, hlt, hneg, if_true, if_false]
          rw [argo_sendto_all_loop_done _ _ _ _ _ _ _ _ hmore]
        · simp; omega
        · simp
        · simp; omega
        · intro e he; simp at he; subst he; rfl
        · intro _
          refine ⟨?_, [], _, rfl⟩
          have : (0 : Int) ≤ r0.ret := by omega
          simp only [accepted_bytes, this, if_true]
          omega
        · intro h; omega

/-- With results that each accept nothing or fail with `EINTR`, the loop does
not return, however many results there are. -/
theorem argo_sendto_all_loop_stuck (fd : Int) (buf : List Byte) (size : Int)
    (addr : xen_argo_addr_t) :
    ∀ (sends : List SysRet), (∀ r ∈ sends, no_progress r) →
      ∀ (sent ret : Int) (trace : List Event), sent < size →
        argo_sendto_all_loop fd buf size addr sends sent ret trace = none := by
  intro sends
  induction sends with
  | nil =>
    intro _ sent ret trace hlt
    simp [argo_sendto_all_loop, hlt]
  | cons r0 rest0 ih =>
    intro hall sent ret trace hlt
    have ih1 := ih (fun r hr => hall r (List.mem_cons_of_mem _ hr))
    rcases hall r0 (List.mem_cons_self _ _) with h0 | ⟨hneg, hint⟩
    · have hneg : ¬ r0.ret < 0 := by omega
      simp only [argo_sendto_all_loop, hlt, hneg, if_true, if_false]
      exact ih1 _ _ _ (by omega)
    · simp only [argo_sendto_all_loop, hlt, hneg, hint, if_true]
      exact ih1 _ _ _ hlt

/-- C18. Termination of the reliable send.  For every `size > 0` and pending
results, at least `size` of them, in which each call made either fails with
an error other than `EINTR` or accepts `r` bytes with `1 <= r <= size - sent`:
`argo_sendto_all` returns after at least one and at most `size` sends; when
the value returned is non-negative, the bytes accepted over all the sends
total `size` exactly and the value is the count accepted by the last send
(3, not 4, when the token is accepted as 1 byte and then 3 bytes); otherwise
it is -1.  When every pending result accepts 0 bytes or fails with `EINTR`,
the call does not return, however many results there are. -/
theorem reliable_send_terminates :
    (∀ (fd : Int) (buf : List Byte) (size : Int) (addr : xen_argo_addr_t) (w : World),
        0 < size → size.toNat ≤ w.sends.length → progress_script size 0 w.sends →
        ∃ v w1 evs,
          argo_sendto_all fd buf size addr w = some (v, w1) ∧
          w1.trace = w.trace ++ evs ∧
          w.sends.length = evs.length + w1.sends.length ∧
          1 ≤ evs.length ∧ evs.length ≤ size.toNat ∧
          (∀ e ∈ evs, e.is_send = true) ∧
          (0 ≤ v → accepted_bytes evs = size ∧
            ∃ pre p, evs = pre ++ [Event.argo_sendto fd p addr v]) ∧
          (v < 0 → v = -1)) ∧
    (∃ w1, argo_sendto_all 3 ARGO_MAGIC_CONNECT 4 idle_state.remote_addr
        { quiet_world with sends := [{ ret := 1, errno := 0 }, { ret := 3, errno := 0 }] }
      = some (3, w1) ∧ accepted_bytes w1.trace = 4) ∧
    (∀ (fd : Int) (buf : List Byte) (size : Int) (addr : xen_argo_addr_t) (w : World),
        0 < size → (∀ r ∈ w.sends, no_progress r) →
        argo_sendto_all fd buf size addr w = none) := by
  refine ⟨?_, ?_, ?_⟩
  · intro fd buf size addr w hpos hlen hprog
    obtain ⟨v, rest, evs, e1, e2, e3, e4, e5, e6, e7⟩ :=
      argo_sendto_all_loop_terminates fd buf size addr w.sends 0 0 w.trace
        (le_refl 0) hpos (by simpa using hlen) hprog
    refine ⟨v, { w with sends := rest, trace := w.trace ++ evs }, evs, ?_, rfl, e2, e3,
      by simpa using e4, e5, ?_, e7⟩
    · simp only [argo_sendto_all, e1]
    · intro hv
      simpa using e6 hv
  · exact ⟨{ quiet_world with
        trace := [Event.argo_sendto 3 ARGO_MAGIC_CONNECT idle_state.remote_addr 1,
                  Event.argo_sendto 3 [105, 118, 101] idle_state.remote_addr 3] },
      by decide, by decide⟩
  · intro fd buf size addr w hpos hall
    simp only [argo_sendto_all,
      argo_sendto_all_loop_stuck fd buf size addr w.sends hall 0 0 w.trace hpos]

/-- C18, at an instance: the token accepted as 2 bytes and 2 bytes; and a
transport that keeps interrupting or accepting nothing. -/
theorem reliable_send_terminates_witness :
    (∃ v w1 evs,
      argo_sendto_all 3 ARGO_MAGIC_CONNECT 4 idle_state.remote_addr
          { quiet_world with
              sends := [{ ret := 2, errno := 0 }, { ret := 2, errno := 0 },
                        { ret := 4, errno := 0 }, { ret := 4, errno := 0 }] }
        = some (v, w1) ∧
      w1.trace = [] ++ evs ∧
      4 = evs.length + w1.sends.length ∧
      1 ≤ evs.length ∧ evs.length ≤ (4 : Int).toNat ∧
      (∀ e ∈ evs, e.is_send = true) ∧
      (0 ≤ v → accepted_bytes evs = 4 ∧
        ∃ pre p, evs = pre ++ [Event.argo_sendto 3 p idle_state.remote_addr v]) ∧
      (v < 0 → v = -1)) ∧
    argo_sendto_all 3 ARGO_MAGIC_CONNECT 4 idle_state.remote_addr
        { quiet_world with
            sends := [{ ret := -1, errno := 4 }, { ret := 0, errno := 0 },
                      { ret := -1, errno := 4 }] }
      = none :=
  ⟨reliable_send_terminates.1 3 ARGO_MAGIC_CONNECT 4 idle_state.remote_addr
      { quiet_world with
          sends := [{ ret := 2, errno := 0 }, { ret := 2, errno := 0 },
                    { ret := 4, errno := 0 }, { ret := 4, errno := 0 }] }
      (by decide) (by decide)
      (fun _ => Or.inr ⟨by decide, by decide,
        fun _ => Or.inr ⟨by decide, by decide,
          fun h => absurd h (by decide)⟩⟩),
   reliable_send_terminates.2.2 3 ARGO_MAGIC_CONNECT 4 idle_state.remote_addr
      { quiet_world with
          sends := [{ ret := -1, errno := 4 }, { ret := 0, errno := 0 },
                    { ret := -1, errno := 4 }] }
      (by decide) (by unfold no_progress; decide)⟩

/-- C16. Interrupted sends are transparent.  For every `k`, buffer and
`size > 0`: if the first `k` pending send results are failures with `EINTR`,
`argo_sendto_all` returns what the run on the remaining results returns, with
the same remaining queue, and its trace is the `k` interrupted calls, each on
the whole unsent buffer, followed by the sends of that run.  And at any point
of the loop, a send failing with an error other than `EINTR` makes the loop
return -1 at once, the rest of the queue untouched.  The function does return
in these cases: after `k` interrupted calls, a send that accepts the whole
size makes `argo_sendto_all` return `size`; whenever the remaining results
make progress (each fails for good or accepts between 1 byte and what is
left), both the run without interruptions and the interrupted run return, the
same value; and when a send fails with an error other than `EINTR` after
results `pre` that contain no such failure and accept less than `size` in
total, `argo_sendto_all` returns -1 after `|pre| + 1` sends, the last one
being the failing call, and consumes no later result. -/
theorem interrupted_sends_transparent :
    (∀ (fd : Int) (buf : List Byte) (size : Int) (addr : xen_argo_addr_t) (w : World)
        (eintrs sends : List SysRet),
        0 < size → (∀ r ∈ eintrs, interrupted r) → w.sends = eintrs ++ sends →
        argo_sendto_all fd buf size addr w
          = (argo_sendto_all fd buf size addr { w with sends := sends, trace := [] }).map
              (fun p => (p.1,
                { p.2 with
                    trace := w.trace ++
                      eintrs.map (fun r =>
                        Event.argo_sendto fd (buf.take size.toNat) addr r.ret) ++
                      p.2.trace }))) ∧
    (∀ (fd : Int) (buf : List Byte) (size : Int) (addr : xen_argo_addr_t)
        (sent ret : Int) (trace : List Event) (r0 : SysRet) (rest : List SysRet),
        sent < size → r0.ret < 0 → r0.errno ≠ EINTR →
        argo_sendto_all_loop fd buf size addr (r0 :: rest) sent ret trace
          = some (-1, rest,
                  trace ++ [Event.argo_sendto fd
                    ((buf.drop sent.toNat).take (size - sent).toNat) addr r0.ret])) ∧
    (∀ (fd : Int) (buf : List Byte) (size : Int) (addr : xen_argo_addr_t) (w : World)
        (eintrs : List SysRet) (sd : SysRet) (sr : List SysRet),
        0 < size → (∀ r ∈ eintrs, interrupted r) → w.sends = eintrs ++ sd :: sr →
        sd.ret = size →
        argo_sendto_all fd buf size addr w
          = some (size,
              { w with
                  sends := sr,
                  trace := w.trace ++
                    eintrs.map (fun r =>
                      Event.argo_sendto fd (buf.take size.toNat) addr r.ret) ++
                    [Event.argo_sendto fd (buf.take size.toNat) addr size] })) ∧
    (∀ (fd : Int) (buf : List Byte) (size : Int) (addr : xen_argo_addr_t) (w : World)
        (eintrs sends : List SysRet),
        0 < size → (∀ r ∈ eintrs, interrupted r) → w.sends = eintrs ++ sends →
        size.toNat ≤ sends.length → progress_script size 0 sends →
        ∃ v rest evs,
          argo_sendto_all fd buf size addr { w with sends := sends, trace := [] }
            = some (v, { w with sends := rest, trace := evs }) ∧
          argo_sendto_all fd buf size addr w
            = some (v,
                { w with
                    sends := rest,
                    trace := w.trace ++
                      eintrs.map (fun r =>
                        Event.argo_sendto fd (buf.take size.toNat) addr r.ret) ++
                      evs }) ∧
          (v < 0 → v = -1)) ∧
    (∀ (fd : Int) (buf : List Byte) (size : Int) (addr : xen_argo_addr_t) (w : World)
        (pre : List SysRet) (r0 : SysRet) (rest : List SysRet),
        w.sends = pre ++ r0 :: rest →
        (∀ r ∈ pre, 0 ≤ r.ret ∨ r.errno = EINTR) → accepted_by pre < size →
        r0.ret < 0 → r0.errno ≠ EINTR →
        ∃ evs, evs.length = pre.length ∧ (∀ e ∈ evs, e.is_send = true) ∧
          argo_sendto_all fd buf size addr w
            = some (-1,
                { w with
                    sends := rest,
                    trace := w.trace ++ evs ++
                      [Event.argo_sendto fd
                        ((buf.drop (accepted_by pre).toNat).take
                          (size - accepted_by pre).toNat) addr r0.ret] })) := by
  refine ⟨?_, ?_, ?_, ?_, ?_⟩
  · intro fd buf size addr w eintrs sends hpos hall hs
    have h1 := argo_sendto_all_loop_eintr fd buf size addr eintrs sends 0 hpos hall 0 w.trace
    have h2 := argo_sendto_all_loop_prefix fd buf size addr
      (w.trace ++ eintrs.map (fun r =>
        Event.argo_sendto fd ((buf.drop (0 : Int).toNat).take (size - 0).toNat) addr r.ret))
      sends 0 0 []
    rw [List.append_nil] at h2
    simp only [argo_sendto_all, hs, h1, h2]
    cases argo_sendto_all_loop fd buf size addr sends 0 0 [] with
    | none => rfl
    | some res =>
      obtain ⟨v, rest, tr⟩ := res
      simp
  · intro fd buf size addr sent ret trace r0 rest hlt hneg herr
    simp [argo_sendto_all_loop, hlt, hneg, herr]
  · intro fd buf size addr w eintrs sd sr hpos hall hs hsd
    rw [argo_sendto_all_retry fd buf size addr w eintrs (sd :: sr) hpos hall hs,
      argo_sendto_all_loop_first fd buf size addr sd sr _ hpos hsd]
    rfl
  · intro fd buf size addr w eintrs sends hpos hall hs hlen hprog
    obtain ⟨v, rest, evs, e1, _, _, _, _, _, e7⟩ :=
      argo_sendto_all_loop_terminates fd buf size addr sends 0 0 []
        (le_refl 0) hpos (by simpa using hlen) hprog
    have h2 := argo_sendto_all_loop_prefix fd buf size addr
      (w.trace ++ eintrs.map (fun r =>
        Event.argo_sendto fd (buf.take size.toNat) addr r.ret)) sends 0 0 []
    rw [List.append_nil, e1] at h2
    refine ⟨v, rest, evs, ?_, ?_, e7⟩
    · simp only [argo_sendto_all, e1, List.nil_append]
    · rw [argo_sendto_all_retry fd buf size addr w eintrs sends hpos hall hs, h2]
      simp
  · intro fd buf size addr w pre r0 rest hs hall hlt hneg herr
    obtain ⟨evs, e1, e2, e3⟩ := argo_sendto_all_loop_fatal fd buf size addr r0 rest hneg herr
      pre 0 0 w.trace hall (by simpa using hlt)
    refine ⟨evs, e1, e2, ?_⟩
    simp only [zero_add] at e3
    simp only [argo_sendto_all, hs, e3]

/-- C16, at instances: two interrupted sends before the send that accepts
the token "live", compared with the run without them and then evaluated, the
value returned being 4; a send refused with another error after 2 bytes, in
the loop; an interrupted send before a run that accepts the token as 2 bytes
and 2 bytes; and a call that accepts 2 bytes, is interrupted once, and then
fails with error 11, returning -1 with the next result unconsumed. -/
theorem interrupted_sends_transparent_witness :
    argo_sendto_all 3 ARGO_MAGIC_CONNECT 4 idle_state.remote_addr
        { quiet_world with sends := [{ ret := -1, errno := 4 }, { ret := -1, errno := 4 }]
                                      ++ [{ ret := 4, errno := 0 }] }
      = (argo_sendto_all 3 ARGO_MAGIC_CONNECT 4 idle_state.remote_addr
          { quiet_world with sends := [{ ret := 4, errno := 0 }], trace := [] }).map
          (fun p => (p.1,
            { p.2 with
                trace := quiet_world.trace ++
                  [({ ret := -1, errno := 4 } : SysRet), { ret := -1, errno := 4 }].map
                    (fun r => Event.argo_sendto 3
                      (ARGO_MAGIC_CONNECT.take (4 : Int).toNat) idle_state.remote_addr r.ret) ++
                  p.2.trace })) ∧
    argo_sendto_all_loop 3 ARGO_MAGIC_CONNECT 4 idle_state.remote_addr
        ({ ret := -1, errno := 11 } :: [{ ret := 2, errno := 0 }]) 2 2 []
      = some (-1, [{ ret := 2, errno := 0 }],
              [] ++ [Event.argo_sendto 3
                ((ARGO_MAGIC_CONNECT.drop (2 : Int).toNat).take ((4 : Int) - 2).toNat)
                idle_state.remote_addr (-1)]) ∧
    argo_sendto_all 3 ARGO_MAGIC_CONNECT 4 idle_state.remote_addr
        { quiet_world with
            sends := [{ ret := -1, errno := 4 }, { ret := -1, errno := 4 },
                      { ret := 4, errno := 0 }, { ret := 7, errno := 0 }] }
      = some (4,
          { quiet_world with
              sends := [{ ret := 7, errno := 0 }],
              trace := [Event.argo_sendto 3 ARGO_MAGIC_CONNECT idle_state.remote_addr (-1),
                        Event.argo_sendto 3 ARGO_MAGIC_CONNECT idle_state.remote_addr (-1),
                        Event.argo_sendto 3 ARGO_MAGIC_CONNECT idle_state.remote_addr 4] }) ∧
    (∃ v rest evs,
      argo_sendto_all 3 ARGO_MAGIC_CONNECT 4 idle_state.remote_addr
          { quiet_world with
              sends := [{ ret := 2, errno := 0 }, { ret := 2, errno := 0 },
                        { ret := 4, errno := 0 }, { ret := 4, errno := 0 }],
              trace := [] }
        = some (v, { quiet_world with sends := rest, trace := evs }) ∧
      argo_sendto_all 3 ARGO_MAGIC_CONNECT 4 idle_state.remote_addr
          { quiet_world with
              sends := [{ ret := -1, errno := 4 }, { ret := 2, errno := 0 },
                        { ret := 2, errno := 0 }, { ret := 4, errno := 0 },
                        { ret := 4, errno := 0 }] }
        = some (v,
            { quiet_world with
                sends := rest,
                trace := [] ++
                  [({ ret := -1, errno := 4 } : SysRet)].map
                    (fun r => Event.argo_sendto 3
                      (ARGO_MAGIC_CONNECT.take (4 : Int).toNat) idle_state.remote_addr r.ret) ++
                  evs }) ∧
      (v < 0 → v = -1)) ∧
    (∃ evs, evs.length = 2 ∧ (∀ e ∈ evs, e.is_send = true) ∧
      argo_sendto_all 3 ARGO_MAGIC_CONNECT 4 idle_state.remote_addr
          { quiet_world with
              sends := [{ ret := 2, errno := 0 }, { ret := -1, errno := 4 },
                        { ret := -1, errno := 11 }, { ret := 4, errno := 0 }] }
        = some (-1,
            { quiet_world with
                sends := [{ ret := 4, errno := 0 }],
                trace := [] ++ evs ++
                  [Event.argo_sendto 3 [118, 101] idle_state.remote_addr (-1)] })) :=
  ⟨interrupted_sends_transparent.1 3 ARGO_MAGIC_CONNECT 4 idle_state.remote_addr
      { quiet_world with sends := [{ ret := -1, errno := 4 }, { ret := -1, errno := 4 }]
                                    ++ [{ ret := 4, errno := 0 }] }
      [{ ret := -1, errno := 4 }, { ret := -1, errno := 4 }] [{ ret := 4, errno := 0 }]
      (by decide) (by unfold interrupted; decide) rfl,
   interrupted_sends_transparent.2.1 3 ARGO_MAGIC_CONNECT 4 idle_state.remote_addr 2 2 []
      { ret := -1, errno := 11 } [{ ret := 2, errno := 0 }]
      (by decide) (by decide) (by decide),
   interrupted_sends_transparent.2.2.1 3 ARGO_MAGIC_CONNECT 4 idle_state.remote_addr
      { quiet_world with
          sends := [{ ret := -1, errno := 4 }, { ret := -1, errno := 4 },
                    { ret := 4, errno := 0 }, { ret := 7, errno := 0 }] }
      [{ ret := -1, errno := 4 }, { ret := -1, errno := 4 }]
      { ret := 4, errno := 0 } [{ ret := 7, errno := 0 }]
      (by decide) (by unfold interrupted; decide) rfl rfl,
   interrupted_sends_transparent.2.2.2.1 3 ARGO_MAGIC_CONNECT 4 idle_state.remote_addr
      { quiet_world with
          sends := [{ ret := -1, errno := 4 }, { ret := 2, errno := 0 },
                    { ret := 2, errno := 0 }, { ret := 4, errno := 0 },
                    { ret := 4, errno := 0 }] }
      [{ ret := -1, errno := 4 }]
      [{ ret := 2, errno := 0 }, { ret := 2, errno := 0 },
       { ret := 4, errno := 0 }, { ret := 4, errno := 0 }]
      (by decide) (by unfold interrupted; decide) rfl (by decide)
      (fun _ => Or.inr ⟨by decide, by decide,
        fun _ => Or.inr ⟨by decide, by decide,
          fun h => absurd h (by decide)⟩⟩),
   interrupted_sends_transparent.2.2.2.2 3 ARGO_MAGIC_CONNECT 4 idle_state.remote_addr
      { quiet_world with
          sends := [{ ret := 2, errno := 0 }, { ret := -1, errno := 4 },
                    { ret := -1, errno := 11 }, { ret := 4, errno := 0 }] }
      [{ ret := 2, errno := 0 }, { ret := -1, errno := 4 }]
      { ret := -1, errno := 11 } [{ ret := 4, errno := 0 }]
      rfl (by decide) (by decide) (by decide) (by decide)⟩

theorem same_endpoints_refl (s : qmp_helper_state) : same_endpoints s s :=
  ⟨rfl, rfl, rfl, rfl, rfl, rfl⟩

theorem same_endpoints_trans {s s1 s2 : qmp_helper_state}
    (h1 : same_endpoints s s1) (h2 : same_endpoints s1 s2) : same_endpoints s s2 :=
  ⟨h2.1.trans h1.1, h2.2.1.trans h1.2.1, h2.2.2.1.trans h1.2.2.1,
    h2.2.2.2.1.trans h1.2.2.2.1, h2.2.2.2.2.1.trans h1.2.2.2.2.1,
    h2.2.2.2.2.2.trans h1.2.2.2.2.2⟩

/-- A returning `argo_sendto_all` consumes send results and appends sends to
the trace, all on the given descriptor and address. -/
theorem argo_sendto_all_world (fd : Int) (buf : List Byte) (size : Int)
    (addr : xen_argo_addr_t) (w : World) (v : Int) (w1 : World)
    (h : argo_sendto_all fd buf size addr w = some (v, w1)) :
    same_inputs w w1 := by
  simp only [argo_sendto_all] at h
  cases hl : argo_sendto_all_loop fd buf size addr w.sends 0 0 w.trace with
  | none => simp [hl] at h
  | some res =>
    obtain ⟨r, rest, tr⟩ := res
    simp only [hl, Option.some.injEq, Prod.mk.injEq] at h
    rw [← h.2]
    exact ⟨rfl, rfl, rfl, rfl, rfl⟩

/-- A returning handshake leaves every queue but the sends. -/
theorem qmp_magic_message_world (s : qmp_helper_state) (connect : Bool) (w : World)
    (ret : Int) (s1 : qmp_helper_state) (w1 : World)
    (hret : qmp_magic_message s connect w = some (ret, s1, w1)) :
    same_inputs w w1 := by
  by_cases hc : s.connected = connect
  · rw [qmp_magic_message_same s connect w hc] at hret
    simp only [Option.some.injEq, Prod.mk.injEq] at hret
    rw [← hret.2.2]
    exact ⟨rfl, rfl, rfl, rfl, rfl⟩
  · simp only [qmp_magic_message, hc, if_false, magic_length] at hret
    cases ha : argo_sendto_all s.argo_fd
        (if connect then ARGO_MAGIC_CONNECT else ARGO_MAGIC_DISCONNECT) 4
        s.remote_addr w with
    | none => simp [ha] at hret
    | some res =>
      obtain ⟨v, w2⟩ := res
      have hw := argo_sendto_all_world _ _ _ _ _ _ _ ha
      simp only [ha] at hret
      by_cases hv : v = 4
      · simp only [hv, if_true, Option.some.injEq, Prod.mk.injEq] at hret
        rw [← hret.2.2]
        exact hw
      · simp only [hv, if_false, Option.some.injEq, Prod.mk.injEq] at hret
        rw [← hret.2.2]
        exact hw

/-- What every returning call of `qmph_unix_to_argo` leaves and does: the
endpoints and `remote_addr` are kept, `unix_fd` is kept or set to -1, the
queues other than reads and sends are kept, and the trace gains the read,
asked for the whole buffer, followed by sends to `remote_addr` and closes. -/
theorem qmph_unix_to_argo_frame (s : qmp_helper_state) (w : World)
    (r : Int) (s1 : qmp_helper_state) (w1 : World)
    (h : qmph_unix_to_argo s w = some (r, s1, w1)) :
    same_endpoints s s1 ∧ s1.remote_addr = s.remote_addr ∧
    (s1.unix_fd = s.unix_fd ∨ s1.unix_fd = -1) ∧
    w1.selects = w.selects ∧ w1.accepts = w.accepts ∧ w1.recvs = w.recvs ∧
    w1.writes = w.writes ∧
    ∃ n rest, w1.trace = w.trace ++ Event.read s.unix_fd s.msg_buf.length n :: rest ∧
      ∀ e ∈ rest, (∃ p x, e = Event.argo_sendto s.argo_fd p s.remote_addr x) ∨
        e = Event.close s.unix_fd := by
  cases hr : w.reads with
  | nil => simp [qmph_unix_to_argo, hr] at h
  | cons rd rr =>
    by_cases hz : rd.ret = 0
    · rw [qmph_unix_to_argo_eof s w rd rr hr hz] at h
      simp only [qmp_disconnect] at h
      cases hm : qmp_magic_message s false
          { w with reads := rr,
                   trace := w.trace ++ [Event.read s.unix_fd s.msg_buf.length 0] } with
      | none => simp [hm] at h
      | some res =>
        obtain ⟨r2, s2, w2⟩ := res
        simp only [hm, Option.some.injEq, Prod.mk.injEq] at h
        obtain ⟨_, hs1, hw1⟩ := h
        obtain ⟨hf, evs, he1, he2⟩ := qmp_magic_message_frame _ _ _ _ _ _ hm
        obtain ⟨i1, i2, _, i4, i5⟩ := qmp_magic_message_world _ _ _ _ _ _ hm
        have hfd : s2.unix_fd = s.unix_fd := by rw [hf]
        subst hs1 hw1
        refine ⟨?_, by rw [hf], Or.inr rfl, i1, i2, i4, i5, 0,
          evs ++ [Event.close s.unix_fd], ?_, ?_⟩
        · rw [hf]; exact ⟨rfl, rfl, rfl, rfl, rfl, rfl⟩
        · simp [World.emit, he1, hfd]
        · intro e he
          rcases List.mem_append.mp he with he | he
          · exact Or.inl (he2 e he)
          · exact Or.inr (by simpa using he)
    · by_cases hneg : rd.ret < 0
      · simp only [qmph_unix_to_argo, hr, hneg, if_true, Option.some.injEq,
          Prod.mk.injEq] at h
        obtain ⟨_, hs1, hw1⟩ := h
        subst hs1 hw1
        exact ⟨⟨rfl, rfl, rfl, rfl, rfl, buf_store_length _ _⟩, rfl, Or.inl rfl,
          rfl, rfl, rfl, rfl, rd.ret, [], by simp, by simp⟩
      · simp only [qmph_unix_to_argo, hr, hneg, hz, if_false, argo_sendto] at h
        cases hs : w.sends with
        | nil => simp [hs] at h
        | cons sd sr =>
          simp only [hs] at h
          by_cases he : sd.ret = rd.ret
          · simp only [he, ne_eq, not_true_eq_false, if_false, Option.some.injEq,
              Prod.mk.injEq] at h
            obtain ⟨_, hs1, hw1⟩ := h
            subst hs1 hw1
            exact ⟨⟨rfl, rfl, rfl, rfl, rfl, buf_store_length _ _⟩, rfl, Or.inl rfl,
              rfl, rfl, rfl, rfl, rd.ret, _, by simp; rfl,
              by intro e he; simp at he; exact Or.inl ⟨_, _, he⟩⟩
          · by_cases hm1 : sd.ret = -1
            · simp only [hm1] at he h
              simp only [he, ne_eq, not_false_eq_true, if_true, Option.some.injEq,
                Prod.mk.injEq] at h
              obtain ⟨_, hs1, hw1⟩ := h
              subst hs1 hw1
              refine ⟨⟨rfl, rfl, rfl, rfl, rfl, buf_store_length _ _⟩, rfl, Or.inr rfl,
                rfl, rfl, rfl, rfl, rd.ret, _, by simp [World.emit]; rfl, ?_⟩
              intro e he
              simp at he
              rcases he with he | he
              · exact Or.inl ⟨_, _, he⟩
              · exact Or.inr he
            · simp only [he, ne_eq, not_false_eq_true, if_true, hm1, if_false,
                Option.some.injEq, Prod.mk.injEq] at h
              obtain ⟨_, hs1, hw1⟩ := h
              subst hs1 hw1
              exact ⟨⟨rfl, rfl, rfl, rfl, rfl, buf_store_length _ _⟩, rfl, Or.inl rfl,
                rfl, rfl, rfl, rfl, rd.ret, _, by simp; rfl,
                by intro e he; simp at he; exact Or.inl ⟨_, _, he⟩⟩

/-- What every returning call of `qmph_argo_to_unix` leaves and does: the
endpoints and `connected` are kept, `remote_addr` becomes the source address
reported by the receive, `unix_fd` is kept or set to -1, and the trace gains
the receive, asked for the whole buffer, then at most one write, of no more
than the buffer length, and a close. -/
theorem qmph_argo_to_unix_frame (s : qmp_helper_state) (w : World) (rc : RecvRet)
    (rest : List RecvRet) (r : Int) (s1 : qmp_helper_state) (w1 : World)
    (hr : w.recvs = rc :: rest)
    (h : qmph_argo_to_unix s w = some (r, s1, w1)) :
    same_endpoints s s1 ∧ s1.remote_addr = rc.src ∧ s1.connected = s.connected ∧
    (s1.unix_fd = s.unix_fd ∨ s1.unix_fd = -1) ∧
    w1.selects = w.selects ∧ w1.accepts = w.accepts ∧ w1.reads = w.reads ∧
    w1.sends = w.sends ∧ w1.recvs = rest ∧
    ∃ evs, w1.trace
        = w.trace ++ Event.argo_recvfrom s.argo_fd s.msg_buf.length rc.ret :: evs ∧
      ∀ e ∈ evs, (∃ p x, e = Event.write s.unix_fd p x ∧ p.length ≤ s.msg_buf.length) ∨
        e = Event.close s.unix_fd := by
  have hlen : ∀ n : Nat, ((buf_store s.msg_buf (rc.data.take rc.ret.toNat)).take n).length
      ≤ s.msg_buf.length := by
    intro n
    rw [List.length_take, buf_store_length]
    exact Nat.min_le_right _ _
  by_cases hneg : rc.ret < 0
  · simp only [qmph_argo_to_unix, hr, hneg, if_true, Option.some.injEq,
      Prod.mk.injEq] at h
    obtain ⟨_, hs1, hw1⟩ := h
    subst hs1 hw1
    exact ⟨⟨rfl, rfl, rfl, rfl, rfl, buf_store_length _ _⟩, rfl, rfl, Or.inl rfl,
      rfl, rfl, rfl, rfl, rfl, [], by simp, by simp⟩
  · by_cases hfd : s.unix_fd = -1
    · simp only [qmph_argo_to_unix, hr, hneg, if_false, hfd, if_true, Option.some.injEq,
        Prod.mk.injEq] at h
      obtain ⟨_, hs1, hw1⟩ := h
      subst hs1 hw1
      exact ⟨⟨rfl, rfl, rfl, rfl, rfl, buf_store_length _ _⟩, rfl, rfl, Or.inl hfd.symm,
        rfl, rfl, rfl, rfl, rfl, [], by simp [hfd], by simp⟩
    · simp only [qmph_argo_to_unix, hr, hneg, if_false, hfd] at h
      cases hw : w.writes with
      | nil => simp [hw] at h
      | cons wr wrest =>
        simp only [hw] at h
        by_cases hwr : wr.ret < 0
        · simp only [hwr, if_true, Option.some.injEq, Prod.mk.injEq] at h
          obtain ⟨_, hs1, hw1⟩ := h
          subst hs1 hw1
          refine ⟨⟨rfl, rfl, rfl, rfl, rfl, buf_store_length _ _⟩, rfl, rfl, Or.inr rfl,
            rfl, rfl, rfl, rfl, rfl, _, by simp [World.emit]; rfl, ?_⟩
          intro e he
          simp at he
          rcases he with he | he
          · exact Or.inl ⟨_, _, he, hlen _⟩
          · exact Or.inr he
        · simp only [hwr, if_false, Option.some.injEq, Prod.mk.injEq] at h
          obtain ⟨_, hs1, hw1⟩ := h
          subst hs1 hw1
          refine ⟨⟨rfl, rfl, rfl, rfl, rfl, buf_store_length _ _⟩, rfl, rfl, Or.inl rfl,
            rfl, rfl, rfl, rfl, rfl, _, by simp; rfl, ?_⟩
          intro e he
          simp at he
          exact Or.inl ⟨_, _, he, hlen _⟩

/-- What a returning call of `qmph_accept_unix_socket` leaves and does. -/
theorem qmph_accept_unix_socket_frame (s : qmp_helper_state) (w : World)
    (r : Int) (s1 : qmp_helper_state) (w1 : World)
    (h : qmph_accept_unix_socket s w = some (r, s1, w1)) :
    same_endpoints s s1 ∧ s1.remote_addr = s.remote_addr ∧ s1.connected = s.connected ∧
    (r = 0 → 0 ≤ s1.unix_fd) ∧ (r ≠ 0 → s1.unix_fd = s.unix_fd) ∧
    w1.selects = w.selects ∧ w1.reads = w.reads ∧ w1.sends = w.sends ∧
    w1.recvs = w.recvs ∧ w1.writes = w.writes ∧
    ∃ evs, w1.trace = w.trace ++ evs ∧ ∀ e ∈ evs, e.is_send = false := by
  cases ha : w.accepts with
  | nil => simp [qmph_accept_unix_socket, ha] at h
  | cons a rest =>
    by_cases hneg : a.ret < 0
    · simp only [qmph_accept_unix_socket, ha, hneg, if_true, Option.some.injEq,
        Prod.mk.injEq] at h
      obtain ⟨hr, hs1, hw1⟩ := h
      subst hr hs1 hw1
      refine ⟨same_endpoints_refl s, rfl, rfl, by intro h; omega, fun _ => rfl,
        rfl, rfl, rfl, rfl, rfl,
        [Event.accept s.listen_fd a.ret, Event.close s.listen_fd],
        by simp [World.emit], ?_⟩
      intro e he
      simp at he
      rcases he with he | he <;> (subst he; rfl)
    · simp only [qmph_accept_unix_socket, ha, hneg, if_false, Option.some.injEq,
        Prod.mk.injEq] at h
      obtain ⟨hr, hs1, hw1⟩ := h
      subst hr hs1 hw1
      refine ⟨⟨rfl, rfl, rfl, rfl, rfl, rfl⟩, rfl, rfl, fun _ => by simpa using hneg,
        fun h => absurd rfl h, rfl, rfl, rfl, rfl, rfl,
        [Event.accept s.listen_fd a.ret], rfl, ?_⟩
      intro e he
      simp at he
      subst he; rfl

theorem loop_frame_intro {g g1 : Globals} {w w1 : World} (k : Nat)
    (h1 : same_endpoints g.qhs g1.qhs) (h2 : g1.pending_exit = g.pending_exit)
    (h3 : -1 ≤ g.qhs.unix_fd → -1 ≤ g1.qhs.unix_fd)
    (h4 : addr_ok g (w.recvs.take k) g1.qhs.remote_addr)
    (h5 : w1.recvs = w.recvs.drop k) (evs : List Event)
    (h6 : w1.trace = w.trace ++ evs)
    (h7 : ∀ fd p a x, Event.argo_sendto fd p a x ∈ evs →
      fd = g.qhs.argo_fd ∧ addr_ok g (w.recvs.take k) a) :
    loop_frame g w g1 w1 :=
  ⟨h1, h2, h3, k, h5, h4, evs, h6, h7⟩

theorem loop_frame_refl (g : Globals) (w : World) : loop_frame g w g w :=
  loop_frame_intro 0 (same_endpoints_refl _) rfl (fun h => h) (Or.inl rfl) (by simp) []
    (by simp) (by intro fd p a x h; simp at h)

/-- Addresses allowed after `k1` datagrams stay allowed after more. -/
theorem addr_ok_mono {g : Globals} {l : List RecvRet} {a : xen_argo_addr_t} (k1 k2 : Nat)
    (h : addr_ok g (l.take k1) a) : addr_ok g (l.take (k1 + k2)) a := by
  rcases h with h | ⟨rc, hrc, h⟩
  · exact Or.inl h
  · refine Or.inr ⟨rc, ?_, h⟩
    rw [List.take_add]
    exact List.mem_append_left _ hrc

theorem addr_ok_trans {g g1 : Globals} {l : List RecvRet} {a : xen_argo_addr_t}
    (k1 k2 : Nat) (h1 : addr_ok g (l.take k1) g1.qhs.remote_addr)
    (h2 : addr_ok g1 ((l.drop k1).take k2) a) : addr_ok g (l.take (k1 + k2)) a := by
  rcases h2 with h2 | ⟨rc, hrc, h2⟩
  · rw [h2]; exact addr_ok_mono k1 k2 h1
  · refine Or.inr ⟨rc, ?_, h2⟩
    rw [List.take_add]
    exact List.mem_append_right _ hrc

theorem loop_frame_trans {g g1 g2 : Globals} {w w1 w2 : World}
    (h1 : loop_frame g w g1 w1) (h2 : loop_frame g1 w1 g2 w2) : loop_frame g w g2 w2 := by
  obtain ⟨a1, a2, a3, k1, a5, a4, evs1, a6, a7⟩ := h1
  obtain ⟨b1, b2, b3, k2, b5, b4, evs2, b6, b7⟩ := h2
  rw [a5] at b4 b7
  refine loop_frame_intro (k1 + k2) (same_endpoints_trans a1 b1) (b2.trans a2)
    (fun h => b3 (a3 h)) (addr_ok_trans k1 k2 a4 b4) ?_ (evs1 ++ evs2) ?_ ?_
  · rw [b5, a5, List.drop_drop, Nat.add_comm]
  · rw [b6, a6, List.append_assoc]
  · intro fd p a x h
    rcases List.mem_append.mp h with h | h
    · exact ⟨(a7 fd p a x h).1, addr_ok_mono k1 k2 (a7 fd p a x h).2⟩
    · obtain ⟨c1, c2⟩ := b7 fd p a x h
      exact ⟨c1.trans a1.2.2.1, addr_ok_trans k1 k2 a4 c2⟩

theorem main_accept_block_frame (rfds : List Int) (g : Globals) (w : World)
    (g1 : Globals) (w1 : World)
    (h : main_accept_block rfds g w = LoopStep.continue g1 w1) :
    loop_frame g w g1 w1 := by
  by_cases hready : FD_ISSET g.qhs.listen_fd rfds = true
  · simp only [main_accept_block, hready, if_true] at h
    cases ha : qmph_accept_unix_socket g.qhs w with
    | none => simp [ha] at h
    | some res =>
      obtain ⟨ret, s1, wa⟩ := res
      obtain ⟨e1, e2, _, e4, _, _, _, _, e9, _, evsA, e11, e12⟩ :=
        qmph_accept_unix_socket_frame _ _ _ _ _ ha
      simp only [ha] at h
      by_cases hret : ret = 0
      · simp only [hret, ne_eq, not_true_eq_false, if_false, qmp_connect] at h
        cases hm : qmp_magic_message s1 true wa with
        | none => simp [hm] at h
        | some res2 =>
          obtain ⟨ret2, s2, w2⟩ := res2
          obtain ⟨f1, evsM, f2, f3⟩ := qmp_magic_message_frame _ _ _ _ _ _ hm
          obtain ⟨_, _, _, i4, _⟩ := qmp_magic_message_world _ _ _ _ _ _ hm
          have hs2 : same_endpoints s1 s2 := by
            rw [f1]; exact ⟨rfl, rfl, rfl, rfl, rfl, rfl⟩
          have hr2 : s2.remote_addr = g.qhs.remote_addr := by rw [f1]; exact e2
          have hu2 : s2.unix_fd = s1.unix_fd := by rw [f1]
          have hsend : ∀ fd p a x, Event.argo_sendto fd p a x ∈ evsA ++ evsM →
              fd = g.qhs.argo_fd ∧ addr_ok g (w.recvs.take 0) a := by
            intro fd p a x hmem
            rcases List.mem_append.mp hmem with hmem | hmem
            · have := e12 _ hmem
              simp [Event.is_send] at this
            · obtain ⟨q, y, hq⟩ := f3 _ hmem
              injection hq with h1 _ h3 _
              exact ⟨h1.trans e1.2.2.1, Or.inl (h3.trans e2)⟩
          simp only [hm] at h
          by_cases hm1 : ret2 = -1
          · simp only [hm1, if_true, LoopStep.continue.injEq] at h
            obtain ⟨hg, hw⟩ := h
            subst hg hw
            refine loop_frame_intro 0 (same_endpoints_trans e1 hs2) rfl
              (fun _ => le_refl _) (Or.inl hr2) (by simp [World.emit, i4, e9])
              (evsA ++ evsM ++ [Event.close s2.unix_fd])
              (by simp [World.emit, f2, e11]) ?_
            intro fd p a x hmem
            rcases List.mem_append.mp hmem with hmem | hmem
            · exact hsend fd p a x hmem
            · simp at hmem
          · simp only [hm1, if_false, LoopStep.continue.injEq] at h
            obtain ⟨hg, hw⟩ := h
            subst hg hw
            refine loop_frame_intro 0 (same_endpoints_trans e1 hs2) rfl (fun _ => ?_)
              (Or.inl hr2) (by simp [i4, e9]) (evsA ++ evsM) (by simp [f2, e11]) hsend
            have := e4 hret
            show -1 ≤ s2.unix_fd
            omega
      · simp [hret] at h
  · simp only [main_accept_block, hready] at h
    simp only [Bool.false_eq_true, if_false, LoopStep.continue.injEq] at h
    obtain ⟨hg, hw⟩ := h
    subst hg hw
    exact loop_frame_refl _ _

theorem main_unix_block_frame (rfds : List Int) (g : Globals) (w : World)
    (g1 : Globals) (w1 : World)
    (h : main_unix_block rfds g w = LoopStep.continue g1 w1) :
    loop_frame g w g1 w1 := by
  by_cases hready : FD_ISSET g.qhs.unix_fd rfds = true
  · simp only [main_unix_block, hready, if_true] at h
    cases hu : qmph_unix_to_argo g.qhs w with
    | none => simp [hu] at h
    | some res =>
      obtain ⟨ret, s1, wu⟩ := res
      obtain ⟨e1, e2, e3, _, _, e6, _, n, rest, e8, e9⟩ :=
        qmph_unix_to_argo_frame _ _ _ _ _ hu
      simp only [hu] at h
      by_cases hret : ret = 0
      · simp only [hret, ne_eq, not_true_eq_false, if_false, LoopStep.continue.injEq] at h
        obtain ⟨hg, hw⟩ := h
        subst hg hw
        refine loop_frame_intro 0 e1 rfl (fun hge => ?_) (Or.inl e2) (by simp [e6])
          (Event.read g.qhs.unix_fd g.qhs.msg_buf.length n :: rest) e8 ?_
        · show -1 ≤ s1.unix_fd
          rcases e3 with e3 | e3 <;> omega
        · intro fd p a x hmem
          rcases List.mem_cons.mp hmem with hmem | hmem
          · cases hmem
          · rcases e9 _ hmem with ⟨q, y, hq⟩ | hq
            · injection hq with h1 _ h3 _
              exact ⟨h1, Or.inl h3⟩
            · cases hq
      · simp [hret] at h
  · simp only [main_unix_block, hready] at h
    simp only [Bool.false_eq_true, if_false, LoopStep.continue.injEq] at h
    obtain ⟨hg, hw⟩ := h
    subst hg hw
    exact loop_frame_refl _ _

theorem main_argo_block_frame (rfds : List Int) (g : Globals) (w : World)
    (g1 : Globals) (w1 : World)
    (h : main_argo_block rfds g w = LoopStep.continue g1 w1) :
    loop_frame g w g1 w1 := by
  by_cases hready : FD_ISSET g.qhs.argo_fd rfds = true
  · simp only [main_argo_block, hready, if_true] at h
    cases hu : qmph_argo_to_unix g.qhs w with
    | none => simp [hu] at h
    | some res =>
      obtain ⟨ret, s1, wu⟩ := res
      cases hr : w.recvs with
      | nil => simp [qmph_argo_to_unix, hr] at hu
      | cons rc rrest =>
        obtain ⟨e1, e2, _, e4, _, _, _, _, e9, evs, e10, e11⟩ :=
          qmph_argo_to_unix_frame _ _ _ _ _ _ _ hr hu
        simp only [hu] at h
        by_cases hret : ret = 0
        · simp only [hret, ne_eq, not_true_eq_false, if_false,
            LoopStep.continue.injEq] at h
          obtain ⟨hg, hw⟩ := h
          subst hg hw
          refine loop_frame_intro 1 e1 rfl (fun hge => ?_)
            (Or.inr ⟨rc, by simp [hr], e2⟩) (by simp [e9, hr])
            (Event.argo_recvfrom g.qhs.argo_fd g.qhs.msg_buf.length rc.ret :: evs) e10 ?_
          · show -1 ≤ s1.unix_fd
            rcases e4 with e4 | e4 <;> omega
          · intro fd p a x hmem
            rcases List.mem_cons.mp hmem with hmem | hmem
            · cases hmem
            · rcases e11 _ hmem with ⟨q, y, hq, _⟩ | hq
              · cases hq
              · cases hq
        · simp [hret] at h
  · simp only [main_argo_block, hready] at h
    simp only [Bool.false_eq_true, if_false, LoopStep.continue.injEq] at h
    obtain ⟨hg, hw⟩ := h
    subst hg hw
    exact loop_frame_refl _ _

/-- An iteration that reaches the end of the loop body went through the
`select` and the three parts of the body, each ending normally. -/
theorem main_iteration_continue (g : Globals) (w : World) (g3 : Globals) (w3 : World)
    (h : main_iteration g w = LoopStep.continue g3 w3) :
    ∃ ret errno ready rest g1 w1 g2 w2,
      w.selects = SelectRet.done ret errno ready :: rest ∧ ret ≠ -1 ∧
      main_accept_block ((wait_set g.qhs).2.filter (fun fd => decide (fd ∈ ready))) g
          { w with selects := rest,
                   trace := w.trace ++ [Event.select (wait_set g.qhs).1 (wait_set g.qhs).2] }
        = LoopStep.continue g1 w1 ∧
      main_unix_block ((wait_set g.qhs).2.filter (fun fd => decide (fd ∈ ready))) g1 w1
        = LoopStep.continue g2 w2 ∧
      main_argo_block ((wait_set g.qhs).2.filter (fun fd => decide (fd ∈ ready))) g2 w2
        = LoopStep.continue g3 w3 := by
  cases hs : w.selects with
  | nil => simp [main_iteration, hs] at h
  | cons sel rest =>
    cases sel with
    | sigint => simp [main_iteration, hs, qmph_signal_handler] at h
    | done ret errno ready =>
      by_cases hret : ret = -1
      · simp [main_iteration, hs, hret] at h
      · simp only [main_iteration, hs, hret, if_false] at h
        rcases h1 : main_accept_block
            ((wait_set g.qhs).2.filter (fun fd => decide (fd ∈ ready))) g
            { w with selects := rest,
                     trace := w.trace ++
                       [Event.select (wait_set g.qhs).1 (wait_set g.qhs).2] }
          with ⟨g1, w1⟩ | ⟨g1, w1⟩ | ⟨c, g1, w1⟩ | _
        · simp only [h1] at h
          rcases h2 : main_unix_block
              ((wait_set g.qhs).2.filter (fun fd => decide (fd ∈ ready))) g1 w1
            with ⟨g2, w2⟩ | ⟨g2, w2⟩ | ⟨c, g2, w2⟩ | _
          · simp only [h2] at h
            exact ⟨ret, errno, ready, rest, g1, w1, g2, w2, rfl, hret, h1, h2, h⟩
          · simp [h2] at h
          · simp [h2] at h
          · simp [h2] at h
        · simp [h1] at h
        · simp [h1] at h
        · simp [h1] at h

theorem main_iteration_frame (g : Globals) (w : World) (g3 : Globals) (w3 : World)
    (h : main_iteration g w = LoopStep.continue g3 w3) :
    loop_frame g w g3 w3 := by
  obtain ⟨ret, errno, ready, rest, g1, w1, g2, w2, hs, _, h1, h2, h3⟩ :=
    main_iteration_continue g w g3 w3 h
  have f0 : loop_frame g w g
      { w with selects := rest,
               trace := w.trace ++ [Event.select (wait_set g.qhs).1 (wait_set g.qhs).2] } :=
    loop_frame_intro 0 (same_endpoints_refl _) rfl (fun h => h) (Or.inl rfl) (by simp)
      [Event.select (wait_set g.qhs).1 (wait_set g.qhs).2] rfl
      (by intro fd p a x hm; simp at hm)
  exact loop_frame_trans f0
    (loop_frame_trans (main_accept_block_frame _ _ _ _ _ h1)
      (loop_frame_trans (main_unix_block_frame _ _ _ _ _ h2)
        (main_argo_block_frame _ _ _ _ _ h3)))

/-- Every state in which the loop stands was reached keeping `loop_frame`. -/
theorem main_loop_frame :
    ∀ (fuel : Nat) (g : Globals) (w : World) (g1 : Globals) (w1 : World),
      main_loop fuel g w = Outcome.running g1 w1 → loop_frame g w g1 w1 := by
  intro fuel
  induction fuel with
  | zero =>
    intro g w g1 w1 h
    simp only [main_loop, Outcome.running.injEq] at h
    rw [← h.1, ← h.2]
    exact loop_frame_refl _ _
  | succ n ih =>
    intro g w g1 w1 h
    by_cases hp : g.pending_exit ≠ 0
    · simp [main_loop, hp, main_after_loop] at h
    · simp only [main_loop, hp, if_false] at h
      rcases hi : main_iteration g w with ⟨g2, w2⟩ | ⟨g2, w2⟩ | ⟨c, g2, w2⟩ | _
      · simp only [hi] at h
        exact loop_frame_trans (main_iteration_frame _ _ _ _ hi) (ih _ _ _ _ h)
      · simp [hi, main_after_loop] at h
      · simp [hi] at h
      · simp only [hi, Outcome.running.injEq] at h
        rw [← h.1, ← h.2]
        exact loop_frame_refl _ _

/-- A successful `qmph_init_argo_socket` fixes the two addresses. -/
theorem qmph_init_argo_socket_ok (ARGO_RING_OVERHEAD : Nat) (env : StartupEnv)
    (s : qmp_helper_state) (w : World) (s1 : qmp_helper_state) (w1 : World)
    (h : qmph_init_argo_socket ARGO_RING_OVERHEAD env s w = (0, s1, w1)) :
    s1 = { s with argo_fd := env.argo_socket_ret,
                  local_addr := { aport := ARGO_QH_PORT, domain_id := 0 },
                  remote_addr := { aport := ARGO_CHARDRV_PORT,
                                   domain_id := to_domid s.stubdom_id } } ∧
    w1.trace = w.trace ++
      [Event.argo_socket env.argo_socket_ret,
       Event.ioctl_setringsize env.argo_socket_ret
         (ARGO_CHARDRV_RING_SIZE ARGO_RING_OVERHEAD) env.ioctl_ret,
       Event.argo_bind env.argo_socket_ret { aport := ARGO_QH_PORT, domain_id := 0 }
         (to_domid s.stubdom_id) env.argo_bind_ret] := by
  unfold qmph_init_argo_socket at h
  simp only [World.emit] at h
  split_ifs at h with h1 h2 h3
  · simp at h
  · simp at h
  · simp at h
  · simp only [Prod.mk.injEq, true_and] at h
    obtain ⟨hs, hw⟩ := h
    subst hs hw
    exact ⟨rfl, by simp⟩

/-- C11, as stated, fails.  Started with arguments 1 and 2, a client is
accepted and the session goes up; a datagram then arrives from domain 2, the
partner of the ring, whose reported source port is 9999.  `remote_addr`
becomes that address, not port 15100 of domain 2, and the client's next
"ping" is sent to it. -/
theorem received_source_replaces_remote_addr :
    (main sample_atoi 16368 good_startup ["qmp_helper", "1", "2"]
        foreign_source_world 1).globals.qhs.remote_addr
      = { aport := ARGO_CHARDRV_PORT, domain_id := 2 } ∧
    (main sample_atoi 16368 good_startup ["qmp_helper", "1", "2"]
        foreign_source_world 3).globals.qhs.remote_addr
      = { aport := 9999, domain_id := 2 } ∧
    (main sample_atoi 16368 good_startup ["qmp_helper", "1", "2"]
        foreign_source_world 3).globals.qhs.stubdom_id = 2 ∧
    sent_payloads (main sample_atoi 16368 good_startup ["qmp_helper", "1", "2"]
        foreign_source_world 3).trace = [ARGO_MAGIC_CONNECT, ping] ∧
    Event.argo_sendto 3 ping { aport := 9999, domain_id := 2 } 4
      ∈ (main sample_atoi 16368 good_startup ["qmp_helper", "1", "2"]
          foreign_source_world 3).trace := by
  decide

/-- C11, amended.  A successful `qmph_init_argo_socket` sets `remote_addr` to
port 15100 of the domain `to_domid stubdom_id`, the 16-bit conversion of
`stubdom_id`, which is `stubdom_id` itself when `0 ≤ stubdom_id < 65536`.
Accept, the handshake and `qmph_unix_to_argo` do not modify it;
`qmph_argo_to_unix` stores in it the source address that the received
datagram reports.  Hence, for a run of the loop from a state whose
`remote_addr` is `a` to a state in which the loop stands: the receive results
still pending are those of the start less the ones consumed, and if every
datagram consumed, that is every datagram received so far, reported the
source `a`, then `remote_addr` is still `a` and every handshake token and
forwarded payload sent during the run was addressed to `a`.  Nothing is
assumed of the datagrams not yet received. -/
theorem remote_address_follows_source :
    (∀ (o : Nat) (env : StartupEnv) (s : qmp_helper_state) (w : World)
        (s1 : qmp_helper_state) (w1 : World),
        qmph_init_argo_socket o env s w = (0, s1, w1) →
        s1.remote_addr = { aport := 15100, domain_id := to_domid s1.stubdom_id } ∧
        (0 ≤ s1.stubdom_id ∧ s1.stubdom_id < 65536 →
          s1.remote_addr = { aport := 15100, domain_id := s1.stubdom_id })) ∧
    (∀ (s : qmp_helper_state) (w : World) (r : Int) (s1 : qmp_helper_state) (w1 : World),
        qmph_accept_unix_socket s w = some (r, s1, w1) →
        s1.remote_addr = s.remote_addr) ∧
    (∀ (s : qmp_helper_state) (c : Bool) (w : World) (r : Int) (s1 : qmp_helper_state)
        (w1 : World),
        qmp_magic_message s c w = some (r, s1, w1) → s1.remote_addr = s.remote_addr) ∧
    (∀ (s : qmp_helper_state) (w : World) (r : Int) (s1 : qmp_helper_state) (w1 : World),
        qmph_unix_to_argo s w = some (r, s1, w1) → s1.remote_addr = s.remote_addr) ∧
    (∀ (s : qmp_helper_state) (w : World) (rc : RecvRet) (rest : List RecvRet) (r : Int)
        (s1 : qmp_helper_state) (w1 : World),
        w.recvs = rc :: rest → qmph_argo_to_unix s w = some (r, s1, w1) →
        s1.remote_addr = rc.src) ∧
    (∀ (fuel : Nat) (g : Globals) (w : World) (g1 : Globals) (w1 : World)
        (a : xen_argo_addr_t),
        g.qhs.remote_addr = a →
        main_loop fuel g w = Outcome.running g1 w1 →
        w1.recvs = w.recvs.drop (w.recvs.length - w1.recvs.length) ∧
        ((∀ rc ∈ w.recvs.take (w.recvs.length - w1.recvs.length), rc.src = a) →
          g1.qhs.remote_addr = a ∧
          ∃ evs, w1.trace = w.trace ++ evs ∧
            ∀ fd p b x, Event.argo_sendto fd p b x ∈ evs → b = a)) := by
  refine ⟨?_, ?_, ?_, ?_, ?_, ?_⟩
  · intro o env s w s1 w1 h
    have h1 : s1.remote_addr
        = { aport := 15100, domain_id := to_domid s1.stubdom_id } := by
      rw [(qmph_init_argo_socket_ok o env s w s1 w1 h).1]
      rfl
    refine ⟨h1, fun hb => ?_⟩
    rw [h1, to_domid, Int.emod_eq_of_lt hb.1 hb.2]
  · intro s w r s1 w1 h
    exact (qmph_accept_unix_socket_frame s w r s1 w1 h).2.1
  · intro s c w r s1 w1 h
    rw [(qmp_magic_message_frame s c w r s1 w1 h).1]
  · intro s w r s1 w1 h
    exact (qmph_unix_to_argo_frame s w r s1 w1 h).2.1
  · intro s w rc rest r s1 w1 hr h
    exact (qmph_argo_to_unix_frame s w rc rest r s1 w1 hr h).2.1
  · intro fuel g w g1 w1 a ha h
    obtain ⟨_, _, _, k, hk, f4, evs, f6, f7⟩ := main_loop_frame fuel g w g1 w1 h
    have hlen : w1.recvs.length = w.recvs.length - k := by
      rw [hk, List.length_drop]
    rcases Nat.lt_or_ge w.recvs.length k with hlt | hge
    · have e : w.recvs.length - w1.recvs.length = w.recvs.length := by omega
      rw [e]
      refine ⟨?_, fun hall => ?_⟩
      · rw [hk, List.drop_length, List.drop_eq_nil_of_le (Nat.le_of_lt hlt)]
      · rw [List.take_length] at hall
        rw [List.take_of_length_le (Nat.le_of_lt hlt)] at f4 f7
        have hok : ∀ b, addr_ok g w.recvs b → b = a := by
          intro b hb
          rcases hb with hb | ⟨rc, hrc, hb⟩
          · rw [hb]; exact ha
          · rw [hb]; exact hall rc hrc
        exact ⟨hok _ f4, evs, f6, fun fd p b x hm => hok b (f7 fd p b x hm).2⟩
    · have e : w.recvs.length - w1.recvs.length = k := by omega
      rw [e]
      refine ⟨hk, fun hall => ?_⟩
      have hok : ∀ b, addr_ok g (w.recvs.take k) b → b = a := by
        intro b hb
        rcases hb with hb | ⟨rc, hrc, hb⟩
        · rw [hb]; exact ha
        · rw [hb]; exact hall rc hrc
      exact ⟨hok _ f4, evs, f6, fun fd p b x hm => hok b (f7 fd p b x hm).2⟩

/-- C11 amended, at instances.  Startup with `stubdom_id` 2 sets the address
to port 15100 of domain 2.  A datagram from another source replaces
`remote_addr`.  In a run of two iterations on `mixed_source_world` the one
datagram received came from the fixed address: `remote_addr` is unchanged and
the forwarded "ping" went to it, although a datagram from port 9999 is still
pending. -/
theorem remote_address_follows_source_witness :
    idle_state.remote_addr = { aport := 15100, domain_id := idle_state.stubdom_id } ∧
    ({ live_state with msg_buf := ping ++ List.replicate 12 0,
                       remote_addr := { aport := 9999, domain_id := 2 } }
        : qmp_helper_state).remote_addr
      = ({ ret := 4, errno := 0, data := ping,
           src := { aport := 9999, domain_id := 2 } } : RecvRet).src ∧
    (({ qhs := { live_state with msg_buf := ping ++ List.replicate 12 0 },
        pending_exit := 0 } : Globals).qhs.remote_addr = live_state.remote_addr ∧
      ∃ evs, [Event.select 6 [3, 5], Event.argo_recvfrom 3 16 4, Event.write 5 ping 4,
              Event.select 6 [3, 5], Event.read 5 16 4,
              Event.argo_sendto 3 ping { aport := 15100, domain_id := 2 } 4]
          = mixed_source_world.trace ++ evs ∧
        ∀ fd p b x, Event.argo_sendto fd p b x ∈ evs → b = live_state.remote_addr) :=
  ⟨((remote_address_follows_source.1 16 good_startup
        { idle_state with argo_fd := -1,
                          remote_addr := { aport := 0, domain_id := 0 },
                          local_addr := { aport := 0, domain_id := 0 } }
        quiet_world idle_state
        { quiet_world with
            trace := [Event.argo_socket 3, Event.ioctl_setringsize 3 16368 0,
                      Event.argo_bind 3 { aport := 5100, domain_id := 0 } 2 0] }
        (by decide)).2 (by decide)),
   remote_address_follows_source.2.2.2.2.1 live_state
      { quiet_world with
          recvs := [{ ret := 4, errno := 0, data := ping,
                      src := { aport := 9999, domain_id := 2 } }],
          writes := [{ ret := 4, errno := 0 }] }
      { ret := 4, errno := 0, data := ping, src := { aport := 9999, domain_id := 2 } } []
      0
      { live_state with msg_buf := ping ++ List.replicate 12 0,
                        remote_addr := { aport := 9999, domain_id := 2 } }
      { quiet_world with trace := [Event.argo_recvfrom 3 16 4, Event.write 5 ping 4] }
      rfl (by decide),
   (remote_address_follows_source.2.2.2.2.2 2 { qhs := live_state, pending_exit := 0 }
      mixed_source_world
      { qhs := { live_state with msg_buf := ping ++ List.replicate 12 0 },
        pending_exit := 0 }
      { quiet_world with
          recvs := [{ ret := 4, errno := 0, data := ping,
                      src := { aport := 9999, domain_id := 2 } }],
          trace := [Event.select 6 [3, 5], Event.argo_recvfrom 3 16 4,
                    Event.write 5 ping 4, Event.select 6 [3, 5], Event.read 5 16 4,
                    Event.argo_sendto 3 ping { aport := 15100, domain_id := 2 } 4] }
      live_state.remote_addr rfl (by decide)).2 (by decide)⟩

/-- The branch of `qmph_unix_to_argo` taken when the send does not return
the count read. -/
theorem qmph_unix_to_argo_short (s : qmp_helper_state) (w : World) (rd : ReadRet)
    (rr : List ReadRet) (sd : SysRet) (sr : List SysRet)
    (hr : w.reads = rd :: rr) (hpos : 0 < rd.ret) (hs : w.sends = sd :: sr)
    (hne : sd.ret ≠ rd.ret) :
    qmph_unix_to_argo s w
      = if sd.ret = -1 then
          some (-1, { s with msg_buf := buf_store s.msg_buf (rd.data.take rd.ret.toNat),
                             unix_fd := -1, connected := false },
                { w with reads := rr, sends := sr,
                         trace := w.trace ++
                           [Event.read s.unix_fd s.msg_buf.length rd.ret,
                            Event.argo_sendto s.argo_fd
                              ((buf_store s.msg_buf (rd.data.take rd.ret.toNat)).take
                                rd.ret.toNat) s.remote_addr sd.ret,
                            Event.close s.unix_fd] })
        else
          some (-1, { s with msg_buf := buf_store s.msg_buf (rd.data.take rd.ret.toNat) },
                { w with reads := rr, sends := sr,
                         trace := w.trace ++
                           [Event.read s.unix_fd s.msg_buf.length rd.ret,
                            Event.argo_sendto s.argo_fd
                              ((buf_store s.msg_buf (rd.data.take rd.ret.toNat)).take
                                rd.ret.toNat) s.remote_addr sd.ret] }) := by
  have hneg : ¬ rd.ret < 0 := by omega
  have hz : ¬ rd.ret = 0 := by omega
  simp only [qmph_unix_to_argo, hr, hneg, hz, if_false, argo_sendto, hs, hne, ne_eq,
    not_false_eq_true, if_true]
  by_cases hm1 : sd.ret = -1 <;> simp [hm1, World.emit]

/-- C12, as stated, fails: client 5 is present, the read returns the 4 bytes
"ping" and the send accepts 2.  `qmph_unix_to_argo` returns -1 but does not
close the client, `unix_fd` stays 5 and `connected` stays true. -/
theorem short_send_leaves_client :
    qmph_unix_to_argo live_state
        { quiet_world with reads := [{ ret := 4, errno := 0, data := ping }],
                           sends := [{ ret := 2, errno := 0 }] }
      = some (-1, { live_state with msg_buf := ping ++ List.replicate 12 0 },
              { quiet_world with
                  trace := [Event.read 5 16 4,
                            Event.argo_sendto 3 ping live_state.remote_addr 2] }) := by
  decide

/-- C12, amended.  With a client present and a read of `n > 0` bytes, when the
transport send returns anything other than `n`, `qmph_unix_to_argo` returns
-1, a non-zero value, so that the client part of the loop body breaks out of
the loop.  When the send returned -1, the client has been closed, `unix_fd`
set to -1 and `connected` to false.  For any other result `unix_fd` and
`connected` are as they were and no close was made; the teardown after the
loop then closes the descriptor still in `unix_fd`. -/
theorem short_send_is_fatal :
    (∀ (s : qmp_helper_state) (w : World) (rd : ReadRet) (rr : List ReadRet)
        (sd : SysRet) (sr : List SysRet),
        0 ≤ s.unix_fd → w.reads = rd :: rr → 0 < rd.ret → w.sends = sd :: sr →
        sd.ret ≠ rd.ret →
        ∃ s1 w1 p, qmph_unix_to_argo s w = some (-1, s1, w1) ∧
          (sd.ret = -1 →
            s1.unix_fd = -1 ∧ s1.connected = false ∧
            w1.trace = w.trace ++
              [Event.read s.unix_fd s.msg_buf.length rd.ret,
               Event.argo_sendto s.argo_fd p s.remote_addr sd.ret,
               Event.close s.unix_fd]) ∧
          (sd.ret ≠ -1 →
            s1.unix_fd = s.unix_fd ∧ s1.connected = s.connected ∧
            w1.trace = w.trace ++
              [Event.read s.unix_fd s.msg_buf.length rd.ret,
               Event.argo_sendto s.argo_fd p s.remote_addr sd.ret])) ∧
    (∀ (rfds : List Int) (g : Globals) (w : World) (rd : ReadRet) (rr : List ReadRet)
        (sd : SysRet) (sr : List SysRet),
        FD_ISSET g.qhs.unix_fd rfds = true →
        w.reads = rd :: rr → 0 < rd.ret → w.sends = sd :: sr → sd.ret ≠ rd.ret →
        ∃ g1 w1, main_unix_block rfds g w = LoopStep.break_ g1 w1 ∧
          qmph_unix_to_argo g.qhs w = some (-1, g1.qhs, w1)) ∧
    (∀ (g : Globals) (w : World),
        ∃ g1 w1, main_after_loop g w = Outcome.exited 0 g1 w1 ∧
          g1.qhs.unix_fd = -1 ∧
          w1.trace = w.trace ++
            [Event.close g.qhs.unix_fd, Event.close g.qhs.listen_fd,
             Event.argo_close g.qhs.argo_fd, Event.closelog, Event.exit 0]) := by
  refine ⟨?_, ?_, ?_⟩
  · intro s w rd rr sd sr _ hr hpos hs hne
    have h := qmph_unix_to_argo_short s w rd rr sd sr hr hpos hs hne
    by_cases hm1 : sd.ret = -1
    · simp only [hm1, if_true] at h
      exact ⟨_, _, _, h, fun _ => ⟨rfl, rfl, by rw [hm1]⟩, fun hc => absurd hm1 hc⟩
    · simp only [hm1, if_false] at h
      exact ⟨_, _, _, h, fun hc => absurd hc hm1, fun _ => ⟨rfl, rfl, rfl⟩⟩
  · intro rfds g w rd rr sd sr hready hr hpos hs hne
    have h := qmph_unix_to_argo_short g.qhs w rd rr sd sr hr hpos hs hne
    by_cases hm1 : sd.ret = -1
    · simp only [hm1, if_true] at h
      exact ⟨_, _, by simp only [main_unix_block, hready, if_true, h]; rfl, h⟩
    · simp only [hm1, if_false] at h
      exact ⟨_, _, by simp only [main_unix_block, hready, if_true, h]; rfl, h⟩
  · intro g w
    exact ⟨_, _, rfl, rfl, qmph_exit_cleanup_trace 0 g w⟩

/-- C12 amended, at an instance: client 5 present, "ping" read, and the send
refused with -1; and the body of the loop breaking on a send that accepts 2. -/
theorem short_send_is_fatal_witness :
    (∃ s1 w1 p,
      qmph_unix_to_argo live_state
          { quiet_world with reads := [{ ret := 4, errno := 0, data := ping }],
                             sends := [{ ret := -1, errno := 11 }] }
        = some (-1, s1, w1) ∧
      ((-1 : Int) = -1 →
        s1.unix_fd = -1 ∧ s1.connected = false ∧
        w1.trace = [] ++
          [Event.read 5 16 4, Event.argo_sendto 3 p live_state.remote_addr (-1),
           Event.close 5]) ∧
      ((-1 : Int) ≠ -1 →
        s1.unix_fd = 5 ∧ s1.connected = true ∧
        w1.trace = [] ++
          [Event.read 5 16 4, Event.argo_sendto 3 p live_state.remote_addr (-1)])) ∧
    (∃ g1 w1,
      main_unix_block [5] { qhs := live_state, pending_exit := 0 }
          { quiet_world with reads := [{ ret := 4, errno := 0, data := ping }],
                             sends := [{ ret := 2, errno := 0 }] }
        = LoopStep.break_ g1 w1 ∧
      qmph_unix_to_argo live_state
          { quiet_world with reads := [{ ret := 4, errno := 0, data := ping }],
                             sends := [{ ret := 2, errno := 0 }] }
        = some (-1, g1.qhs, w1)) :=
  ⟨short_send_is_fatal.1 live_state
      { quiet_world with reads := [{ ret := 4, errno := 0, data := ping }],
                         sends := [{ ret := -1, errno := 11 }] }
      { ret := 4, errno := 0, data := ping } [] { ret := -1, errno := 11 } []
      (by decide) rfl (by decide) rfl (by decide),
   short_send_is_fatal.2.1 [5] { qhs := live_state, pending_exit := 0 }
      { quiet_world with reads := [{ ret := 4, errno := 0, data := ping }],
                         sends := [{ ret := 2, errno := 0 }] }
      { ret := 4, errno := 0, data := ping } [] { ret := 2, errno := 0 } []
      (by decide) rfl (by decide) rfl (by decide)⟩

theorem ring_size_bounds (o : Nat) (ho : o ≤ 16384) :
    16 ∣ ARGO_CHARDRV_RING_SIZE o ∧ 16384 - o ≤ ARGO_CHARDRV_RING_SIZE o ∧
    ARGO_CHARDRV_RING_SIZE o < 16384 - o + 16 ∧
    ∀ m, 16 ∣ m → 16384 - o ≤ m → ARGO_CHARDRV_RING_SIZE o ≤ m := by
  simp only [ARGO_CHARDRV_RING_SIZE, XEN_ARGO_ROUNDUP, roundup, XEN_ARGO_MSG_SLOT_SIZE]
  refine ⟨Dvd.intro_left _ rfl, by omega, by omega, ?_⟩
  intro m hm hle
  obtain ⟨k, rfl⟩ := hm
  omega

theorem qmph_init_argo_socket_buf (o : Nat) (env : StartupEnv) (s : qmp_helper_state)
    (w : World) : (qmph_init_argo_socket o env s w).2.1.msg_buf = s.msg_buf := by
  unfold qmph_init_argo_socket
  simp only
  split_ifs <;> rfl

theorem qmph_init_unix_socket_buf (env : StartupEnv) (s : qmp_helper_state) (w : World) :
    (qmph_init_unix_socket env s w).2.1.msg_buf = s.msg_buf := by
  unfold qmph_init_unix_socket
  simp only
  split_ifs <;> rfl

/-- The loop is entered with a message buffer of `ARGO_CHARDRV_RING_SIZE`
bytes. -/
theorem main_startup_buf (atoi : String → Int) (o : Nat) (env : StartupEnv)
    (argv : List String) (w : World) (g1 : Globals) (w1 : World)
    (h : main_startup atoi o env argv w = Outcome.running g1 w1) :
    g1.qhs.msg_buf.length = ARGO_CHARDRV_RING_SIZE o := by
  unfold main_startup at h
  simp only at h
  split_ifs at h
  unfold main_sockets at h
  simp only at h
  split_ifs at h
  simp only [Outcome.running.injEq] at h
  rw [← h.1]
  simp only [qmph_init_unix_socket_buf, qmph_init_argo_socket_buf]
  simp [zero_globals]

/-- A call of `qmph_unix_to_argo` whose read returned bytes makes one send, of
no more than the buffer length. -/
theorem qmph_unix_to_argo_payload (s : qmp_helper_state) (w : World) (rd : ReadRet)
    (rr : List ReadRet) (r : Int) (s1 : qmp_helper_state) (w1 : World)
    (hr : w.reads = rd :: rr) (hpos : 0 < rd.ret)
    (h : qmph_unix_to_argo s w = some (r, s1, w1)) :
    ∃ p x rest, w1.trace = w.trace ++ Event.read s.unix_fd s.msg_buf.length rd.ret
        :: Event.argo_sendto s.argo_fd p s.remote_addr x :: rest ∧
      p.length ≤ s.msg_buf.length ∧ ∀ e ∈ rest, e.is_send = false := by
  have hlen : ((buf_store s.msg_buf (rd.data.take rd.ret.toNat)).take rd.ret.toNat).length
      ≤ s.msg_buf.length := by
    rw [List.length_take, buf_store_length]
    exact Nat.min_le_right _ _
  cases hs : w.sends with
  | nil =>
    have hneg : ¬ rd.ret < 0 := by omega
    have hz : ¬ rd.ret = 0 := by omega
    simp [qmph_unix_to_argo, hr, hneg, hz, argo_sendto, hs] at h
  | cons sd sr =>
    by_cases hne : sd.ret = rd.ret
    · have hneg : ¬ rd.ret < 0 := by omega
      have hz : ¬ rd.ret = 0 := by omega
      simp only [qmph_unix_to_argo, hr, hneg, hz, if_false, argo_sendto, hs, hne, ne_eq,
        not_true_eq_false, Option.some.injEq, Prod.mk.injEq] at h
      rw [← h.2.2]
      exact ⟨_, _, [], by simp; rfl, hlen, by simp⟩
    · rw [qmph_unix_to_argo_short s w rd rr sd sr hr hpos hs hne] at h
      by_cases hm1 : sd.ret = -1
      · simp only [hm1, if_true, Option.some.injEq, Prod.mk.injEq] at h
        rw [← h.2.2]
        refine ⟨_, _, [Event.close s.unix_fd], by simp; rfl, hlen, ?_⟩
        intro e he
        simp at he
        subst he; rfl
      · simp only [hm1, if_false, Option.some.injEq, Prod.mk.injEq] at h
        rw [← h.2.2]
        exact ⟨_, _, [], by simp; rfl, hlen, by simp⟩

/-- C15. Capacity arithmetic.  For every overhead `o <= 16384`,
`ARGO_CHARDRV_RING_SIZE` is a multiple of 16 with
`16384 - o <= size < 16384 - o + 16`, the least multiple of 16 that is
`>= 16384 - o`.  A successful `qmph_init_argo_socket` passes this value to the
ring-size ioctl, which it makes before the bind.  The loop is entered, and
stands at every later iteration, with a message buffer of exactly that many
bytes.  Every client read and every transport receive asks for the length of
the buffer, and every forwarded message, sent to the transport or written to
the client, is no longer than it. -/
theorem capacity_arithmetic :
    (∀ o : Nat, o ≤ 16384 →
        16 ∣ ARGO_CHARDRV_RING_SIZE o ∧ 16384 - o ≤ ARGO_CHARDRV_RING_SIZE o ∧
        ARGO_CHARDRV_RING_SIZE o < 16384 - o + 16 ∧
        ∀ m, 16 ∣ m → 16384 - o ≤ m → ARGO_CHARDRV_RING_SIZE o ≤ m) ∧
    (∀ (o : Nat) (env : StartupEnv) (s : qmp_helper_state) (w : World)
        (s1 : qmp_helper_state) (w1 : World),
        qmph_init_argo_socket o env s w = (0, s1, w1) →
        w1.trace = w.trace ++
          [Event.argo_socket env.argo_socket_ret,
           Event.ioctl_setringsize env.argo_socket_ret (ARGO_CHARDRV_RING_SIZE o)
             env.ioctl_ret,
           Event.argo_bind env.argo_socket_ret { aport := ARGO_QH_PORT, domain_id := 0 }
             (to_domid s.stubdom_id) env.argo_bind_ret]) ∧
    (∀ (atoi : String → Int) (o : Nat) (env : StartupEnv) (argv : List String) (w : World)
        (fuel : Nat) (g1 : Globals) (w1 : World),
        main atoi o env argv w fuel = Outcome.running g1 w1 →
        g1.qhs.msg_buf.length = ARGO_CHARDRV_RING_SIZE o) ∧
    (∀ (s : qmp_helper_state) (w : World) (r : Int) (s1 : qmp_helper_state) (w1 : World),
        qmph_unix_to_argo s w = some (r, s1, w1) →
        s1.msg_buf.length = s.msg_buf.length ∧
        ∃ n rest, w1.trace = w.trace ++ Event.read s.unix_fd s.msg_buf.length n :: rest) ∧
    (∀ (s : qmp_helper_state) (w : World) (rd : ReadRet) (rr : List ReadRet) (r : Int)
        (s1 : qmp_helper_state) (w1 : World),
        w.reads = rd :: rr → 0 < rd.ret → qmph_unix_to_argo s w = some (r, s1, w1) →
        ∃ p x rest, w1.trace = w.trace ++ Event.read s.unix_fd s.msg_buf.length rd.ret
            :: Event.argo_sendto s.argo_fd p s.remote_addr x :: rest ∧
          p.length ≤ s.msg_buf.length ∧ ∀ e ∈ rest, e.is_send = false) ∧
    (∀ (s : qmp_helper_state) (w : World) (rc : RecvRet) (rest : List RecvRet) (r : Int)
        (s1 : qmp_helper_state) (w1 : World),
        w.recvs = rc :: rest → qmph_argo_to_unix s w = some (r, s1, w1) →
        s1.msg_buf.length = s.msg_buf.length ∧
        ∃ evs, w1.trace
            = w.trace ++ Event.argo_recvfrom s.argo_fd s.msg_buf.length rc.ret :: evs ∧
          ∀ fd p x, Event.write fd p x ∈ evs → p.length ≤ s.msg_buf.length) := by
  refine ⟨ring_size_bounds, ?_, ?_, ?_, qmph_unix_to_argo_payload, ?_⟩
  · intro o env s w s1 w1 h
    exact (qmph_init_argo_socket_ok o env s w s1 w1 h).2
  · intro atoi o env argv w fuel g1 w1 h
    simp only [main] at h
    cases hstart : main_startup atoi o env argv w with
    | returned c g2 w2 => simp [hstart] at h
    | exited c g2 w2 => simp [hstart] at h
    | running g2 w2 =>
      simp only [hstart] at h
      have hf := main_loop_frame fuel g2 w2 g1 w1 h
      rw [hf.1.2.2.2.2.2]
      exact main_startup_buf atoi o env argv w g2 w2 hstart
  · intro s w r s1 w1 h
    obtain ⟨e1, _, _, _, _, _, _, n, rest, e8, _⟩ := qmph_unix_to_argo_frame s w r s1 w1 h
    exact ⟨e1.2.2.2.2.2, n, rest, e8⟩
  · intro s w rc rest r s1 w1 hr h
    obtain ⟨e1, _, _, _, _, _, _, _, _, evs, e10, e11⟩ :=
      qmph_argo_to_unix_frame s w rc rest r s1 w1 hr h
    refine ⟨e1.2.2.2.2.2, evs, e10, ?_⟩
    intro fd p x hm
    rcases e11 _ hm with ⟨q, y, hq, hlen⟩ | hq
    · injection hq with _ h2 _
      rw [h2]; exact hlen
    · cases hq

/-- C15, at an instance: an overhead of 100 bytes gives a ring of 16288
bytes; the startup with arguments 1 and 2 enters the loop with a buffer of the
ring size; and a 4-byte datagram is written within a 16-byte buffer. -/
theorem capacity_arithmetic_witness :
    (16 ∣ ARGO_CHARDRV_RING_SIZE 100 ∧ 16384 - 100 ≤ ARGO_CHARDRV_RING_SIZE 100 ∧
      ARGO_CHARDRV_RING_SIZE 100 < 16384 - 100 + 16 ∧
      ∀ m, 16 ∣ m → 16384 - 100 ≤ m → ARGO_CHARDRV_RING_SIZE 100 ≤ m) ∧
    ({ qhs := { idle_state with local_addr := { aport := 5100, domain_id := 0 } },
       pending_exit := 0 } : Globals).qhs.msg_buf.length = ARGO_CHARDRV_RING_SIZE 16368 ∧
    (({ live_state with msg_buf := ping ++ List.replicate 12 0 }
        : qmp_helper_state).msg_buf.length = live_state.msg_buf.length ∧
      ∃ evs, [Event.argo_recvfrom 3 16 4, Event.write 5 ping 4]
          = [] ++ Event.argo_recvfrom 3 live_state.msg_buf.length 4 :: evs ∧
        ∀ fd p x, Event.write fd p x ∈ evs → p.length ≤ live_state.msg_buf.length) :=
  ⟨capacity_arithmetic.1 100 (by decide),
   capacity_arithmetic.2.2.1 sample_atoi 16368 good_startup ["qmp_helper", "1", "2"]
      quiet_world 0
      { qhs := { idle_state with local_addr := { aport := 5100, domain_id := 0 } },
        pending_exit := 0 }
      { quiet_world with
          trace := [Event.openlog, Event.signal_sigint, Event.argo_socket 3,
                    Event.ioctl_setringsize 3 16 0,
                    Event.argo_bind 3 { aport := 5100, domain_id := 0 } 2 0,
                    Event.socket 4, Event.unlink "/var/run/xen/qmp-libxl-1",
                    Event.bind 4 "/var/run/xen/qmp-libxl-1" 0, Event.listen 4 1 0] }
      (by decide),
   capacity_arithmetic.2.2.2.2.2 live_state
      { quiet_world with
          recvs := [{ ret := 4, errno := 0, data := ping, src := live_state.remote_addr }],
          writes := [{ ret := 4, errno := 0 }] }
      { ret := 4, errno := 0, data := ping, src := live_state.remote_addr } [] 0
      { live_state with msg_buf := ping ++ List.replicate 12 0 }
      { quiet_world with trace := [Event.argo_recvfrom 3 16 4, Event.write 5 ping 4] }
      rfl (by decide)⟩

/-- On a descriptor `>= 0`, `FD_ISSET` is membership in the set. -/
theorem FD_ISSET_nonneg (fd : Int) (set : List Int) (h : 0 ≤ fd) :
    FD_ISSET fd set = decide (fd ∈ set) := by
  have h1 : ¬ fd = -1 := by omega
  simp [FD_ISSET, h1]

/-- The wait set when no client is present. -/
theorem wait_set_idle (s : qmp_helper_state) (hu : s.unix_fd = -1)
    (ha : 0 ≤ s.argo_fd) (hl : 0 ≤ s.listen_fd) (hal : s.argo_fd ≠ s.listen_fd) :
    wait_set s = (max s.argo_fd s.listen_fd + 1, [s.argo_fd, s.listen_fd]) := by
  have h1 : s.argo_fd > -1 := by omega
  have h2 : ¬ s.listen_fd = s.argo_fd := fun h => hal h.symm
  have h3 : ¬ ((0 : Int) ≤ -1) := by decide
  have h4 : (if s.argo_fd < s.listen_fd then s.listen_fd else s.argo_fd)
      = max s.argo_fd s.listen_fd := by
    split_ifs with h
    · rw [max_eq_right (le_of_lt h)]
    · rw [max_eq_left (by omega)]
  simp [wait_set, FD_SET, ha, hl, hu, h1, h2, h3, h4]

/-- The wait set when a client is present. -/
theorem wait_set_client (s : qmp_helper_state) (hu : 0 ≤ s.unix_fd)
    (ha : 0 ≤ s.argo_fd) (hua : s.unix_fd ≠ s.argo_fd) :
    wait_set s = (max s.argo_fd s.unix_fd + 1, [s.argo_fd, s.unix_fd]) := by
  have h1 : s.argo_fd > -1 := by omega
  have h2 : ¬ s.unix_fd = -1 := by omega
  have h4 : (if s.argo_fd < s.unix_fd then s.unix_fd else s.argo_fd)
      = max s.argo_fd s.unix_fd := by
    split_ifs with h
    · rw [max_eq_right (le_of_lt h)]
    · rw [max_eq_left (by omega)]
  simp [wait_set, FD_SET, ha, hu, h1, h2, hua, h4]

theorem qmph_init_unix_socket_unix_fd (env : StartupEnv) (s : qmp_helper_state)
    (w : World) : (qmph_init_unix_socket env s w).2.1.unix_fd = -1 := by
  unfold qmph_init_unix_socket
  simp only
  split_ifs <;> rfl

/-- The loop is entered with no client. -/
theorem main_startup_unix_fd (atoi : String → Int) (o : Nat) (env : StartupEnv)
    (argv : List String) (w : World) (g1 : Globals) (w1 : World)
    (h : main_startup atoi o env argv w = Outcome.running g1 w1) :
    g1.qhs.unix_fd = -1 := by
  unfold main_startup at h
  simp only at h
  split_ifs at h
  unfold main_sockets at h
  simp only at h
  split_ifs at h
  simp only [Outcome.running.injEq] at h
  rw [← h.1]
  exact qmph_init_unix_socket_unix_fd _ _ _

/-- What the wait set of one state holds, and what its `nfds` is. -/
theorem wait_set_spec (s : qmp_helper_state)
    (ha : 0 ≤ s.argo_fd) (hl : 0 ≤ s.listen_fd) (hu : -1 ≤ s.unix_fd)
    (hal : s.argo_fd ≠ s.listen_fd) (hua : s.unix_fd ≠ s.argo_fd)
    (hul : s.unix_fd ≠ s.listen_fd) :
    s.argo_fd ∈ (wait_set s).2 ∧
    (s.unix_fd ∈ (wait_set s).2 ↔ 0 ≤ s.unix_fd) ∧
    (s.listen_fd ∈ (wait_set s).2 ↔ s.unix_fd = -1) ∧
    (wait_set s).2.length = 2 ∧ (wait_set s).2.Nodup ∧
    ¬ (s.unix_fd ∈ (wait_set s).2 ∧ s.listen_fd ∈ (wait_set s).2) ∧
    (∀ fd ∈ (wait_set s).2, fd < (wait_set s).1) ∧
    (wait_set s).1 - 1 ∈ (wait_set s).2 ∧
    (∀ ready : List Int,
      FD_ISSET s.listen_fd ((wait_set s).2.filter (fun fd => decide (fd ∈ ready))) = true →
      s.unix_fd = -1) := by
  have hmax : ∀ a b : Int, max a b = a ∨ max a b = b := by
    intro a b
    rcases le_total a b with h | h
    · exact Or.inr (max_eq_right h)
    · exact Or.inl (max_eq_left h)
  by_cases hc : s.unix_fd = -1
  · rw [wait_set_idle s hc ha hl hal]
    have h1 : ¬ s.unix_fd = s.argo_fd := hua
    have h2 : ¬ s.unix_fd = s.listen_fd := hul
    have h3 : ¬ (0 ≤ s.unix_fd) := by omega
    refine ⟨by simp, by simp [h1, h2, h3], by simp [hc], rfl, by simp [hal],
      by simp [h1, h2], ?_, ?_, fun _ _ => hc⟩
    · intro fd hfd
      simp only [List.mem_cons, List.mem_singleton, List.not_mem_nil, or_false] at hfd
      have := le_max_left s.argo_fd s.listen_fd
      have := le_max_right s.argo_fd s.listen_fd
      rcases hfd with hfd | hfd <;> omega
    · simp only [add_sub_cancel_right, List.mem_cons, List.mem_singleton,
        List.not_mem_nil, or_false]
      exact hmax _ _
  · have h0 : 0 ≤ s.unix_fd := by omega
    rw [wait_set_client s h0 ha hua]
    have h1 : ¬ s.listen_fd = s.argo_fd := fun h => hal h.symm
    have h2 : ¬ s.listen_fd = s.unix_fd := fun h => hul h.symm
    refine ⟨by simp, by simp [h0], by simp [h1, h2, hc], rfl,
      by simp; exact fun h => hua h.symm,
      by simp [h1, h2], ?_, ?_, ?_⟩
    · intro fd hfd
      simp only [List.mem_cons, List.mem_singleton, List.not_mem_nil, or_false] at hfd
      have := le_max_left s.argo_fd s.unix_fd
      have := le_max_right s.argo_fd s.unix_fd
      rcases hfd with hfd | hfd <;> omega
    · simp only [add_sub_cancel_right, List.mem_cons, List.mem_singleton,
        List.not_mem_nil, or_false]
      exact hmax _ _
    · intro ready hready
      rw [FD_ISSET_nonneg _ _ hl] at hready
      simp only [decide_eq_true_eq] at hready
      have hmem := List.mem_of_mem_filter hready
      simp [h1, h2] at hmem

/-- C14. Wait-set composition.  For every state at the top of an iteration
with `argo_fd >= 0`, `listen_fd >= 0`, `unix_fd` either -1 or a descriptor,
and the descriptors distinct: the set passed to `select` contains the
transport socket, the client socket if and only if `unix_fd >= 0`, and the
listener if and only if `unix_fd = -1`; it holds exactly two descriptors,
never the client and the listener together; every descriptor in it is below
`nfds`, and `nfds - 1` is in it.  The listener can be found ready after
`select` only when `unix_fd = -1`, and when it is not found ready the listener
part of the body makes no call at all, so accept is attempted only while the
client slot is empty.  In every state in which the loop stands after startup,
`unix_fd` is indeed -1 or a descriptor. -/
theorem wait_set_composition :
    (∀ s : qmp_helper_state,
      0 ≤ s.argo_fd → 0 ≤ s.listen_fd → -1 ≤ s.unix_fd →
      s.argo_fd ≠ s.listen_fd → s.unix_fd ≠ s.argo_fd → s.unix_fd ≠ s.listen_fd →
      s.argo_fd ∈ (wait_set s).2 ∧
      (s.unix_fd ∈ (wait_set s).2 ↔ 0 ≤ s.unix_fd) ∧
      (s.listen_fd ∈ (wait_set s).2 ↔ s.unix_fd = -1) ∧
      (wait_set s).2.length = 2 ∧ (wait_set s).2.Nodup ∧
      ¬ (s.unix_fd ∈ (wait_set s).2 ∧ s.listen_fd ∈ (wait_set s).2) ∧
      (∀ fd ∈ (wait_set s).2, fd < (wait_set s).1) ∧
      (wait_set s).1 - 1 ∈ (wait_set s).2 ∧
      (∀ ready : List Int,
        FD_ISSET s.listen_fd ((wait_set s).2.filter (fun fd => decide (fd ∈ ready))) = true →
        s.unix_fd = -1)) ∧
    (∀ (rfds : List Int) (g : Globals) (w : World),
      FD_ISSET g.qhs.listen_fd rfds = false →
      main_accept_block rfds g w = LoopStep.continue g w) ∧
    (∀ (atoi : String → Int) (o : Nat) (env : StartupEnv) (argv : List String) (w : World)
        (fuel : Nat) (g1 : Globals) (w1 : World),
      main atoi o env argv w fuel = Outcome.running g1 w1 → -1 ≤ g1.qhs.unix_fd) := by
  refine ⟨wait_set_spec, ?_, ?_⟩
  · intro rfds g w h
    simp [main_accept_block, h]
  · intro atoi o env argv w fuel g1 w1 h
    simp only [main] at h
    cases hstart : main_startup atoi o env argv w with
    | returned c g2 w2 => simp [hstart] at h
    | exited c g2 w2 => simp [hstart] at h
    | running g2 w2 =>
      simp only [hstart] at h
      have hf := main_loop_frame fuel g2 w2 g1 w1 h
      have h0 := main_startup_unix_fd atoi o env argv w g2 w2 hstart
      exact hf.2.2.1 (by omega)

/-- C14, at instances: the state with no client, the state with client 5, and
a run of two iterations from startup. -/
theorem wait_set_composition_witness :
    (idle_state.argo_fd ∈ (wait_set idle_state).2 ∧
      (idle_state.unix_fd ∈ (wait_set idle_state).2 ↔ 0 ≤ idle_state.unix_fd) ∧
      (idle_state.listen_fd ∈ (wait_set idle_state).2 ↔ idle_state.unix_fd = -1) ∧
      (wait_set idle_state).2.length = 2 ∧ (wait_set idle_state).2.Nodup ∧
      ¬ (idle_state.unix_fd ∈ (wait_set idle_state).2 ∧
          idle_state.listen_fd ∈ (wait_set idle_state).2) ∧
      (∀ fd ∈ (wait_set idle_state).2, fd < (wait_set idle_state).1) ∧
      (wait_set idle_state).1 - 1 ∈ (wait_set idle_state).2 ∧
      (∀ ready : List Int,
        FD_ISSET idle_state.listen_fd
            ((wait_set idle_state).2.filter (fun fd => decide (fd ∈ ready))) = true →
        idle_state.unix_fd = -1)) ∧
    (live_state.argo_fd ∈ (wait_set live_state).2 ∧
      (live_state.unix_fd ∈ (wait_set live_state).2 ↔ 0 ≤ live_state.unix_fd) ∧
      (live_state.listen_fd ∈ (wait_set live_state).2 ↔ live_state.unix_fd = -1) ∧
      (wait_set live_state).2.length = 2 ∧ (wait_set live_state).2.Nodup ∧
      ¬ (live_state.unix_fd ∈ (wait_set live_state).2 ∧
          live_state.listen_fd ∈ (wait_set live_state).2) ∧
      (∀ fd ∈ (wait_set live_state).2, fd < (wait_set live_state).1) ∧
      (wait_set live_state).1 - 1 ∈ (wait_set live_state).2 ∧
      (∀ ready : List Int,
        FD_ISSET live_state.listen_fd
            ((wait_set live_state).2.filter (fun fd => decide (fd ∈ ready))) = true →
        live_state.unix_fd = -1)) ∧
    -1 ≤ ({ qhs := { idle_state with connected := true,
                                      msg_buf := ping ++ List.replicate 12 0 },
            pending_exit := 0 } : Globals).qhs.unix_fd :=
  ⟨wait_set_composition.1 idle_state (by decide) (by decide) (by decide) (by decide)
      (by decide) (by decide),
   wait_set_composition.1 live_state (by decide) (by decide) (by decide) (by decide)
      (by decide) (by decide),
   wait_set_composition.2.2 sample_atoi 16368 good_startup ["qmp_helper", "1", "2"]
      write_failure_world 2
      { qhs := { idle_state with connected := true,
                                 msg_buf := ping ++ List.replicate 12 0 },
        pending_exit := 0 }
      { quiet_world with
          selects := [SelectRet.done 1 0 [4]],
          accepts := [{ ret := 6, errno := 0 }],
          sends := [{ ret := 4, errno := 0 }],
          trace := [Event.openlog, Event.signal_sigint, Event.argo_socket 3,
                    Event.ioctl_setringsize 3 16 0,
                    Event.argo_bind 3 { aport := 5100, domain_id := 0 } 2 0,
                    Event.socket 4, Event.unlink "/var/run/xen/qmp-libxl-1",
                    Event.bind 4 "/var/run/xen/qmp-libxl-1" 0, Event.listen 4 1 0,
                    Event.select 5 [3, 4], Event.accept 4 5,
                    Event.argo_sendto 3 ARGO_MAGIC_CONNECT
                      { aport := 15100, domain_id := 2 } 4,
                    Event.select 6 [3, 5], Event.argo_recvfrom 3 16 4,
                    Event.write 5 ping (-1), Event.close 5] }
      (by decide)⟩

/-- The end-of-file branch when the session is up and the first send accepts
the token. -/
theorem eof_disconnect_steps (s : qmp_helper_state) (w : World) (rd : ReadRet)
    (rr : List ReadRet) (sd : SysRet) (sr : List SysRet)
    (hc : s.connected = true) (hr : w.reads = rd :: rr) (h0 : rd.ret = 0)
    (hs : w.sends = sd :: sr) (hsd : sd.ret = 4) :
    qmph_unix_to_argo s w
      = some (0, { s with connected := false, unix_fd := -1 },
              { w with reads := rr, sends := sr,
                       trace := w.trace ++
                         [Event.read s.unix_fd s.msg_buf.length 0,
                          Event.argo_sendto s.argo_fd ARGO_MAGIC_DISCONNECT
                            s.remote_addr 4,
                          Event.close s.unix_fd] }) := by
  rw [qmph_unix_to_argo_eof s w rd rr hr h0]
  simp only [qmp_disconnect]
  rw [qmp_magic_message_first s false
    { w with reads := rr,
             trace := w.trace ++ [Event.read s.unix_fd s.msg_buf.length 0] }
    sd sr (by simp [hc]) hs hsd]
  simp [World.emit]

/-- An iteration in which only the listener is ready, the accept succeeds and
the first send accepts the token. -/
theorem main_iteration_accept (s : qmp_helper_state) (p : Int) (w : World)
    (sel : List SelectRet) (ac : SysRet) (acs : List SysRet) (sd : SysRet)
    (sr : List SysRet) (r e : Int)
    (hu : s.unix_fd = -1) (hc : s.connected = false)
    (ha : 0 ≤ s.argo_fd) (hl : 0 ≤ s.listen_fd) (hal : s.argo_fd ≠ s.listen_fd)
    (hsel : w.selects = SelectRet.done r e [s.listen_fd] :: sel) (hr : r ≠ -1)
    (hac : w.accepts = ac :: acs) (hac0 : 0 ≤ ac.ret) (hacl : ac.ret ≠ s.listen_fd)
    (hsd : w.sends = sd :: sr) (hsd4 : sd.ret = 4) :
    main_iteration { qhs := s, pending_exit := p } w
      = LoopStep.continue
          { qhs := { s with unix_fd := ac.ret, connected := true }, pending_exit := p }
          { w with selects := sel, accepts := acs, sends := sr,
                   trace := w.trace ++
                     [Event.select (max s.argo_fd s.listen_fd + 1) [s.argo_fd, s.listen_fd],
                      Event.accept s.listen_fd ac.ret,
                      Event.argo_sendto s.argo_fd ARGO_MAGIC_CONNECT s.remote_addr 4] } := by
  have hneg : ¬ ac.ret < 0 := by omega
  have hfil : [s.argo_fd, s.listen_fd].filter (fun fd => decide (fd ∈ [s.listen_fd]))
      = [s.listen_fd] := by
    simp [List.filter, hal]
  have hconn := qmp_magic_message_first { s with unix_fd := ac.ret } true
    { w with selects := sel, accepts := acs,
             trace := w.trace ++
               [Event.select (max s.argo_fd s.listen_fd + 1) [s.argo_fd, s.listen_fd]] ++
               [Event.accept s.listen_fd ac.ret] }
    sd sr (by simp [hc]) hsd hsd4
  have fl : ∀ set, FD_ISSET s.listen_fd set = decide (s.listen_fd ∈ set) :=
    fun _ => FD_ISSET_nonneg _ _ hl
  have fa : ∀ set, FD_ISSET s.argo_fd set = decide (s.argo_fd ∈ set) :=
    fun _ => FD_ISSET_nonneg _ _ ha
  have fc : ∀ set, FD_ISSET ac.ret set = decide (ac.ret ∈ set) :=
    fun _ => FD_ISSET_nonneg _ _ hac0
  simp only [main_iteration, wait_set_idle s hu ha hl hal, hsel, hr, if_false, hfil]
  simp only [main_accept_block, fl, List.mem_singleton, decide_True, if_true,
    qmph_accept_unix_socket, hac, hneg, if_false, qmp_connect, hconn]
  simp [main_unix_block, main_argo_block, fa, fc, hacl, hal]

/-- An iteration in which only the client is ready, the read returns bytes and
the send accepts them all. -/
theorem main_iteration_forward (s : qmp_helper_state) (p : Int) (w : World)
    (sel : List SelectRet) (rd : ReadRet) (rr : List ReadRet) (sd : SysRet)
    (sr : List SysRet) (r e : Int)
    (hu : 0 ≤ s.unix_fd) (ha : 0 ≤ s.argo_fd) (hl : 0 ≤ s.listen_fd)
    (hua : s.unix_fd ≠ s.argo_fd) (hul : s.unix_fd ≠ s.listen_fd)
    (hsel : w.selects = SelectRet.done r e [s.unix_fd] :: sel) (hr : r ≠ -1)
    (hrd : w.reads = rd :: rr) (hsd : w.sends = sd :: sr)
    (hff : fault_free s.msg_buf.length rd sd) :
    main_iteration { qhs := s, pending_exit := p } w
      = LoopStep.continue
          { qhs := { s with msg_buf := buf_store s.msg_buf rd.data }, pending_exit := p }
          { w with selects := sel, reads := rr, sends := sr,
                   trace := w.trace ++
                     [Event.select (max s.argo_fd s.unix_fd + 1) [s.argo_fd, s.unix_fd],
                      Event.read s.unix_fd s.msg_buf.length rd.ret,
                      Event.argo_sendto s.argo_fd rd.data s.remote_addr rd.ret] } := by
  have hau : ¬ s.argo_fd = s.unix_fd := fun h => hua h.symm
  have hlu : ¬ s.listen_fd = s.unix_fd := fun h => hul h.symm
  have hfil : [s.argo_fd, s.unix_fd].filter (fun fd => decide (fd ∈ [s.unix_fd]))
      = [s.unix_fd] := by
    simp [List.filter, hau]
  have hfwd := unix_to_argo_forward s
    { w with selects := sel,
             trace := w.trace ++
               [Event.select (max s.argo_fd s.unix_fd + 1) [s.argo_fd, s.unix_fd]] }
    rd sd rr sr hrd hsd hff
  have fl : ∀ set, FD_ISSET s.listen_fd set = decide (s.listen_fd ∈ set) :=
    fun _ => FD_ISSET_nonneg _ _ hl
  have fa : ∀ set, FD_ISSET s.argo_fd set = decide (s.argo_fd ∈ set) :=
    fun _ => FD_ISSET_nonneg _ _ ha
  have fu : ∀ set, FD_ISSET s.unix_fd set = decide (s.unix_fd ∈ set) :=
    fun _ => FD_ISSET_nonneg _ _ hu
  simp only [main_iteration, wait_set_client s hu ha hua, hsel, hr, if_false, hfil]
  simp only [main_accept_block, fl, List.mem_singleton, hlu, decide_False,
    Bool.false_eq_true, if_false]
  simp only [main_unix_block, fu, List.mem_singleton, decide_True, if_true, hfwd]
  simp [main_argo_block, fa, hau]

/-- An iteration in which only the client is ready, the read returns 0 while
the session is up, and the first send accepts the token. -/
theorem main_iteration_eof (s : qmp_helper_state) (p : Int) (w : World)
    (sel : List SelectRet) (rd : ReadRet) (rr : List ReadRet) (sd : SysRet)
    (sr : List SysRet) (r e : Int)
    (hu : 0 ≤ s.unix_fd) (hc : s.connected = true) (ha : 0 ≤ s.argo_fd)
    (hl : 0 ≤ s.listen_fd) (hua : s.unix_fd ≠ s.argo_fd) (hul : s.unix_fd ≠ s.listen_fd)
    (hsel : w.selects = SelectRet.done r e [s.unix_fd] :: sel) (hr : r ≠ -1)
    (hrd : w.reads = rd :: rr) (hrd0 : rd.ret = 0)
    (hsd : w.sends = sd :: sr) (hsd4 : sd.ret = 4) :
    main_iteration { qhs := s, pending_exit := p } w
      = LoopStep.continue
          { qhs := { s with connected := false, unix_fd := -1 }, pending_exit := p }
          { w with selects := sel, reads := rr, sends := sr,
                   trace := w.trace ++
                     [Event.select (max s.argo_fd s.unix_fd + 1) [s.argo_fd, s.unix_fd],
                      Event.read s.unix_fd s.msg_buf.length 0,
                      Event.argo_sendto s.argo_fd ARGO_MAGIC_DISCONNECT s.remote_addr 4,
                      Event.close s.unix_fd] } := by
  have hau : ¬ s.argo_fd = s.unix_fd := fun h => hua h.symm
  have hlu : ¬ s.listen_fd = s.unix_fd := fun h => hul h.symm
  have hfil : [s.argo_fd, s.unix_fd].filter (fun fd => decide (fd ∈ [s.unix_fd]))
      = [s.unix_fd] := by
    simp [List.filter, hau]
  have heof := (eof_disconnect_steps s
    { w with selects := sel,
             trace := w.trace ++
               [Event.select (max s.argo_fd s.unix_fd + 1) [s.argo_fd, s.unix_fd]] }
    rd rr sd sr hc hrd hrd0 hsd hsd4)
  have fl : ∀ set, FD_ISSET s.listen_fd set = decide (s.listen_fd ∈ set) :=
    fun _ => FD_ISSET_nonneg _ _ hl
  have fa : ∀ set, FD_ISSET s.argo_fd set = decide (s.argo_fd ∈ set) :=
    fun _ => FD_ISSET_nonneg _ _ ha
  have fu : ∀ set, FD_ISSET s.unix_fd set = decide (s.unix_fd ∈ set) :=
    fun _ => FD_ISSET_nonneg _ _ hu
  simp only [main_iteration, wait_set_client s hu ha hua, hsel, hr, if_false, hfil]
  simp only [main_accept_block, fl, List.mem_singleton, hlu, decide_False,
    Bool.false_eq_true, if_false]
  simp only [main_unix_block, fu, List.mem_singleton, decide_True, if_true, heof]
  simp [main_argo_block, fa, hau]

theorem main_loop_step (n : Nat) (g : Globals) (w : World) (g1 : Globals) (w1 : World)
    (hp : g.pending_exit = 0)
    (h : main_iteration g w = LoopStep.continue g1 w1) :
    main_loop (n + 1) g w = main_loop n g1 w1 := by
  simp [main_loop, hp, h]

/-- C13. End-to-end session cycle (Scenario B).  From any state as the loop
first sees it (no client, `connected = false`, distinct descriptors, a buffer
of at least 4 bytes), when the listener is ready and accept returns `c1`, then
the client is ready and its read returns "ping", then the client is ready and
its read returns 0, then the listener is ready and accept returns `c2`, the
transport accepting every send in full: the four iterations run to the end
with the trace below.  The messages on the transport are exactly "live",
"ping", "dead", "live"; the listener is in the wait set of the first and
fourth `select` only, the fourth coming after the close of `c1`; and the loop
then stands with client `c2` present and `connected = true`. -/
theorem session_cycle (s : qmp_helper_state) (w : World) (c1 c2 : Int)
    (hu : s.unix_fd = -1) (hc : s.connected = false)
    (ha : 0 ≤ s.argo_fd) (hl : 0 ≤ s.listen_fd) (hal : s.argo_fd ≠ s.listen_fd)
    (hbuf : 4 ≤ s.msg_buf.length)
    (h1 : 0 ≤ c1) (h1a : c1 ≠ s.argo_fd) (h1l : c1 ≠ s.listen_fd)
    (h2 : 0 ≤ c2) (h2l : c2 ≠ s.listen_fd)
    (hsel : w.selects = [SelectRet.done 1 0 [s.listen_fd], SelectRet.done 1 0 [c1],
                         SelectRet.done 1 0 [c1], SelectRet.done 1 0 [s.listen_fd]])
    (hacc : w.accepts = [{ ret := c1, errno := 0 }, { ret := c2, errno := 0 }])
    (hrd : w.reads = [{ ret := 4, errno := 0, data := ping },
                      { ret := 0, errno := 0, data := [] }])
    (hsd : w.sends = [{ ret := 4, errno := 0 }, { ret := 4, errno := 0 },
                      { ret := 4, errno := 0 }, { ret := 4, errno := 0 }]) :
    ∃ evs,
      main_loop 4 { qhs := s, pending_exit := 0 } w
        = Outcome.running
            { qhs := { s with unix_fd := c2, connected := true,
                              msg_buf := buf_store s.msg_buf ping },
              pending_exit := 0 }
            { w with selects := [], accepts := [], reads := [], sends := [],
                     trace := w.trace ++ evs } ∧
      evs = [Event.select (max s.argo_fd s.listen_fd + 1) [s.argo_fd, s.listen_fd],
             Event.accept s.listen_fd c1,
             Event.argo_sendto s.argo_fd ARGO_MAGIC_CONNECT s.remote_addr 4,
             Event.select (max s.argo_fd c1 + 1) [s.argo_fd, c1],
             Event.read c1 s.msg_buf.length 4,
             Event.argo_sendto s.argo_fd ping s.remote_addr 4,
             Event.select (max s.argo_fd c1 + 1) [s.argo_fd, c1],
             Event.read c1 s.msg_buf.length 0,
             Event.argo_sendto s.argo_fd ARGO_MAGIC_DISCONNECT s.remote_addr 4,
             Event.close c1,
             Event.select (max s.argo_fd s.listen_fd + 1) [s.argo_fd, s.listen_fd],
             Event.accept s.listen_fd c2,
             Event.argo_sendto s.argo_fd ARGO_MAGIC_CONNECT s.remote_addr 4] ∧
      sent_payloads evs
        = [ARGO_MAGIC_CONNECT, ping, ARGO_MAGIC_DISCONNECT, ARGO_MAGIC_CONNECT] := by
  have i1 := main_iteration_accept s 0 w
    [SelectRet.done 1 0 [c1], SelectRet.done 1 0 [c1], SelectRet.done 1 0 [s.listen_fd]]
    { ret := c1, errno := 0 } [{ ret := c2, errno := 0 }] { ret := 4, errno := 0 }
    [{ ret := 4, errno := 0 }, { ret := 4, errno := 0 }, { ret := 4, errno := 0 }]
    1 0 hu hc ha hl hal hsel (by decide) hacc h1 h1l hsd rfl
  have i2 := main_iteration_forward { s with unix_fd := c1, connected := true } 0
    { w with selects := [SelectRet.done 1 0 [c1], SelectRet.done 1 0 [c1],
                         SelectRet.done 1 0 [s.listen_fd]],
             accepts := [{ ret := c2, errno := 0 }],
             sends := [{ ret := 4, errno := 0 }, { ret := 4, errno := 0 },
                       { ret := 4, errno := 0 }],
             trace := w.trace ++
               [Event.select (max s.argo_fd s.listen_fd + 1) [s.argo_fd, s.listen_fd],
                Event.accept s.listen_fd c1,
                Event.argo_sendto s.argo_fd ARGO_MAGIC_CONNECT s.remote_addr 4] }
    [SelectRet.done 1 0 [c1], SelectRet.done 1 0 [s.listen_fd]]
    { ret := 4, errno := 0, data := ping } [{ ret := 0, errno := 0, data := [] }]
    { ret := 4, errno := 0 } [{ ret := 4, errno := 0 }, { ret := 4, errno := 0 }] 1 0
    h1 ha hl h1a h1l rfl (by decide) hrd rfl ⟨rfl, by decide, hbuf, rfl⟩
  have i3 := main_iteration_eof
    { s with unix_fd := c1, connected := true, msg_buf := buf_store s.msg_buf ping } 0
    { w with selects := [SelectRet.done 1 0 [c1], SelectRet.done 1 0 [s.listen_fd]],
             accepts := [{ ret := c2, errno := 0 }],
             reads := [{ ret := 0, errno := 0, data := [] }],
             sends := [{ ret := 4, errno := 0 }, { ret := 4, errno := 0 }],
             trace := w.trace ++
               [Event.select (max s.argo_fd s.listen_fd + 1) [s.argo_fd, s.listen_fd],
                Event.accept s.listen_fd c1,
                Event.argo_sendto s.argo_fd ARGO_MAGIC_CONNECT s.remote_addr 4] ++
               [Event.select (max s.argo_fd c1 + 1) [s.argo_fd, c1],
                Event.read c1 s.msg_buf.length 4,
                Event.argo_sendto s.argo_fd ping s.remote_addr 4] }
    [SelectRet.done 1 0 [s.listen_fd]]
    { ret := 0, errno := 0, data := [] } [] { ret := 4, errno := 0 }
    [{ ret := 4, errno := 0 }] 1 0
    h1 rfl ha hl h1a h1l rfl (by decide) rfl rfl rfl rfl
  have i4 := main_iteration_accept
    { s with unix_fd := -1, connected := false, msg_buf := buf_store s.msg_buf ping } 0
    { w with selects := [SelectRet.done 1 0 [s.listen_fd]],
             accepts := [{ ret := c2, errno := 0 }],
             reads := [],
             sends := [{ ret := 4, errno := 0 }],
             trace := w.trace ++
               [Event.select (max s.argo_fd s.listen_fd + 1) [s.argo_fd, s.listen_fd],
                Event.accept s.listen_fd c1,
                Event.argo_sendto s.argo_fd ARGO_MAGIC_CONNECT s.remote_addr 4] ++
               [Event.select (max s.argo_fd c1 + 1) [s.argo_fd, c1],
                Event.read c1 s.msg_buf.length 4,
                Event.argo_sendto s.argo_fd ping s.remote_addr 4] ++
               [Event.select (max s.argo_fd c1 + 1) [s.argo_fd, c1],
                Event.read c1 s.msg_buf.length 0,
                Event.argo_sendto s.argo_fd ARGO_MAGIC_DISCONNECT s.remote_addr 4,
                Event.close c1] }
    [] { ret := c2, errno := 0 } [] { ret := 4, errno := 0 } [] 1 0
    rfl rfl ha hl hal rfl (by decide) rfl h2 h2l rfl rfl
  refine ⟨_, ?_, rfl, by simp [sent_payloads]⟩
  refine (main_loop_step 3 _ _ _ _ rfl i1).trans ?_
  refine (main_loop_step 2 _ _ _ _ rfl
    (by simpa [buf_store_length] using i2)).trans ?_
  refine (main_loop_step 1 _ _ _ _ rfl
    (by simpa [buf_store_length] using i3)).trans ?_
  refine (main_loop_step 0 _ _ _ _ rfl
    (by simpa [buf_store_length] using i4)).trans ?_
  simp [main_loop]

/-- C13, at an instance: Scenario B on descriptors 3 (transport), 4 (listener),
5 and 6 (the two clients). -/
theorem session_cycle_witness :
    ∃ evs,
      main_loop 4 { qhs := idle_state, pending_exit := 0 } scenario_world
        = Outcome.running
            { qhs := { idle_state with unix_fd := 6, connected := true,
                                       msg_buf := buf_store idle_state.msg_buf ping },
              pending_exit := 0 }
            { scenario_world with selects := [], accepts := [], reads := [], sends := [],
                                  trace := scenario_world.trace ++ evs } ∧
      evs = [Event.select (max idle_state.argo_fd idle_state.listen_fd + 1)
               [idle_state.argo_fd, idle_state.listen_fd],
             Event.accept idle_state.listen_fd 5,
             Event.argo_sendto idle_state.argo_fd ARGO_MAGIC_CONNECT idle_state.remote_addr 4,
             Event.select (max idle_state.argo_fd 5 + 1) [idle_state.argo_fd, 5],
             Event.read 5 idle_state.msg_buf.length 4,
             Event.argo_sendto idle_state.argo_fd ping idle_state.remote_addr 4,
             Event.select (max idle_state.argo_fd 5 + 1) [idle_state.argo_fd, 5],
             Event.read 5 idle_state.msg_buf.length 0,
             Event.argo_sendto idle_state.argo_fd ARGO_MAGIC_DISCONNECT idle_state.remote_addr 4,
             Event.close 5,
             Event.select (max idle_state.argo_fd idle_state.listen_fd + 1)
               [idle_state.argo_fd, idle_state.listen_fd],
             Event.accept idle_state.listen_fd 6,
             Event.argo_sendto idle_state.argo_fd ARGO_MAGIC_CONNECT idle_state.remote_addr 4] ∧
      sent_payloads evs
        = [ARGO_MAGIC_CONNECT, ping, ARGO_MAGIC_DISCONNECT, ARGO_MAGIC_CONNECT] :=
  session_cycle idle_state scenario_world 5 6 rfl rfl (by decide) (by decide) (by decide)
    (by decide) (by decide) (by decide) (by decide) (by decide) (by decide)
    rfl rfl rfl rfl

/-- C17, at the failing input: the listener is ready and `accept` returns -1.
`qmph_accept_unix_socket` closes the listener, then `qmph_exit_cleanup` closes
it again: over the run the listener descriptor 4 is closed twice.  The
teardown also calls `close` on `unix_fd = -1` although no client is present. -/
theorem accept_failure_closes_listener_twice :
    main_loop 1 { qhs := idle_state, pending_exit := 0 }
        { quiet_world with
            selects := [SelectRet.done 1 0 [4]],
            accepts := [{ ret := -1, errno := 24 }] }
      = Outcome.exited (-1)
          { qhs := { idle_state with argo_fd := -1 }, pending_exit := 1 }
          { quiet_world with
              trace := [Event.select 5 [3, 4], Event.accept 4 (-1), Event.close 4,
                        Event.close (-1), Event.close 4, Event.argo_close 3,
                        Event.closelog, Event.exit (-1)] } ∧
    List.count (Event.close 4)
        [Event.select 5 [3, 4], Event.accept 4 (-1), Event.close 4,
         Event.close (-1), Event.close 4, Event.argo_close 3,
         Event.closelog, Event.exit (-1)] = 2 := by
  decide

end QmpHelper
